import Mathlib

/-!
# AST extractor (`ast-extractor/AstExtractor.cpp`)

A shallow embedding of the exporter: the type encoder (`TypeEncoder`), the node
encoder (`TranslateASTVisitor`) and the document assembler
(`TranslateConsumer::HandleTranslationUnit`).

Conventions of the embedding.

* Object addresses (`uintptr_t`, `void*`, `const Type*`) are natural numbers, the
  null pointer is `0`.
* The front end (clang) is an external collaborator.  Its objects are given as data:
  a `Ty` is a type object together with what its accessors return, a `Node` is a
  declaration or statement object together with what its accessors return and with the
  sub-objects `RecursiveASTVisitor` walks into (in walk order).
* The CBOR stream written through `encoder` is kept as the list of entries written so
  far; the bytes are produced from it by a writer (`TinyCbor`) that stands for the
  external encoding library.
* The walk through `RecursiveASTVisitor::TraverseDecl` is bounded by a fuel counter
  that is only consumed when `VisitRecordType` re-enters the walker.
-/

namespace AstExtractor

/-- Object address; `0` is `nullptr`.  Type objects and node objects are aligned, so
`uintptr_t(T) + const_bit` never wraps and is taken in `Nat`.  (For `omega`, unfold
with `simp only [Ptr] at *` first.) -/
abbrev Ptr := Nat

/-! ## Tags (`ast_tags.hpp`) -/

/-- Modelled from the spec: `ast_tags.hpp` is not among the sources; the enumerators
are the ones `TypeEncoder` names, their numeric values are a parameter of the byte
writer. -/
inductive TypeTag where
  | TagEnumType | TagConstantArrayType | TagVariableArrayType | TagIncompleteArrayType
  | TagRecordType | TagTypeUnknown
  | TagShort | TagInt | TagLong | TagLongLong | TagUShort | TagUInt | TagULong | TagULongLong
  | TagDouble | TagLongDouble | TagFloat | TagSChar | TagUChar | TagChar | TagVoid | TagBool
  | TagFunctionType | TagPointer | TagTypedefType | TagTypeOfType | TagElaboratedType
  | TagDecayedType
  deriving DecidableEq, Repr

/-- Modelled from the spec: `ast_tags.hpp` is not among the sources; the enumerators
are the ones `TranslateASTVisitor` names, their numeric values are a parameter of the
byte writer. -/
inductive ASTEntryTag where
  | TagCompoundStmt | TagReturnStmt | TagDoStmt | TagGotoStmt | TagLabelStmt | TagNullStmt
  | TagIfStmt | TagForStmt | TagWhileStmt | TagDeclStmt | TagBreakStmt | TagContinueStmt
  | TagCaseStmt | TagSwitchStmt | TagDefaultStmt
  | TagParenExpr | TagMemberExpr | TagInitListExpr | TagImplicitValueInitExpr
  | TagImplicitCastExpr | TagCStyleCastExpr | TagUnaryOperator | TagBinaryOperator
  | TagConditionalOperator | TagBinaryConditionalOperator | TagDeclRefExpr | TagCallExpr
  | TagArraySubscriptExpr
  | TagFunctionDecl | TagVarDecl | TagRecordDecl | TagEnumDecl | TagEnumConstantDecl
  | TagFieldDecl | TagTypedefDecl
  | TagIntegerLiteral | TagCharacterLiteral | TagStringLiteral | TagFloatingLiteral
  deriving DecidableEq, Repr

/-- Modelled from the spec: `ast_tags.hpp` is not among the sources; the enumerators
are the ones `VisitStringLiteral` names. -/
inductive StringTypeTag where
  | TagAscii | TagWide | TagUTF8 | TagUTF16 | TagUTF32
  deriving DecidableEq, Repr

/-! ## The type graph handed over by the front end -/

/-- The values of `BuiltinType::getKind()` that `VisitBuiltinType` tells apart; `Other`
is every remaining kind. -/
inductive BuiltinKind where
  | Short | Int | Long | LongLong | UShort | UInt | ULong | ULongLong
  | Double | LongDouble | Float | SChar | UChar | Char_U | Char_S | Void | Bool
  | Other
  deriving DecidableEq, Repr

mutual
/-- A `clang::Type` object: its address `T`, its class, and what the accessors used by
`TypeEncoder` return.  `Unhandled` is an object of any class for which `TypeEncoder`
defines no `Visit…` method (parenthesised, complex, vector, … types). -/
inductive Ty where
  | BuiltinType (T : Ptr) (kind : BuiltinKind)
  | EnumType (T : Ptr) (decl : Ptr)
  | ConstantArrayType (T : Ptr) (elementType : QualType) (size : Nat)
  | VariableArrayType (T : Ptr) (elementType : QualType)
  | IncompleteArrayType (T : Ptr) (elementType : QualType)
  | RecordType (T : Ptr) (decl : Ptr)
  | FunctionProtoType (T : Ptr) (returnType : QualType) (paramTypes : List QualType)
  | FunctionNoProtoType (T : Ptr) (returnType : QualType)
  | PointerType (T : Ptr) (pointeeType : QualType)
  | TypedefType (T : Ptr) (decl : Ptr)
  | TypeOfType (T : Ptr) (desugared : QualType)
  | ElaboratedType (T : Ptr) (desugared : QualType)
  | DecayedType (T : Ptr) (desugared : QualType)
  | Unhandled (T : Ptr)
/-- A `clang::QualType`: null, or a type object with its `const` qualifier. -/
inductive QualType where
  | null
  | mk (ty : Ty) (hasConst : Bool)
end

/-- Address of a type object. -/
def Ty.addr : Ty → Ptr
  | .BuiltinType T _ => T
  | .EnumType T _ => T
  | .ConstantArrayType T _ _ => T
  | .VariableArrayType T _ => T
  | .IncompleteArrayType T _ => T
  | .RecordType T _ => T
  | .FunctionProtoType T _ _ => T
  | .FunctionNoProtoType T _ => T
  | .PointerType T _ => T
  | .TypedefType T _ => T
  | .TypeOfType T _ => T
  | .ElaboratedType T _ => T
  | .DecayedType T _ => T
  | .Unhandled T => T

/-- The pointer `QT.split().Ty`, also `QT.getTypePtrOrNull()`: null for a null `QualType`. -/
def QualType.getTypePtrOrNull : QualType → Ptr
  | .null => 0
  | .mk ty _ => ty.addr

/-- The value `llvm::APInt::getLimitedValue()` returns for an unsigned value `v`: `v`
itself when it fits 64 bits, the limit `UINT64_MAX` otherwise. -/
def getLimitedValue (v : Nat) : Nat :=
  if v > 2 ^ 64 - 1 then 2 ^ 64 - 1 else v

/-! ## What is written to the entries array -/

/-- One CBOR item appended by an `extra` callback. -/
inductive CborValue where
  | uint (n : Nat)
  | undefined
  | boolean (b : Bool)
  | text (s : String)
  | bytes (bs : List Nat)
  | double (bits : Nat)
  | stringTag (t : StringTypeTag)
  | array (items : List Nat)
  deriving DecidableEq, Repr

/-- One element of the entries array: a node entry
`[entity_id, tag, children, file_idx, line, col, type_id, extra…]` written by
`encode_entry_raw`, or a type entry `[entity_id, tag, extra…]` written by `encodeType`.
A `none` child or `type_id` is the CBOR null. -/
inductive Entry where
  | node (entity_id : Nat) (tag : ASTEntryTag) (children : List (Option Nat))
      (file_idx line col : Nat) (type_id : Option Nat) (extra : List CborValue)
  | type (entity_id : Nat) (tag : TypeTag) (extra : List CborValue)
  deriving DecidableEq, Repr

/-- First field of an entry. -/
def Entry.entity_id : Entry → Nat
  | .node id _ _ _ _ _ _ _ => id
  | .type id _ _ => id

/-- Whether the entry was written by `encodeType`. -/
def Entry.isType : Entry → Bool
  | .node .. => false
  | .type .. => true

/-! ## State of the two encoders -/

/-- Data members of `TypeEncoder` (`Context`, `encoder` and `astEncoder` point into the
enclosing visitor). -/
structure TypeEncoder where
  isConst : Bool
  recordDeclsUnderVisit : List Ptr
  exports : List Ptr
  deriving DecidableEq, Repr

/-- Data members of `TranslateASTVisitor`.  `encoder` is the entries array both
encoders write to. -/
structure TranslateASTVisitor where
  typeEncoder : TypeEncoder
  encoder : List Entry
  filenames : List (String × Nat)
  exportedTags : List (Ptr × ASTEntryTag)
  deriving DecidableEq, Repr

/-- State after the constructor `TranslateASTVisitor(Context, encoder)`. -/
def TranslateASTVisitor.init : TranslateASTVisitor :=
  { typeEncoder := { isConst := false, recordDeclsUnderVisit := [], exports := [] },
    encoder := [], filenames := [], exportedTags := [] }

/-- Result of a walk step: `none` when the fuel ran out. -/
abbrev Walk := TranslateASTVisitor → Option TranslateASTVisitor

/-! ## `TypeEncoder` -/

/-- Method `TypeEncoder::isUnexported`: `exports.emplace(ptr).second`. -/
def TypeEncoder.isUnexported (te : TypeEncoder) (ptr : Ptr) : Bool × TypeEncoder :=
  if ptr ∈ te.exports then (false, te)
  else (true, { te with exports := ptr :: te.exports })

/-- Method `TypeEncoder::encodeType`. -/
def encodeType (v : TranslateASTVisitor) (T : Ptr) (tag : TypeTag)
    (extra : List CborValue) : TranslateASTVisitor :=
  let r := v.typeEncoder.isUnexported T
  if r.1 = false then v
  else
    let const_bit : Nat := if v.typeEncoder.isConst then 1 else 0
    { v with typeEncoder := r.2,
             encoder := v.encoder ++ [Entry.type (T + const_bit) tag extra] }

/-- Method `TypeEncoder::VisitEnumType`. -/
def VisitEnumType (v : TranslateASTVisitor) (T decl : Ptr) : TranslateASTVisitor :=
  encodeType v T .TagEnumType [.uint decl]

/-- Method `TypeEncoder::VisitConstantArrayType`; `VisitQualType_t` is the call
`VisitQualType(t)`. -/
def VisitConstantArrayType (v : TranslateASTVisitor) (T : Ptr) (t : QualType) (size : Nat)
    (VisitQualType_t : Walk) : Option TranslateASTVisitor :=
  VisitQualType_t
    (encodeType v T .TagConstantArrayType [.uint t.getTypePtrOrNull, .uint (getLimitedValue size)])

/-- Method `TypeEncoder::VisitVariableArrayType`. -/
def VisitVariableArrayType (v : TranslateASTVisitor) (T : Ptr) (t : QualType)
    (VisitQualType_t : Walk) : Option TranslateASTVisitor :=
  VisitQualType_t
    (encodeType v T .TagVariableArrayType [.uint t.getTypePtrOrNull, .undefined])

/-- Method `TypeEncoder::VisitIncompleteArrayType`. -/
def VisitIncompleteArrayType (v : TranslateASTVisitor) (T : Ptr) (t : QualType)
    (VisitQualType_t : Walk) : Option TranslateASTVisitor :=
  VisitQualType_t (encodeType v T .TagIncompleteArrayType [.uint t.getTypePtrOrNull])

/-- The `switch` of `TypeEncoder::VisitBuiltinType`. -/
def builtinTag : BuiltinKind → TypeTag
  | .Short => .TagShort
  | .Int => .TagInt
  | .Long => .TagLong
  | .LongLong => .TagLongLong
  | .UShort => .TagUShort
  | .UInt => .TagUInt
  | .ULong => .TagULong
  | .ULongLong => .TagULongLong
  | .Double => .TagDouble
  | .LongDouble => .TagLongDouble
  | .Float => .TagFloat
  | .SChar => .TagSChar
  | .UChar => .TagUChar
  | .Char_U => .TagChar
  | .Char_S => .TagChar
  | .Void => .TagVoid
  | .Bool => .TagBool
  | .Other => .TagTypeUnknown

/-- Method `TypeEncoder::VisitBuiltinType`. -/
def VisitBuiltinType (v : TranslateASTVisitor) (T : Ptr) (kind : BuiltinKind) :
    TranslateASTVisitor :=
  encodeType v T (builtinTag kind) []

/-- Method `TypeEncoder::VisitFunctionProtoType`; the continuations are `VisitQualType` on
the return type and the loop of `VisitQualType` over `param_types()`. -/
def VisitFunctionProtoType (v : TranslateASTVisitor) (T : Ptr) (returnType : QualType)
    (paramTypes : List QualType) (VisitQualType_ret VisitQualType_params : Walk) :
    Option TranslateASTVisitor :=
  (VisitQualType_ret
    (encodeType v T .TagFunctionType
      [.array (returnType.getTypePtrOrNull :: paramTypes.map QualType.getTypePtrOrNull)])).bind
    VisitQualType_params

/-- Method `TypeEncoder::VisitFunctionNoProtoType`. -/
def VisitFunctionNoProtoType (v : TranslateASTVisitor) (T : Ptr) (returnType : QualType)
    (VisitQualType_ret : Walk) : Option TranslateASTVisitor :=
  VisitQualType_ret (encodeType v T .TagFunctionType [.array [returnType.getTypePtrOrNull]])

/-- Method `TypeEncoder::VisitPointerType`. -/
def VisitPointerType (v : TranslateASTVisitor) (T : Ptr) (pointee : QualType)
    (VisitQualType_pointee : Walk) : Option TranslateASTVisitor :=
  VisitQualType_pointee (encodeType v T .TagPointer [.uint pointee.getTypePtrOrNull])

/-- Method `TypeEncoder::VisitTypedefType`. -/
def VisitTypedefType (v : TranslateASTVisitor) (T D : Ptr) : TranslateASTVisitor :=
  encodeType v T .TagTypedefType [.uint D]

/-- Method `TypeEncoder::VisitTypeOfType`. -/
def VisitTypeOfType (v : TranslateASTVisitor) (T : Ptr) (t : QualType)
    (VisitQualType_t : Walk) : Option TranslateASTVisitor :=
  VisitQualType_t (encodeType v T .TagTypeOfType [.uint t.getTypePtrOrNull])

/-- Method `TypeEncoder::VisitElaboratedType`. -/
def VisitElaboratedType (v : TranslateASTVisitor) (T : Ptr) (t : QualType)
    (VisitQualType_t : Walk) : Option TranslateASTVisitor :=
  VisitQualType_t (encodeType v T .TagElaboratedType [.uint t.getTypePtrOrNull])

/-- Method `TypeEncoder::VisitDecayedType`. -/
def VisitDecayedType (v : TranslateASTVisitor) (T : Ptr) (t : QualType)
    (VisitQualType_t : Walk) : Option TranslateASTVisitor :=
  VisitQualType_t (encodeType v T .TagDecayedType [.uint t.getTypePtrOrNull])

/-- Method `TypeEncoder::VisitRecordType`; `TraverseDecl` is `astEncoder->TraverseDecl`. -/
def VisitRecordType (TraverseDecl : Ptr → Walk) (v : TranslateASTVisitor) (T D : Ptr) :
    Option TranslateASTVisitor :=
  let v1 := encodeType v T .TagRecordType [.uint D]
  if D ∈ v1.typeEncoder.recordDeclsUnderVisit then some v1
  else
    let v2 := { v1 with typeEncoder :=
      { v1.typeEncoder with recordDeclsUnderVisit := D :: v1.typeEncoder.recordDeclsUnderVisit } }
    (TraverseDecl D v2).bind fun v3 =>
      some { v3 with typeEncoder :=
        { v3.typeEncoder with
          recordDeclsUnderVisit := v3.typeEncoder.recordDeclsUnderVisit.erase D } }

mutual
/-- Dispatcher `TypeVisitor::Visit`: dispatch on the class of the type object; a class without a
`Visit…` method in `TypeEncoder` ends in the empty `VisitType`. -/
def Visit (TraverseDecl : Ptr → Walk) : Ty → TranslateASTVisitor → Option TranslateASTVisitor
  | .BuiltinType T kind, v => some (VisitBuiltinType v T kind)
  | .EnumType T decl, v => some (VisitEnumType v T decl)
  | .ConstantArrayType T t size, v =>
      VisitConstantArrayType v T t size (VisitQualType TraverseDecl t)
  | .VariableArrayType T t, v => VisitVariableArrayType v T t (VisitQualType TraverseDecl t)
  | .IncompleteArrayType T t, v => VisitIncompleteArrayType v T t (VisitQualType TraverseDecl t)
  | .RecordType T D, v => VisitRecordType TraverseDecl v T D
  | .FunctionProtoType T ret params, v =>
      VisitFunctionProtoType v T ret params (VisitQualType TraverseDecl ret)
        (VisitQualTypes TraverseDecl params)
  | .FunctionNoProtoType T ret, v =>
      VisitFunctionNoProtoType v T ret (VisitQualType TraverseDecl ret)
  | .PointerType T pointee, v => VisitPointerType v T pointee (VisitQualType TraverseDecl pointee)
  | .TypedefType T D, v => some (VisitTypedefType v T D)
  | .TypeOfType T t, v => VisitTypeOfType v T t (VisitQualType TraverseDecl t)
  | .ElaboratedType T t, v => VisitElaboratedType v T t (VisitQualType TraverseDecl t)
  | .DecayedType T t, v => VisitDecayedType v T t (VisitQualType TraverseDecl t)
  | .Unhandled _, v => some v
/-- Method `TypeEncoder::VisitQualType`. -/
def VisitQualType (TraverseDecl : Ptr → Walk) :
    QualType → TranslateASTVisitor → Option TranslateASTVisitor
  | .null, v => some v
  | .mk ty hasConst, v =>
      Visit TraverseDecl ty { v with typeEncoder := { v.typeEncoder with isConst := hasConst } }
/-- The loop `for (auto x : T->param_types()) VisitQualType(x)`. -/
def VisitQualTypes (TraverseDecl : Ptr → Walk) :
    List QualType → TranslateASTVisitor → Option TranslateASTVisitor
  | [], v => some v
  | x :: xs, v => (VisitQualType TraverseDecl x v).bind (VisitQualTypes TraverseDecl xs)
end

/-! ## The syntax tree handed over by the front end -/

/-- What the source manager answers for a `SourceLocation`: the presumed line and
column, and the name of the file entry of the location's file id (`none` when the
location has no file entry). -/
structure SourceLocation where
  line : Nat
  col : Nat
  fileEntry : Option String
  deriving DecidableEq, Repr

/-- The values of `StringLiteral::getKind()`. -/
inductive StringKind where
  | Ascii | Wide | UTF8 | UTF16 | UTF32
  deriving DecidableEq, Repr

/-- Class of a declaration or statement object, with what the accessors read by the
`Visit…` methods return (sub-objects are returned as pointers).  An object of a derived
class is given as the class whose `Visit…` method its `WalkUpFrom…` chain reaches (a
`ParmVarDecl` as `VarDecl`, a `CompoundAssignOperator` as `BinaryOperator`).
`FieldDecl` carries the field's type, which `VisitFieldDecl` does not read;
`TranslationUnitDecl` carries `decls()`; `Other` is an object of any class for which
`TranslateASTVisitor` defines no `Visit…` method. -/
inductive NodeKind where
  | CompoundStmt (children : List Ptr)
  | ReturnStmt (retValue : Ptr)
  | DoStmt (body cond : Ptr)
  | GotoStmt (label : Ptr)
  | LabelStmt (subStmt : Ptr) (name : String)
  | NullStmt
  | IfStmt (cond thenStmt elseStmt : Ptr)
  | ForStmt (init cond inc body : Ptr)
  | WhileStmt (cond body : Ptr)
  | DeclStmt (decls : List Ptr)
  | BreakStmt
  | ContinueStmt
  | CaseStmt (lhs subStmt : Ptr)
  | SwitchStmt (cond body : Ptr)
  | DefaultStmt (subStmt : Ptr)
  | ParenExpr (type : QualType) (subExpr : Ptr)
  | MemberExpr (type : QualType) (base memberDecl : Ptr)
  | InitListExpr (type : QualType) (inits : List Ptr)
  | ImplicitValueInitExpr (type : QualType)
  | ImplicitCastExpr (type : QualType) (subExpr : Ptr) (castKindName : String)
  | CStyleCastExpr (type : QualType) (subExpr : Ptr) (castKindName : String)
  | UnaryOperator (type : QualType) (subExpr : Ptr) (opcodeStr : String) (isPrefix : Bool)
  | BinaryOperator (type : QualType) (lhs rhs : Ptr) (opcodeStr : String)
  | ConditionalOperator (type : QualType) (cond trueExpr falseExpr : Ptr)
  | BinaryConditionalOperator (type : QualType) (common falseExpr : Ptr)
  | DeclRefExpr (type : QualType) (decl : Ptr)
  | CallExpr (type : QualType) (callee : Ptr) (arguments : List Ptr)
  | ArraySubscriptExpr (type : QualType) (lhs rhs : Ptr)
  | FunctionDecl (type : QualType) (parameters : List Ptr) (body : Ptr) (name : String)
  | VarDecl (type : QualType) (init : Ptr) (name : String)
  | RecordDecl (fields : List Ptr) (name : String)
  | EnumDecl (enumerators : List Ptr) (name : String)
  | EnumConstantDecl (initExpr : Ptr) (name : String)
  | FieldDecl (type : QualType) (name : String)
  | TypedefDecl (underlyingType : QualType) (name : String)
  | IntegerLiteral (type : QualType) (value : Nat)
  | CharacterLiteral (type : QualType) (value : Nat)
  | StringLiteral (type : QualType) (kind : StringKind) (charByteWidth : Nat)
      (bytes : List Nat)
  | FloatingLiteral (type : QualType) (valueAsApproximateDouble : Nat)
  | TranslationUnitDecl (decls : List Ptr)
  | Other

/-- A declaration or statement object: its address, its start location, its class and
accessor values, and the sub-objects `RecursiveASTVisitor` walks into, in walk order.
Objects the walker skips (implicit declarations) or does not reach from here (the label
of a `goto`, the declaration a `DeclRefExpr` names) are not among them. -/
inductive Node where
  | mk (addr : Ptr) (locStart : SourceLocation) (kind : NodeKind) (walked : List Node)

/-- Address of a node. -/
def Node.addr : Node → Ptr
  | .mk a _ _ _ => a

/-- Class and accessor values of a node. -/
def Node.kind : Node → NodeKind
  | .mk _ _ k _ => k

/-- The values of `translation_unit->decls()`. -/
def Node.decls : Node → List Ptr
  | .mk _ _ (.TranslationUnitDecl ds) _ => ds
  | _ => []

/-- The `ASTContext`: the translation unit declaration, and the record declarations
that `RecordType::getDecl()` can return, each as the tree the walker sees from it. -/
structure ASTContext where
  getTranslationUnitDecl : Node
  recordDecls : List Node

/-- The tree of the declaration at address `D`, if the walker has one to walk. -/
def ASTContext.getDecl (Context : ASTContext) (D : Ptr) : Option Node :=
  Context.recordDecls.find? fun n => n.addr == D

/-! ## `TranslateASTVisitor` -/

/-- Method `TranslateASTVisitor::markForExport`: `exportedTags.emplace(ptr,tag).second`. -/
def markForExport (v : TranslateASTVisitor) (ptr : Ptr) (tag : ASTEntryTag) :
    Bool × TranslateASTVisitor :=
  if (ptr, tag) ∈ v.exportedTags then (false, v)
  else (true, { v with exportedTags := (ptr, tag) :: v.exportedTags })

/-- The file name `encodeSourcePos` looks up: the entry's name, `"?"` without an entry. -/
def SourceLocation.filename (loc : SourceLocation) : String :=
  match loc.fileEntry with
  | some name => name
  | none => "?"

/-- The statement `filenames.insert(std::make_pair(filename, filenames.size()))` followed
by `pair.first->second`: the index of `filename`, and the table after the call. -/
def filenamesInsert (filenames : List (String × Nat)) (filename : String) :
    Nat × List (String × Nat) :=
  match filenames.lookup filename with
  | some idx => (idx, filenames)
  | none => (filenames.length, filenames ++ [(filename, filenames.length)])

/-- Method `TranslateASTVisitor::encodeSourcePos`: the three numbers written (file
index, line, column) and the visitor afterwards. -/
def encodeSourcePos (v : TranslateASTVisitor) (loc : SourceLocation) :
    (Nat × Nat × Nat) × TranslateASTVisitor :=
  let pair := filenamesInsert v.filenames loc.filename
  ((pair.1, loc.line, loc.col), { v with filenames := pair.2 })

/-- The loop over `childIds` in `encode_entry_raw`: null for `nullptr`. -/
def encodeChildIds (childIds : List Ptr) : List (Option Nat) :=
  childIds.map fun x => if x = 0 then none else some x

/-- Method `TranslateASTVisitor::encode_entry_raw`. -/
def encode_entry_raw (v : TranslateASTVisitor) (ast : Ptr) (tag : ASTEntryTag)
    (loc : SourceLocation) (ty : Ptr) (childIds : List Ptr) (extra : List CborValue) :
    TranslateASTVisitor :=
  let m := markForExport v ast tag
  if m.1 = false then v
  else
    let pos := encodeSourcePos m.2 loc
    let type_id : Option Nat := if ty = 0 then none else some ty
    { pos.2 with encoder := pos.2.encoder ++
        [Entry.node ast tag (encodeChildIds childIds) pos.1.1 pos.1.2.1 pos.1.2.2 type_id extra] }

/-- The overload `encode_entry(Expr *ast, …)`. -/
def encode_entry_Expr (TraverseDecl : Ptr → Walk) (v : TranslateASTVisitor) (ast : Ptr)
    (tag : ASTEntryTag) (loc : SourceLocation) (ty : QualType) (childIds : List Ptr)
    (extra : List CborValue) : Option TranslateASTVisitor :=
  VisitQualType TraverseDecl ty
    (encode_entry_raw v ast tag loc ty.getTypePtrOrNull childIds extra)

/-- The overload `encode_entry(Stmt *ast, …)`. -/
def encode_entry_Stmt (v : TranslateASTVisitor) (ast : Ptr) (tag : ASTEntryTag)
    (loc : SourceLocation) (childIds : List Ptr) (extra : List CborValue) :
    TranslateASTVisitor :=
  encode_entry_raw v ast tag loc 0 childIds extra

/-- The overload `encode_entry(Decl *ast, …, const Type *T, …)`. -/
def encode_entry_Decl (v : TranslateASTVisitor) (ast : Ptr) (tag : ASTEntryTag)
    (loc : SourceLocation) (childIds : List Ptr) (T : Ptr) (extra : List CborValue) :
    TranslateASTVisitor :=
  encode_entry_raw v ast tag loc T childIds extra

/-- Result of a `Visit…` method: the returned `bool` and the visitor afterwards. -/
abbrev Visited := Bool × TranslateASTVisitor

/-- A `Visit…` method for an expression: `encode_entry(E, tag, childIds, extra)` and
`return true`. -/
def visitExpr (TraverseDecl : Ptr → Walk) (v : TranslateASTVisitor) (E : Ptr)
    (tag : ASTEntryTag) (loc : SourceLocation) (ty : QualType) (childIds : List Ptr)
    (extra : List CborValue) : Option Visited :=
  (encode_entry_Expr TraverseDecl v E tag loc ty childIds extra).map fun v1 => (true, v1)

/-! ### Statements -/

/-- Method `VisitCompoundStmt`. -/
def VisitCompoundStmt (v : TranslateASTVisitor) (CS : Ptr) (loc : SourceLocation)
    (children : List Ptr) : Visited :=
  (true, encode_entry_Stmt v CS .TagCompoundStmt loc children [])

/-- Method `VisitReturnStmt`. -/
def VisitReturnStmt (v : TranslateASTVisitor) (RS : Ptr) (loc : SourceLocation)
    (retValue : Ptr) : Visited :=
  (true, encode_entry_Stmt v RS .TagReturnStmt loc [retValue] [])

/-- Method `VisitDoStmt`. -/
def VisitDoStmt (v : TranslateASTVisitor) (S : Ptr) (loc : SourceLocation)
    (body cond : Ptr) : Visited :=
  (true, encode_entry_Stmt v S .TagDoStmt loc [body, cond] [])

/-- Method `VisitGotoStmt`. -/
def VisitGotoStmt (v : TranslateASTVisitor) (GS : Ptr) (loc : SourceLocation)
    (label : Ptr) : Visited :=
  (true, encode_entry_Stmt v GS .TagGotoStmt loc [label] [])

/-- Method `VisitLabelStmt`. -/
def VisitLabelStmt (v : TranslateASTVisitor) (LS : Ptr) (loc : SourceLocation)
    (subStmt : Ptr) (name : String) : Visited :=
  (true, encode_entry_Stmt v LS .TagLabelStmt loc [subStmt] [.text name])

/-- Method `VisitNullStmt`. -/
def VisitNullStmt (v : TranslateASTVisitor) (NS : Ptr) (loc : SourceLocation) : Visited :=
  (true, encode_entry_Stmt v NS .TagNullStmt loc [] [])

/-- Method `VisitIfStmt`. -/
def VisitIfStmt (v : TranslateASTVisitor) (IS : Ptr) (loc : SourceLocation)
    (cond thenStmt elseStmt : Ptr) : Visited :=
  (true, encode_entry_Stmt v IS .TagIfStmt loc [cond, thenStmt, elseStmt] [])

/-- Method `VisitForStmt`. -/
def VisitForStmt (v : TranslateASTVisitor) (FS : Ptr) (loc : SourceLocation)
    (init cond inc body : Ptr) : Visited :=
  (true, encode_entry_Stmt v FS .TagForStmt loc [init, cond, inc, body] [])

/-- Method `VisitWhileStmt`. -/
def VisitWhileStmt (v : TranslateASTVisitor) (WS : Ptr) (loc : SourceLocation)
    (cond body : Ptr) : Visited :=
  (true, encode_entry_Stmt v WS .TagWhileStmt loc [cond, body] [])

/-- Method `VisitDeclStmt`. -/
def VisitDeclStmt (v : TranslateASTVisitor) (DS : Ptr) (loc : SourceLocation)
    (decls : List Ptr) : Visited :=
  (true, encode_entry_Stmt v DS .TagDeclStmt loc decls [])

/-- Method `VisitBreakStmt`. -/
def VisitBreakStmt (v : TranslateASTVisitor) (BS : Ptr) (loc : SourceLocation) : Visited :=
  (true, encode_entry_Stmt v BS .TagBreakStmt loc [] [])

/-- Method `VisitContinueStmt`. -/
def VisitContinueStmt (v : TranslateASTVisitor) (S : Ptr) (loc : SourceLocation) : Visited :=
  (true, encode_entry_Stmt v S .TagContinueStmt loc [] [])

/-- Method `VisitCaseStmt`. -/
def VisitCaseStmt (v : TranslateASTVisitor) (CS : Ptr) (loc : SourceLocation)
    (lhs subStmt : Ptr) : Visited :=
  (true, encode_entry_Stmt v CS .TagCaseStmt loc [lhs, subStmt] [])

/-- Method `VisitSwitchStmt`. -/
def VisitSwitchStmt (v : TranslateASTVisitor) (SS : Ptr) (loc : SourceLocation)
    (cond body : Ptr) : Visited :=
  (true, encode_entry_Stmt v SS .TagSwitchStmt loc [cond, body] [])

/-- Method `VisitDefaultStmt`. -/
def VisitDefaultStmt (v : TranslateASTVisitor) (DS : Ptr) (loc : SourceLocation)
    (subStmt : Ptr) : Visited :=
  (true, encode_entry_Stmt v DS .TagDefaultStmt loc [subStmt] [])

/-! ### Expressions -/

/-- Method `VisitParenExpr`. -/
def VisitParenExpr (TraverseDecl : Ptr → Walk) (v : TranslateASTVisitor) (E : Ptr)
    (loc : SourceLocation) (type : QualType) (subExpr : Ptr) : Option Visited :=
  visitExpr TraverseDecl v E .TagParenExpr loc type [subExpr] []

/-- Method `VisitMemberExpr`. -/
def VisitMemberExpr (TraverseDecl : Ptr → Walk) (v : TranslateASTVisitor) (E : Ptr)
    (loc : SourceLocation) (type : QualType) (base memberDecl : Ptr) : Option Visited :=
  visitExpr TraverseDecl v E .TagMemberExpr loc type [base, memberDecl] []

/-- Method `VisitInitListExpr`. -/
def VisitInitListExpr (TraverseDecl : Ptr → Walk) (v : TranslateASTVisitor) (ILE : Ptr)
    (loc : SourceLocation) (type : QualType) (inits : List Ptr) : Option Visited :=
  visitExpr TraverseDecl v ILE .TagInitListExpr loc type inits []

/-- Method `VisitImplicitValueInitExpr`. -/
def VisitImplicitValueInitExpr (TraverseDecl : Ptr → Walk) (v : TranslateASTVisitor)
    (E : Ptr) (loc : SourceLocation) (type : QualType) : Option Visited :=
  visitExpr TraverseDecl v E .TagImplicitValueInitExpr loc type [] []

/-- Method `VisitImplicitCastExpr`. -/
def VisitImplicitCastExpr (TraverseDecl : Ptr → Walk) (v : TranslateASTVisitor) (ICE : Ptr)
    (loc : SourceLocation) (type : QualType) (subExpr : Ptr) (castKindName : String) :
    Option Visited :=
  visitExpr TraverseDecl v ICE .TagImplicitCastExpr loc type [subExpr] [.text castKindName]

/-- Method `VisitCStyleCastExpr`. -/
def VisitCStyleCastExpr (TraverseDecl : Ptr → Walk) (v : TranslateASTVisitor) (E : Ptr)
    (loc : SourceLocation) (type : QualType) (subExpr : Ptr) (castKindName : String) :
    Option Visited :=
  visitExpr TraverseDecl v E .TagCStyleCastExpr loc type [subExpr] [.text castKindName]

/-- Method `VisitUnaryOperator`. -/
def VisitUnaryOperator (TraverseDecl : Ptr → Walk) (v : TranslateASTVisitor) (UO : Ptr)
    (loc : SourceLocation) (type : QualType) (subExpr : Ptr) (opcodeStr : String)
    (isPrefix : Bool) : Option Visited :=
  visitExpr TraverseDecl v UO .TagUnaryOperator loc type [subExpr]
    [.text opcodeStr, .boolean isPrefix]

/-- Method `VisitBinaryOperator`. -/
def VisitBinaryOperator (TraverseDecl : Ptr → Walk) (v : TranslateASTVisitor) (BO : Ptr)
    (loc : SourceLocation) (type : QualType) (lhs rhs : Ptr) (opcodeStr : String) :
    Option Visited :=
  visitExpr TraverseDecl v BO .TagBinaryOperator loc type [lhs, rhs] [.text opcodeStr]

/-- Method `VisitConditionalOperator`. -/
def VisitConditionalOperator (TraverseDecl : Ptr → Walk) (v : TranslateASTVisitor)
    (CO : Ptr) (loc : SourceLocation) (type : QualType) (cond trueExpr falseExpr : Ptr) :
    Option Visited :=
  visitExpr TraverseDecl v CO .TagConditionalOperator loc type [cond, trueExpr, falseExpr] []

/-- Method `VisitBinaryConditionalOperator`. -/
def VisitBinaryConditionalOperator (TraverseDecl : Ptr → Walk) (v : TranslateASTVisitor)
    (CO : Ptr) (loc : SourceLocation) (type : QualType) (common falseExpr : Ptr) :
    Option Visited :=
  visitExpr TraverseDecl v CO .TagBinaryConditionalOperator loc type [common, falseExpr] []

/-- Method `VisitDeclRefExpr`. -/
def VisitDeclRefExpr (TraverseDecl : Ptr → Walk) (v : TranslateASTVisitor) (DRE : Ptr)
    (loc : SourceLocation) (type : QualType) (decl : Ptr) : Option Visited :=
  visitExpr TraverseDecl v DRE .TagDeclRefExpr loc type [decl] []

/-- Method `VisitCallExpr`. -/
def VisitCallExpr (TraverseDecl : Ptr → Walk) (v : TranslateASTVisitor) (CE : Ptr)
    (loc : SourceLocation) (type : QualType) (callee : Ptr) (arguments : List Ptr) :
    Option Visited :=
  visitExpr TraverseDecl v CE .TagCallExpr loc type (callee :: arguments) []

/-- Method `VisitArraySubscriptExpr`. -/
def VisitArraySubscriptExpr (TraverseDecl : Ptr → Walk) (v : TranslateASTVisitor) (E : Ptr)
    (loc : SourceLocation) (type : QualType) (lhs rhs : Ptr) : Option Visited :=
  visitExpr TraverseDecl v E .TagArraySubscriptExpr loc type [lhs, rhs] []

/-! ### Declarations -/

/-- Method `VisitFunctionDecl`; `functionType.getTypePtr()` is the type pointer. -/
def VisitFunctionDecl (TraverseDecl : Ptr → Walk) (v : TranslateASTVisitor) (FD : Ptr)
    (loc : SourceLocation) (functionType : QualType) (parameters : List Ptr) (body : Ptr)
    (name : String) : Option Visited :=
  (VisitQualType TraverseDecl functionType
    (encode_entry_Decl v FD .TagFunctionDecl loc (parameters ++ [body])
      functionType.getTypePtrOrNull [.text name])).map fun v1 => (true, v1)

/-- Method `VisitVarDecl`; `T.getTypePtr()` is the type pointer. -/
def VisitVarDecl (TraverseDecl : Ptr → Walk) (v : TranslateASTVisitor) (VD : Ptr)
    (loc : SourceLocation) (T : QualType) (init : Ptr) (name : String) : Option Visited :=
  (VisitQualType TraverseDecl T
    (encode_entry_Decl v VD .TagVarDecl loc [init] T.getTypePtrOrNull [.text name])).map
    fun v1 => (true, v1)

/-- Method `VisitRecordDecl`. -/
def VisitRecordDecl (v : TranslateASTVisitor) (D : Ptr) (loc : SourceLocation)
    (fields : List Ptr) (name : String) : Visited :=
  (true, encode_entry_Decl v D .TagRecordDecl loc fields 0 [.text name])

/-- Method `VisitEnumDecl`. -/
def VisitEnumDecl (v : TranslateASTVisitor) (D : Ptr) (loc : SourceLocation)
    (enumerators : List Ptr) (name : String) : Visited :=
  (true, encode_entry_Decl v D .TagEnumDecl loc enumerators 0 [.text name])

/-- Method `VisitEnumConstantDecl`. -/
def VisitEnumConstantDecl (v : TranslateASTVisitor) (D : Ptr) (loc : SourceLocation)
    (initExpr : Ptr) (name : String) : Visited :=
  (true, encode_entry_Decl v D .TagEnumConstantDecl loc [initExpr] 0 [.text name])

/-- Method `VisitFieldDecl`. -/
def VisitFieldDecl (v : TranslateASTVisitor) (D : Ptr) (loc : SourceLocation)
    (name : String) : Visited :=
  (true, encode_entry_Decl v D .TagFieldDecl loc [] 0 [.text name])

/-- Method `VisitTypedefDecl`. -/
def VisitTypedefDecl (TraverseDecl : Ptr → Walk) (v : TranslateASTVisitor) (D : Ptr)
    (loc : SourceLocation) (typeForDecl : QualType) (name : String) : Option Visited :=
  (VisitQualType TraverseDecl typeForDecl
    (encode_entry_Decl v D .TagTypedefDecl loc [] typeForDecl.getTypePtrOrNull
      [.text name])).map fun v1 => (true, v1)

/-! ### Literals -/

/-- Method `VisitIntegerLiteral`. -/
def VisitIntegerLiteral (TraverseDecl : Ptr → Walk) (v : TranslateASTVisitor) (IL : Ptr)
    (loc : SourceLocation) (type : QualType) (value : Nat) : Option Visited :=
  visitExpr TraverseDecl v IL .TagIntegerLiteral loc type [] [.uint (getLimitedValue value)]

/-- Method `VisitCharacterLiteral`. -/
def VisitCharacterLiteral (TraverseDecl : Ptr → Walk) (v : TranslateASTVisitor) (L : Ptr)
    (loc : SourceLocation) (type : QualType) (value : Nat) : Option Visited :=
  visitExpr TraverseDecl v L .TagCharacterLiteral loc type [] [.uint value]

/-- The `switch` of `VisitStringLiteral`. -/
def stringTypeTag : StringKind → StringTypeTag
  | .Ascii => .TagAscii
  | .Wide => .TagWide
  | .UTF8 => .TagUTF8
  | .UTF16 => .TagUTF16
  | .UTF32 => .TagUTF32

/-- Method `VisitStringLiteral`. -/
def VisitStringLiteral (TraverseDecl : Ptr → Walk) (v : TranslateASTVisitor) (SL : Ptr)
    (loc : SourceLocation) (type : QualType) (kind : StringKind) (charByteWidth : Nat)
    (bytes : List Nat) : Option Visited :=
  visitExpr TraverseDecl v SL .TagStringLiteral loc type []
    [.stringTag (stringTypeTag kind), .uint charByteWidth, .bytes bytes]

/-- Method `VisitFloatingLiteral`; the double is carried as its bit pattern. -/
def VisitFloatingLiteral (TraverseDecl : Ptr → Walk) (v : TranslateASTVisitor) (L : Ptr)
    (loc : SourceLocation) (type : QualType) (lit : Nat) : Option Visited :=
  visitExpr TraverseDecl v L .TagFloatingLiteral loc type [] [.double lit]

/-! ## The walk of `RecursiveASTVisitor` -/

/-- The `WalkUpFrom…` step of `RecursiveASTVisitor` for one object: the `Visit…` method
that `TranslateASTVisitor` defines for the object's class, if any. -/
def WalkUpFrom (TraverseDecl : Ptr → Walk) (p : Ptr) (loc : SourceLocation) :
    NodeKind → TranslateASTVisitor → Option Visited
  | .CompoundStmt children, v => some (VisitCompoundStmt v p loc children)
  | .ReturnStmt retValue, v => some (VisitReturnStmt v p loc retValue)
  | .DoStmt body cond, v => some (VisitDoStmt v p loc body cond)
  | .GotoStmt label, v => some (VisitGotoStmt v p loc label)
  | .LabelStmt subStmt name, v => some (VisitLabelStmt v p loc subStmt name)
  | .NullStmt, v => some (VisitNullStmt v p loc)
  | .IfStmt cond thenStmt elseStmt, v => some (VisitIfStmt v p loc cond thenStmt elseStmt)
  | .ForStmt init cond inc body, v => some (VisitForStmt v p loc init cond inc body)
  | .WhileStmt cond body, v => some (VisitWhileStmt v p loc cond body)
  | .DeclStmt decls, v => some (VisitDeclStmt v p loc decls)
  | .BreakStmt, v => some (VisitBreakStmt v p loc)
  | .ContinueStmt, v => some (VisitContinueStmt v p loc)
  | .CaseStmt lhs subStmt, v => some (VisitCaseStmt v p loc lhs subStmt)
  | .SwitchStmt cond body, v => some (VisitSwitchStmt v p loc cond body)
  | .DefaultStmt subStmt, v => some (VisitDefaultStmt v p loc subStmt)
  | .ParenExpr type subExpr, v => VisitParenExpr TraverseDecl v p loc type subExpr
  | .MemberExpr type base memberDecl, v =>
      VisitMemberExpr TraverseDecl v p loc type base memberDecl
  | .InitListExpr type inits, v => VisitInitListExpr TraverseDecl v p loc type inits
  | .ImplicitValueInitExpr type, v => VisitImplicitValueInitExpr TraverseDecl v p loc type
  | .ImplicitCastExpr type subExpr castKindName, v =>
      VisitImplicitCastExpr TraverseDecl v p loc type subExpr castKindName
  | .CStyleCastExpr type subExpr castKindName, v =>
      VisitCStyleCastExpr TraverseDecl v p loc type subExpr castKindName
  | .UnaryOperator type subExpr opcodeStr isPrefix, v =>
      VisitUnaryOperator TraverseDecl v p loc type subExpr opcodeStr isPrefix
  | .BinaryOperator type lhs rhs opcodeStr, v =>
      VisitBinaryOperator TraverseDecl v p loc type lhs rhs opcodeStr
  | .ConditionalOperator type cond trueExpr falseExpr, v =>
      VisitConditionalOperator TraverseDecl v p loc type cond trueExpr falseExpr
  | .BinaryConditionalOperator type common falseExpr, v =>
      VisitBinaryConditionalOperator TraverseDecl v p loc type common falseExpr
  | .DeclRefExpr type decl, v => VisitDeclRefExpr TraverseDecl v p loc type decl
  | .CallExpr type callee arguments, v =>
      VisitCallExpr TraverseDecl v p loc type callee arguments
  | .ArraySubscriptExpr type lhs rhs, v =>
      VisitArraySubscriptExpr TraverseDecl v p loc type lhs rhs
  | .FunctionDecl type parameters body name, v =>
      VisitFunctionDecl TraverseDecl v p loc type parameters body name
  | .VarDecl type init name, v => VisitVarDecl TraverseDecl v p loc type init name
  | .RecordDecl fields name, v => some (VisitRecordDecl v p loc fields name)
  | .EnumDecl enumerators name, v => some (VisitEnumDecl v p loc enumerators name)
  | .EnumConstantDecl initExpr name, v => some (VisitEnumConstantDecl v p loc initExpr name)
  | .FieldDecl _ name, v => some (VisitFieldDecl v p loc name)
  | .TypedefDecl underlyingType name, v =>
      VisitTypedefDecl TraverseDecl v p loc underlyingType name
  | .IntegerLiteral type value, v => VisitIntegerLiteral TraverseDecl v p loc type value
  | .CharacterLiteral type value, v => VisitCharacterLiteral TraverseDecl v p loc type value
  | .StringLiteral type kind charByteWidth bytes, v =>
      VisitStringLiteral TraverseDecl v p loc type kind charByteWidth bytes
  | .FloatingLiteral type lit, v => VisitFloatingLiteral TraverseDecl v p loc type lit
  | .TranslationUnitDecl _, v => some (true, v)
  | .Other, v => some (true, v)

mutual
/-- The walk of `RecursiveASTVisitor` below one object: the object's `WalkUpFrom…`, then
its sub-objects in order; a `false` from a `Visit…` method ends the walk. -/
def traverse (TraverseDecl : Ptr → Walk) : Node → TranslateASTVisitor → Option Visited
  | .mk p loc kind walked, v =>
      (WalkUpFrom TraverseDecl p loc kind v).bind fun r =>
        if r.1 then traverseAll TraverseDecl walked r.2 else some (false, r.2)
/-- The walk over a sequence of sub-objects. -/
def traverseAll (TraverseDecl : Ptr → Walk) :
    List Node → TranslateASTVisitor → Option Visited
  | [], v => some (true, v)
  | n :: ns, v =>
      (traverse TraverseDecl n v).bind fun r =>
        if r.1 then traverseAll TraverseDecl ns r.2 else some (false, r.2)
end

/-- Method `RecursiveASTVisitor::TraverseDecl` on the tree of a declaration.  A nested
`astEncoder->TraverseDecl(D)` from `VisitRecordType` walks the tree the context has for
`D` (nothing when it has none) with one unit of fuel less, and its result is dropped as
in the source; `none` when the fuel is used up. -/
def TraverseDecl (Context : ASTContext) : Nat → Node → TranslateASTVisitor → Option Visited
  | 0 => fun _ _ => none
  | fuel + 1 =>
      traverse fun D v =>
        match Context.getDecl D with
        | none => some v
        | some n => (TraverseDecl Context fuel n v).map fun r => r.2

/-! ## `TranslateConsumer::HandleTranslationUnit` -/

/-- The three sections of the document. -/
structure Document where
  entries : List Entry
  topLevel : List Nat
  fileTable : List String
  deriving DecidableEq, Repr

/-- Iteration order of `std::unordered_map<string, uint64_t>`: the sequence in which a
range-for visits the pairs of a table, given the pairs in insertion order.  The
standard library fixes no order, so it is a parameter. -/
abbrev IterationOrder := List (String × Nat) → List (String × Nat)

/-- Fuel that `process` gives the walk: one unit for the walk from the root and one
for every record declaration that can be entered. -/
def ASTContext.fuel (Context : ASTContext) : Nat :=
  Context.recordDecls.length + 1

/-- The document that one run of the lambda `process` of `HandleTranslationUnit` makes
the encoder write: a fresh visitor walks the translation unit, then the addresses of
`translation_unit->decls()` and the keys of `filenames` in iteration order follow. -/
def exportedDocument (iter : IterationOrder) (Context : ASTContext) : Option Document :=
  (TraverseDecl Context Context.fuel Context.getTranslationUnitDecl
      TranslateASTVisitor.init).map fun r =>
    { entries := r.2.encoder,
      topLevel := Context.getTranslationUnitDecl.decls,
      fileTable := (iter r.2.filenames).map fun kv => kv.1 }

/-! ### Bytes -/

/-- The external encoding library and the constants of `ast_tags.hpp`: the bytes that
each `cbor_encode_…` call appends (for the container calls, `none` is
`CborIndefiniteLength`), and the numeric value of each tag. -/
structure TinyCbor where
  encode_uint : Nat → List Nat
  encode_null : List Nat
  encode_undefined : List Nat
  encode_boolean : Bool → List Nat
  encode_text_string : String → List Nat
  encode_byte_string : List Nat → List Nat
  encode_double : Nat → List Nat
  create_array : Option Nat → List Nat
  close_container : Option Nat → List Nat
  astTag : ASTEntryTag → Nat
  typeTag : TypeTag → Nat
  stringTag : StringTypeTag → Nat

/-- A definite-length array of items, as the sequence of appended byte chunks. -/
def TinyCbor.array (w : TinyCbor) (items : List (List Nat)) : List (List Nat) :=
  [w.create_array (some items.length)] ++ items ++ [w.close_container (some items.length)]

/-- Byte chunks appended for one item of an `extra` callback. -/
def TinyCbor.value (w : TinyCbor) : CborValue → List (List Nat)
  | .uint n => [w.encode_uint n]
  | .undefined => [w.encode_undefined]
  | .boolean b => [w.encode_boolean b]
  | .text s => [w.encode_text_string s]
  | .bytes bs => [w.encode_byte_string bs]
  | .double bits => [w.encode_double bits]
  | .stringTag t => [w.encode_uint (w.stringTag t)]
  | .array items => w.array (items.map w.encode_uint)

/-- An unsigned integer or the null marker. -/
def TinyCbor.uintOrNull (w : TinyCbor) : Option Nat → List Nat
  | none => w.encode_null
  | some x => w.encode_uint x

/-- Byte chunks appended for one entry, in the order of the calls in `encode_entry_raw`
and `encodeType`. -/
def TinyCbor.entry (w : TinyCbor) : Entry → List (List Nat)
  | .node id tag children file_idx line col type_id extra =>
      [w.create_array none, w.encode_uint id, w.encode_uint (w.astTag tag)]
        ++ w.array (children.map w.uintOrNull)
        ++ [w.encode_uint file_idx, w.encode_uint line, w.encode_uint col,
            w.uintOrNull type_id]
        ++ (extra.map w.value).flatten
        ++ [w.close_container none]
  | .type id tag extra =>
      [w.create_array none, w.encode_uint id, w.encode_uint (w.typeTag tag)]
        ++ (extra.map w.value).flatten
        ++ [w.close_container none]

/-- Byte chunks appended for the whole document, in the order of the calls in
`process`. -/
def TinyCbor.document (w : TinyCbor) (doc : Document) : List (List Nat) :=
  [w.create_array none] ++ (doc.entries.map w.entry).flatten ++ [w.close_container none]
    ++ [w.create_array none] ++ doc.topLevel.map w.encode_uint ++ [w.close_container none]
    ++ w.array (doc.fileTable.map w.encode_text_string)

/-- The root `CborEncoder`: the length of its buffer, the bytes written to it, and,
once a call did not fit (`end == NULL` in the library), the count of bytes that did not
fit. -/
structure CborEncoder where
  size : Nat
  written : List Nat
  overflowed : Bool
  bytes_needed : Nat
  deriving DecidableEq, Repr

/-- Library call `cbor_encoder_init(&encoder, buffer, len, 0)`. -/
def cbor_encoder_init (len : Nat) : CborEncoder :=
  { size := len, written := [], overflowed := false, bytes_needed := 0 }

/-- One append of the library: the chunk is copied when it fits the rest of the
buffer; otherwise nothing more is written and the bytes beyond the buffer are counted. -/
def CborEncoder.append (e : CborEncoder) (data : List Nat) : CborEncoder :=
  if e.overflowed then { e with bytes_needed := e.bytes_needed + data.length }
  else if e.written.length + data.length ≤ e.size then { e with written := e.written ++ data }
  else { e with overflowed := true,
                bytes_needed := data.length - (e.size - e.written.length) }

/-- Library call `cbor_encoder_get_extra_bytes_needed`. -/
def cbor_encoder_get_extra_bytes_needed (e : CborEncoder) : Nat :=
  if e.overflowed then e.bytes_needed else 0

/-- The lambda `process` of `HandleTranslationUnit` on a buffer of `len` bytes
(`process(NULL, 0)` is `len = 0`): the state of `encoder` afterwards. -/
def process (w : TinyCbor) (iter : IterationOrder) (Context : ASTContext) (len : Nat) :
    Option CborEncoder :=
  (exportedDocument iter Context).map fun doc =>
    (w.document doc).foldl CborEncoder.append (cbor_encoder_init len)

/-- Method `TranslateConsumer::HandleTranslationUnit`: the bytes of `buf` that are
written to the output file. -/
def HandleTranslationUnit (w : TinyCbor) (iter : IterationOrder) (Context : ASTContext) :
    Option (List Nat) :=
  (process w iter Context 0).bind fun sizing =>
    let needed := cbor_encoder_get_extra_bytes_needed sizing
    (process w iter Context needed).map fun real =>
      real.written ++ List.replicate (needed - real.written.length) 0

/-! ## Runs: sequences of calls on one visitor -/

/-- Results of a sequence of `markForExport` calls, in call order. -/
def markForExportAll (v : TranslateASTVisitor) : List (Ptr × ASTEntryTag) → List Bool
  | [] => []
  | k :: ks => (markForExport v k.1 k.2).1 :: markForExportAll (markForExport v k.1 k.2).2 ks

/-- Results of a sequence of `isUnexported` calls, in call order. -/
def isUnexportedAll (te : TypeEncoder) : List Ptr → List Bool
  | [] => []
  | p :: ps => (te.isUnexported p).1 :: isUnexportedAll (te.isUnexported p).2 ps

/-- A sequence of `encodeSourcePos` calls: the triples written, in call order, and the
visitor afterwards. -/
def encodeSourcePosAll (v : TranslateASTVisitor) :
    List SourceLocation → List (Nat × Nat × Nat) × TranslateASTVisitor
  | [] => ([], v)
  | loc :: locs =>
      let r := encodeSourcePosAll (encodeSourcePos v loc).2 locs
      ((encodeSourcePos v loc).1 :: r.1, r.2)

/-- The distinct paths of a sequence, in order of first reference (following the
words of the specification of the location table). -/
def firstReferences (seen : List String) : List String → List String
  | [] => seen
  | p :: ps => if p ∈ seen then firstReferences seen ps else firstReferences (seen ++ [p]) ps

/-- The table that gives the `i`-th path the index `i`. -/
def indexedTable (paths : List String) : List (String × Nat) :=
  paths.zip (List.range paths.length)

/-- One call on the visitor: `encode_entry_raw` with its arguments, or `encodeType`
with its arguments and the value the member `isConst` has at the call. -/
inductive Call where
  | encode_entry_raw (ast : Ptr) (tag : ASTEntryTag) (loc : SourceLocation) (ty : Ptr)
      (childIds : List Ptr) (extra : List CborValue)
  | encodeType (isConst : Bool) (T : Ptr) (tag : TypeTag) (extra : List CborValue)

/-- The visitor after one call. -/
def Call.run (v : TranslateASTVisitor) : Call → TranslateASTVisitor
  | .encode_entry_raw ast tag loc ty childIds extra =>
      AstExtractor.encode_entry_raw v ast tag loc ty childIds extra
  | .encodeType isConst T tag extra =>
      AstExtractor.encodeType
        { v with typeEncoder := { v.typeEncoder with isConst := isConst } } T tag extra

/-- The visitor after a sequence of calls on a fresh visitor. -/
def runCalls (calls : List Call) : TranslateASTVisitor :=
  calls.foldl Call.run TranslateASTVisitor.init

/-- Node pointer and tag of an `encode_entry_raw` call. -/
def Call.nodeKey : Call → Option (Ptr × ASTEntryTag)
  | .encode_entry_raw ast tag _ _ _ _ => some (ast, tag)
  | .encodeType .. => none

/-- Type pointer of an `encodeType` call. -/
def Call.typePtr : Call → Option Ptr
  | .encode_entry_raw .. => none
  | .encodeType _ T _ _ => some T

/-! ## Properties of a document -/

/-- The type references an entry carries: the `type_id` of a node entry; for a type
entry the constituent types its payload names (pointee, element, return and parameter
types, desugared type).  A null pointer written as `0` is no reference. -/
def Entry.typeRefs : Entry → List Nat
  | .node _ _ _ _ _ _ type_id _ => type_id.toList
  | .type _ .TagPointer [.uint t] => [t].filter (· ≠ 0)
  | .type _ .TagConstantArrayType (.uint t :: _) => [t].filter (· ≠ 0)
  | .type _ .TagVariableArrayType (.uint t :: _) => [t].filter (· ≠ 0)
  | .type _ .TagIncompleteArrayType (.uint t :: _) => [t].filter (· ≠ 0)
  | .type _ .TagFunctionType [.array ts] => ts.filter (· ≠ 0)
  | .type _ .TagTypeOfType [.uint t] => [t].filter (· ≠ 0)
  | .type _ .TagElaboratedType [.uint t] => [t].filter (· ≠ 0)
  | .type _ .TagDecayedType [.uint t] => [t].filter (· ≠ 0)
  | .type _ _ _ => []

/-- The non-null elements of the children array of a node entry. -/
def Entry.childRefs : Entry → List Nat
  | .node _ _ children _ _ _ _ _ => children.filterMap id
  | .type _ _ _ => []

/-- The `entity_id`s of the type entries. -/
def typeIds (entries : List Entry) : List Nat :=
  (entries.filter Entry.isType).map Entry.entity_id

/-- The `entity_id`s of the node entries. -/
def nodeIds (entries : List Entry) : List Nat :=
  (entries.filter fun e => !e.isType).map Entry.entity_id

/-- Referential closure of type references: every type reference of every entry is the
`entity_id` of a type entry. -/
def typeRefsClosed (entries : List Entry) : Prop :=
  ∀ e ∈ entries, ∀ r ∈ e.typeRefs, r ∈ typeIds entries

/-- Referential closure of child references: every non-null child of every node entry
is the `entity_id` of a node entry. -/
def childRefsClosed (entries : List Entry) : Prop :=
  ∀ e ∈ entries, ∀ r ∈ e.childRefs, r ∈ nodeIds entries

instance (entries : List Entry) : Decidable (typeRefsClosed entries) := by
  unfold typeRefsClosed; infer_instance

instance (entries : List Entry) : Decidable (childRefsClosed entries) := by
  unfold childRefsClosed; infer_instance

/-- The type entries with a given tag. -/
def typeEntriesWith (tag : TypeTag) (entries : List Entry) : List Entry :=
  entries.filter fun e =>
    match e with
    | .type _ t _ => decide (t = tag)
    | .node .. => false

/-- The node entries with a given tag. -/
def nodeEntriesWith (tag : ASTEntryTag) (entries : List Entry) : List Entry :=
  entries.filter fun e =>
    match e with
    | .node _ t _ _ _ _ _ _ => decide (t = tag)
    | .type .. => false

/-- The file table lists the paths by assigned index: every pair `(path, i)` of
`filenames` has `path` as the `i`-th element of the table. -/
def fileTableByIndex (filenames : List (String × Nat)) (fileTable : List String) : Prop :=
  ∀ kv ∈ filenames, fileTable[kv.2]? = some kv.1

instance (filenames : List (String × Nat)) (fileTable : List String) :
    Decidable (fileTableByIndex filenames fileTable) := by
  unfold fileTableByIndex; infer_instance

/-! ## Predicates used in the proofs -/

/-- Where an entry of the stream comes from: a node entry from a registered pair of
`nodeKeys`, a type entry from an exported type pointer of `typePtrs`. -/
def Entry.origin (nodeKeys : List (Ptr × ASTEntryTag)) (typePtrs : List Ptr)
    (v : TranslateASTVisitor) : Entry → Prop
  | .node a t _ _ _ _ _ _ => (a, t) ∈ v.exportedTags ∧ (a, t) ∈ nodeKeys
  | .type id _ _ => ∃ T ∈ v.typeEncoder.exports, T ∈ typePtrs ∧ (id = T ∨ id = T + 1)

/-- A step that returns, and leaves `recordDeclsUnderVisit` equal to `u`, from every
visitor whose `recordDeclsUnderVisit` is `u`. -/
def Returns (u : List Ptr) (f : Walk) : Prop :=
  ∀ v, v.typeEncoder.recordDeclsUnderVisit = u →
    ∃ v1, f v = some v1 ∧ v1.typeEncoder.recordDeclsUnderVisit = u

/-- The same for a step with a `bool` result, which moreover is `true`. -/
def ReturnsTrue (u : List Ptr) (f : TranslateASTVisitor → Option Visited) : Prop :=
  ∀ v, v.typeEncoder.recordDeclsUnderVisit = u →
    ∃ v1, f v = some (true, v1) ∧ v1.typeEncoder.recordDeclsUnderVisit = u

/-- The nested walker returns whenever it is entered for a declaration that has just
been put on top of `u`. -/
def CallbackReturns (u : List Ptr) (td : Ptr → Walk) : Prop :=
  ∀ D, D ∉ u → Returns (D :: u) (td D)

/-! ## Example inputs -/

namespace Example

/-- A walker callback that has no declaration to walk. -/
def noDecl : Ptr → Walk := fun _ v => some v

/-- Location in the file `a.c`. -/
def at_a_c (line col : Nat) : SourceLocation :=
  { line := line, col := col, fileEntry := some "a.c" }

/-- Location in the file `a.h`. -/
def at_a_h (line col : Nat) : SourceLocation :=
  { line := line, col := col, fileEntry := some "a.h" }

/-- Location without file entry. -/
def nowhere : SourceLocation := { line := 0, col := 0, fileEntry := none }

/-- The type `int`. -/
def tyInt : Ty := .BuiltinType 0x1000 .Int

/-- The type `void`. -/
def tyVoid : Ty := .BuiltinType 0x1010 .Void

/-- The type `void (void)`. -/
def tyVoidFn : Ty := .FunctionProtoType 0x1020 (.mk tyVoid false) []

/-- The translation unit `const int x;`. -/
def constIntUnit : ASTContext :=
  { getTranslationUnitDecl :=
      .mk 0x2000 nowhere (.TranslationUnitDecl [0x2040])
        [.mk 0x2040 (at_a_c 1 1) (.VarDecl (.mk tyInt true) 0 "x") []],
    recordDecls := [] }

/-- The translation unit `void f(void) { L: ; goto L; }`; the label declaration of `L`
is the object at `0x2180`, the labelled statement the object at `0x20c0`. -/
def gotoUnit : ASTContext :=
  { getTranslationUnitDecl :=
      .mk 0x2000 nowhere (.TranslationUnitDecl [0x2040])
        [.mk 0x2040 (at_a_c 1 1) (.FunctionDecl (.mk tyVoidFn false) [] 0x2080 "f")
          [.mk 0x2080 (at_a_c 1 14) (.CompoundStmt [0x20c0, 0x2100])
            [.mk 0x20c0 (at_a_c 1 16) (.LabelStmt 0x2140 "L")
               [.mk 0x2140 (at_a_c 1 19) .NullStmt []],
             .mk 0x2100 (at_a_c 1 21) (.GotoStmt 0x2180) []]]],
    recordDecls := [] }

/-- The record type `struct S` of the declaration at `0x2040`. -/
def tyS : Ty := .RecordType 0x1030 0x2040

/-- The type `struct S *`. -/
def tySPtr : Ty := .PointerType 0x1050 (.mk (.ElaboratedType 0x1040 (.mk tyS false)) false)

/-- The declaration `struct S { struct S *next; };`. -/
def declS : Node :=
  .mk 0x2040 (at_a_c 1 1) (.RecordDecl [0x2080] "S")
    [.mk 0x2080 (at_a_c 1 12) (.FieldDecl (.mk tySPtr false) "next") []]

/-- The translation unit `struct S { struct S *next; };`. -/
def selfRefUnit : ASTContext :=
  { getTranslationUnitDecl := .mk 0x2000 nowhere (.TranslationUnitDecl [0x2040]) [declS],
    recordDecls := [declS] }

/-- The declaration `struct S { int x : sizeof((struct S *)0); };`: the walk below the
field reaches, through the bit width, a cast expression of type `struct S *`. -/
def declBits : Node :=
  .mk 0x2040 (at_a_c 1 1) (.RecordDecl [0x2080] "S")
    [.mk 0x2080 (at_a_c 1 12) (.FieldDecl (.mk tyInt false) "x")
      [.mk 0x20a0 (at_a_c 1 20) (.ImplicitCastExpr (.mk tyInt false) 0x20c0 "IntegralCast")
        [.mk 0x20c0 (at_a_c 1 20) .Other
          [.mk 0x20e0 (at_a_c 1 26) (.ParenExpr (.mk tySPtr false) 0x2100)
            [.mk 0x2100 (at_a_c 1 27) (.CStyleCastExpr (.mk tySPtr false) 0x2140 "NullToPointer")
              [.mk 0x2140 (at_a_c 1 39) (.IntegerLiteral (.mk tyInt false) 0) []]]]]]]

/-- The translation unit `struct S { int x : sizeof((struct S *)0); }; struct S s;`. -/
def bitsUnit : ASTContext :=
  { getTranslationUnitDecl :=
      .mk 0x2000 nowhere (.TranslationUnitDecl [0x2040, 0x2200])
        [declBits,
         .mk 0x2200 (at_a_c 2 1)
           (.VarDecl (.mk (.ElaboratedType 0x1040 (.mk tyS false)) false) 0 "s") []],
    recordDecls := [declBits] }

/-- The translation unit of `a.c`, which includes `a.h`, where `a.h` is `int y;` and the
rest of `a.c` is `int x;`. -/
def twoFilesUnit : ASTContext :=
  { getTranslationUnitDecl :=
      .mk 0x2000 nowhere (.TranslationUnitDecl [0x2040, 0x2080])
        [.mk 0x2040 (at_a_h 1 1) (.VarDecl (.mk tyInt false) 0 "y") [],
         .mk 0x2080 (at_a_c 2 1) (.VarDecl (.mk tyInt false) 0 "x") []],
    recordDecls := [] }

/-- An iteration order that visits the newest pair first. -/
def newestFirst : IterationOrder := List.reverse

/-- A byte writer: one byte per integer, string and marker. -/
def oneByte : TinyCbor :=
  { encode_uint := fun n => [n % 256],
    encode_null := [0xf6],
    encode_undefined := [0xf7],
    encode_boolean := fun b => [if b then 0xf5 else 0xf4],
    encode_text_string := fun s => [0x60 + s.length % 24],
    encode_byte_string := fun bs => 0x40 :: bs,
    encode_double := fun _ => [0xfb],
    create_array := fun n => [match n with | none => 0x9f | some k => 0x80 + k % 24],
    close_container := fun n => match n with | none => [0xff] | some _ => [],
    astTag := fun _ => 1,
    typeTag := fun _ => 2,
    stringTag := fun _ => 3 }

end Example

/-! ## Further definitions for the statements -/

/-- The tag under which the `Visit…` method of a class writes the object's entry; `none`
for a class without a `Visit…` method. -/
def NodeKind.entryTag : NodeKind → Option ASTEntryTag
  | .CompoundStmt _ => some .TagCompoundStmt
  | .ReturnStmt _ => some .TagReturnStmt
  | .DoStmt _ _ => some .TagDoStmt
  | .GotoStmt _ => some .TagGotoStmt
  | .LabelStmt _ _ => some .TagLabelStmt
  | .NullStmt => some .TagNullStmt
  | .IfStmt _ _ _ => some .TagIfStmt
  | .ForStmt _ _ _ _ => some .TagForStmt
  | .WhileStmt _ _ => some .TagWhileStmt
  | .DeclStmt _ => some .TagDeclStmt
  | .BreakStmt => some .TagBreakStmt
  | .ContinueStmt => some .TagContinueStmt
  | .CaseStmt _ _ => some .TagCaseStmt
  | .SwitchStmt _ _ => some .TagSwitchStmt
  | .DefaultStmt _ => some .TagDefaultStmt
  | .ParenExpr _ _ => some .TagParenExpr
  | .MemberExpr _ _ _ => some .TagMemberExpr
  | .InitListExpr _ _ => some .TagInitListExpr
  | .ImplicitValueInitExpr _ => some .TagImplicitValueInitExpr
  | .ImplicitCastExpr _ _ _ => some .TagImplicitCastExpr
  | .CStyleCastExpr _ _ _ => some .TagCStyleCastExpr
  | .UnaryOperator _ _ _ _ => some .TagUnaryOperator
  | .BinaryOperator _ _ _ _ => some .TagBinaryOperator
  | .ConditionalOperator _ _ _ _ => some .TagConditionalOperator
  | .BinaryConditionalOperator _ _ _ => some .TagBinaryConditionalOperator
  | .DeclRefExpr _ _ => some .TagDeclRefExpr
  | .CallExpr _ _ _ => some .TagCallExpr
  | .ArraySubscriptExpr _ _ _ => some .TagArraySubscriptExpr
  | .FunctionDecl _ _ _ _ => some .TagFunctionDecl
  | .VarDecl _ _ _ => some .TagVarDecl
  | .RecordDecl _ _ => some .TagRecordDecl
  | .EnumDecl _ _ => some .TagEnumDecl
  | .EnumConstantDecl _ _ => some .TagEnumConstantDecl
  | .FieldDecl _ _ => some .TagFieldDecl
  | .TypedefDecl _ _ => some .TagTypedefDecl
  | .IntegerLiteral _ _ => some .TagIntegerLiteral
  | .CharacterLiteral _ _ => some .TagCharacterLiteral
  | .StringLiteral _ _ _ _ => some .TagStringLiteral
  | .FloatingLiteral _ _ => some .TagFloatingLiteral
  | .TranslationUnitDecl _ => none
  | .Other => none

/-- The sub-objects the walker visits below a node. -/
def Node.walked : Node → List Node
  | .mk _ _ _ ns => ns

/-- A property of the visitor that every elementary step keeps: writing a type entry,
writing a node entry, setting `isConst`, and changing `recordDeclsUnderVisit`. -/
structure StepInvariant (P : TranslateASTVisitor → Prop) : Prop where
  encodeType : ∀ v T tag extra, P v → P (encodeType v T tag extra)
  encode_entry_raw : ∀ v ast tag loc ty childIds extra,
    P v → P (encode_entry_raw v ast tag loc ty childIds extra)
  setConst : ∀ v (c : Bool), P v →
    P { v with typeEncoder := { v.typeEncoder with isConst := c } }
  setUnderVisit : ∀ v (u : List Ptr), P v →
    P { v with typeEncoder := { v.typeEncoder with recordDeclsUnderVisit := u } }

/-- The value a literal payload would have if it were cut to the 64-bit wire width
(following the words of the claim on integer literals). -/
def truncatedTo64 (v : Nat) : Nat := v % 2 ^ 64

namespace Example

/-- The type `char`. -/
def tyChar : Ty := .BuiltinType 0x1060 .Char_S

/-- The type `__int128`, a builtin kind that `VisitBuiltinType` does not name. -/
def tyInt128 : Ty := .BuiltinType 0x1070 .Other

/-- The type `_Complex double`, of a class without a `Visit…` method. -/
def tyComplex : Ty := .Unhandled 0x1080

/-- The translation unit `int x = 1 + 2;` of the file `a.c`.  `implicitDecls` are the
addresses of the declarations that the front end puts under the root by itself, before
those of the file (for C the typedefs `__int128_t`, `__builtin_va_list`, …): they are
among `decls()`, and the walker does not visit them. -/
def sumUnitWith (implicitDecls : List Ptr) : ASTContext :=
  { getTranslationUnitDecl :=
      .mk 0x2000 nowhere (.TranslationUnitDecl (implicitDecls ++ [0x2040]))
        [.mk 0x2040 (at_a_c 1 1) (.VarDecl (.mk tyInt false) 0x2080 "x")
          [.mk 0x2080 (at_a_c 1 9) (.BinaryOperator (.mk tyInt false) 0x20c0 0x2100 "+")
            [.mk 0x20c0 (at_a_c 1 9) (.IntegerLiteral (.mk tyInt false) 1) [],
             .mk 0x2100 (at_a_c 1 13) (.IntegerLiteral (.mk tyInt false) 2) []]]],
    recordDecls := [] }

/-- The translation unit `int x = 1 + 2;` of the file `a.c` as the front end hands it
over, with an implicit typedef (`__int128_t`, the object at `0x2010`) under the root. -/
def sumUnit : ASTContext := sumUnitWith [0x2010]

/-- The translation unit `_Complex double z;`. -/
def complexUnit : ASTContext :=
  { getTranslationUnitDecl :=
      .mk 0x2000 nowhere (.TranslationUnitDecl [0x2040])
        [.mk 0x2040 (at_a_c 1 1) (.VarDecl (.mk tyComplex false) 0 "z") []],
    recordDecls := [] }

/-- The translation unit `_Static_assert(1, "ok");`: the declaration at `0x2040` is of a
class without a `Visit…` method, the walker visits its two operands. -/
def staticAssertUnit : ASTContext :=
  { getTranslationUnitDecl :=
      .mk 0x2000 nowhere (.TranslationUnitDecl [0x2040])
        [.mk 0x2040 (at_a_c 1 1) .Other
          [.mk 0x2080 (at_a_c 1 16) (.IntegerLiteral (.mk tyInt false) 1) [],
           .mk 0x20c0 (at_a_c 1 19)
             (.StringLiteral (.mk (.ConstantArrayType 0x1090 (.mk tyChar false) 3) false)
               .Ascii 1 [0x6f, 0x6b]) []]],
    recordDecls := [] }

/-- Location in a source file whose name is `?`. -/
def at_question_mark (line col : Nat) : SourceLocation :=
  { line := line, col := col, fileEntry := some "?" }

end Example

/-- A nested walker that keeps every property the elementary steps keep. -/
def WalkerKeeps (td : Ptr → Walk) : Prop :=
  ∀ P : TranslateASTVisitor → Prop, StepInvariant P →
    ∀ D v v1, P v → td D v = some v1 → P v1

/-- Every registered node pointer is the `entity_id` of a node entry of the stream. -/
def RegisteredAreWritten (v : TranslateASTVisitor) : Prop :=
  ∀ k ∈ v.exportedTags, k.1 ∈ nodeIds v.encoder

/-! ## Summary of the `Visit…` methods, and further predicates -/

/-- What the `Visit…` method of a class does with an object: the arguments of its
`encode_entry_raw` call (tag, type pointer, child pointers, extra fields) and the
`QualType` it then hands to `typeEncoder.VisitQualType` (null when it makes no such
call). -/
structure HandlerCall where
  tag : ASTEntryTag
  ty : Ptr
  childIds : List Ptr
  extra : List CborValue
  visited : QualType

/-- The `encode_entry_raw` call and type visit of the `Visit…` method of each class;
`none` for a class without a `Visit…` method.  `WalkUpFrom_eq` shows that `WalkUpFrom`
does exactly this. -/
def NodeKind.handler : NodeKind → Option HandlerCall
  | .CompoundStmt children => some ⟨.TagCompoundStmt, 0, children, [], .null⟩
  | .ReturnStmt retValue => some ⟨.TagReturnStmt, 0, [retValue], [], .null⟩
  | .DoStmt body cond => some ⟨.TagDoStmt, 0, [body, cond], [], .null⟩
  | .GotoStmt label => some ⟨.TagGotoStmt, 0, [label], [], .null⟩
  | .LabelStmt subStmt name => some ⟨.TagLabelStmt, 0, [subStmt], [.text name], .null⟩
  | .NullStmt => some ⟨.TagNullStmt, 0, [], [], .null⟩
  | .IfStmt cond thenStmt elseStmt =>
      some ⟨.TagIfStmt, 0, [cond, thenStmt, elseStmt], [], .null⟩
  | .ForStmt init cond inc body => some ⟨.TagForStmt, 0, [init, cond, inc, body], [], .null⟩
  | .WhileStmt cond body => some ⟨.TagWhileStmt, 0, [cond, body], [], .null⟩
  | .DeclStmt decls => some ⟨.TagDeclStmt, 0, decls, [], .null⟩
  | .BreakStmt => some ⟨.TagBreakStmt, 0, [], [], .null⟩
  | .ContinueStmt => some ⟨.TagContinueStmt, 0, [], [], .null⟩
  | .CaseStmt lhs subStmt => some ⟨.TagCaseStmt, 0, [lhs, subStmt], [], .null⟩
  | .SwitchStmt cond body => some ⟨.TagSwitchStmt, 0, [cond, body], [], .null⟩
  | .DefaultStmt subStmt => some ⟨.TagDefaultStmt, 0, [subStmt], [], .null⟩
  | .ParenExpr type subExpr =>
      some ⟨.TagParenExpr, type.getTypePtrOrNull, [subExpr], [], type⟩
  | .MemberExpr type base memberDecl =>
      some ⟨.TagMemberExpr, type.getTypePtrOrNull, [base, memberDecl], [], type⟩
  | .InitListExpr type inits =>
      some ⟨.TagInitListExpr, type.getTypePtrOrNull, inits, [], type⟩
  | .ImplicitValueInitExpr type =>
      some ⟨.TagImplicitValueInitExpr, type.getTypePtrOrNull, [], [], type⟩
  | .ImplicitCastExpr type subExpr castKindName =>
      some ⟨.TagImplicitCastExpr, type.getTypePtrOrNull, [subExpr], [.text castKindName], type⟩
  | .CStyleCastExpr type subExpr castKindName =>
      some ⟨.TagCStyleCastExpr, type.getTypePtrOrNull, [subExpr], [.text castKindName], type⟩
  | .UnaryOperator type subExpr opcodeStr isPrefix =>
      some ⟨.TagUnaryOperator, type.getTypePtrOrNull, [subExpr],
        [.text opcodeStr, .boolean isPrefix], type⟩
  | .BinaryOperator type lhs rhs opcodeStr =>
      some ⟨.TagBinaryOperator, type.getTypePtrOrNull, [lhs, rhs], [.text opcodeStr], type⟩
  | .ConditionalOperator type cond trueExpr falseExpr =>
      some ⟨.TagConditionalOperator, type.getTypePtrOrNull, [cond, trueExpr, falseExpr], [],
        type⟩
  | .BinaryConditionalOperator type common falseExpr =>
      some ⟨.TagBinaryConditionalOperator, type.getTypePtrOrNull, [common, falseExpr], [],
        type⟩
  | .DeclRefExpr type decl => some ⟨.TagDeclRefExpr, type.getTypePtrOrNull, [decl], [], type⟩
  | .CallExpr type callee arguments =>
      some ⟨.TagCallExpr, type.getTypePtrOrNull, callee :: arguments, [], type⟩
  | .ArraySubscriptExpr type lhs rhs =>
      some ⟨.TagArraySubscriptExpr, type.getTypePtrOrNull, [lhs, rhs], [], type⟩
  | .FunctionDecl type parameters body name =>
      some ⟨.TagFunctionDecl, type.getTypePtrOrNull, parameters ++ [body], [.text name], type⟩
  | .VarDecl type init name =>
      some ⟨.TagVarDecl, type.getTypePtrOrNull, [init], [.text name], type⟩
  | .RecordDecl fields name => some ⟨.TagRecordDecl, 0, fields, [.text name], .null⟩
  | .EnumDecl enumerators name => some ⟨.TagEnumDecl, 0, enumerators, [.text name], .null⟩
  | .EnumConstantDecl initExpr name =>
      some ⟨.TagEnumConstantDecl, 0, [initExpr], [.text name], .null⟩
  | .FieldDecl _ name => some ⟨.TagFieldDecl, 0, [], [.text name], .null⟩
  | .TypedefDecl underlyingType name =>
      some ⟨.TagTypedefDecl, underlyingType.getTypePtrOrNull, [], [.text name], underlyingType⟩
  | .IntegerLiteral type value =>
      some ⟨.TagIntegerLiteral, type.getTypePtrOrNull, [], [.uint (getLimitedValue value)], type⟩
  | .CharacterLiteral type value =>
      some ⟨.TagCharacterLiteral, type.getTypePtrOrNull, [], [.uint value], type⟩
  | .StringLiteral type kind charByteWidth bytes =>
      some ⟨.TagStringLiteral, type.getTypePtrOrNull, [],
        [.stringTag (stringTypeTag kind), .uint charByteWidth, .bytes bytes], type⟩
  | .FloatingLiteral type lit =>
      some ⟨.TagFloatingLiteral, type.getTypePtrOrNull, [], [.double lit], type⟩
  | .TranslationUnitDecl _ => none
  | .Other => none

/-- Whether `TypeEncoder` has a `Visit…` method for the class of the type object. -/
def Ty.handled : Ty → Bool
  | .Unhandled _ => false
  | _ => true

mutual
/-- A node and all the objects the walker visits below it, in walk order. -/
def Node.subtree : Node → List Node
  | .mk p loc kind walked => .mk p loc kind walked :: Node.subtrees walked
/-- The subtrees of a sequence of nodes. -/
def Node.subtrees : List Node → List Node
  | [] => []
  | n :: ns => Node.subtree n ++ Node.subtrees ns
end

/-- The walker that `TraverseDecl` with `fuel + 1` hands to `VisitRecordType`: the walk
of the tree the context has for `D`, with `fuel`. -/
def nestedWalk (Context : ASTContext) (fuel : Nat) : Ptr → Walk :=
  fun D v =>
    match Context.getDecl D with
    | none => some v
    | some n => (TraverseDecl Context fuel n v).map fun r => r.2

/-- The second of two visitors has the same output and registries as the first:
entries, file table, registered nodes, exported types and declarations under visit. -/
def SameOutput (w w1 : TranslateASTVisitor) : Prop :=
  w1.encoder = w.encoder ∧ w1.filenames = w.filenames ∧ w1.exportedTags = w.exportedTags ∧
    w1.typeEncoder.exports = w.typeEncoder.exports ∧
    w1.typeEncoder.recordDeclsUnderVisit = w.typeEncoder.recordDeclsUnderVisit

/-- A step that, whenever it returns, has restored `recordDeclsUnderVisit` and only
added to the registries, and that changes nothing but `isConst` when run again from a
visitor which has at least the declarations under visit of the first run and at least
the registrations the first run ended with. -/
def Replays (f : Walk) : Prop :=
  ∀ v v1, f v = some v1 →
    v1.typeEncoder.recordDeclsUnderVisit = v.typeEncoder.recordDeclsUnderVisit ∧
    (∀ k ∈ v.typeEncoder.exports, k ∈ v1.typeEncoder.exports) ∧
    (∀ k ∈ v.exportedTags, k ∈ v1.exportedTags) ∧
    ∀ w : TranslateASTVisitor,
      (∀ x ∈ v.typeEncoder.recordDeclsUnderVisit, x ∈ w.typeEncoder.recordDeclsUnderVisit) →
      (∀ k ∈ v1.typeEncoder.exports, k ∈ w.typeEncoder.exports) →
      (∀ k ∈ v1.exportedTags, k ∈ w.exportedTags) →
      ∃ w1, f w = some w1 ∧ SameOutput w w1

namespace Example

/-- The type `long`. -/
def tyLong : Ty := .BuiltinType 0x10a0 .Long

/-- The typedef type `__int128_t` of the implicit declaration at `0x2010`. -/
def tyInt128Alias : Ty := .TypedefType 0x10b0 0x2010

/-- The translation unit `__int128_t x;`: the declaration of the alias is implicit, so
it is among `decls()` and the walker does not visit it. -/
def aliasUnit : ASTContext :=
  { getTranslationUnitDecl :=
      .mk 0x2000 nowhere (.TranslationUnitDecl [0x2010, 0x2040])
        [.mk 0x2040 (at_a_c 1 1) (.VarDecl (.mk tyInt128Alias false) 0 "x") []],
    recordDecls := [] }

/-- The declaration `struct P { int x; };`. -/
def declP : Node :=
  .mk 0x2040 (at_a_c 1 1) (.RecordDecl [0x2080] "P")
    [.mk 0x2080 (at_a_c 1 12) (.FieldDecl (.mk tyInt false) "x") []]

/-- The translation unit `struct P { int x; };`. -/
def intFieldUnit : ASTContext :=
  { getTranslationUnitDecl := .mk 0x2000 nowhere (.TranslationUnitDecl [0x2040]) [declP],
    recordDecls := [declP] }

/-- The record type `struct R` of the definition at `0x2100`. -/
def tyR : Ty := .RecordType 0x10c0 0x2100

/-- The type `struct R (long, char)`. -/
def tyRFn : Ty :=
  .FunctionProtoType 0x10e0 (.mk (.ElaboratedType 0x10d0 (.mk tyR false)) false)
    [.mk tyLong false, .mk tyChar false]

/-- The definition `struct R { int x : sizeof g; };` where `g` is a function of type
`struct R (long, char)`: the walk below the field reaches, through the bit width, a
reference to `g`, whose type is the function type. -/
def declR : Node :=
  .mk 0x2100 (at_a_c 2 1) (.RecordDecl [0x2140] "R")
    [.mk 0x2140 (at_a_c 2 12) (.FieldDecl (.mk tyInt false) "x")
      [.mk 0x2180 (at_a_c 2 20) (.ImplicitCastExpr (.mk tyInt false) 0x21c0 "IntegralCast")
        [.mk 0x21c0 (at_a_c 2 20) .Other
          [.mk 0x2200 (at_a_c 2 27) (.DeclRefExpr (.mk tyRFn false) 0x2080) []]]]]

/-- The translation unit
`struct R g(long, char); struct R { int x : sizeof g; };`.  The first declaration of
`struct R`, inside the declaration of `g`, is the object at `0x2040`. -/
def fnUnit : ASTContext :=
  { getTranslationUnitDecl :=
      .mk 0x2000 nowhere (.TranslationUnitDecl [0x2040, 0x2080, 0x2100])
        [.mk 0x2040 (at_a_c 1 1) (.RecordDecl [] "R") [],
         .mk 0x2080 (at_a_c 1 10) (.FunctionDecl (.mk tyRFn false) [0x20a0, 0x20c0] 0 "g")
           [.mk 0x20a0 (at_a_c 1 12) (.VarDecl (.mk tyLong false) 0 "") [],
            .mk 0x20c0 (at_a_c 1 18) (.VarDecl (.mk tyChar false) 0 "") []],
         declR],
    recordDecls := [declR] }

/-- The visitor of the run on `fnUnit` at the moment the walk of the body of `struct R`,
entered from the first visit of the type of `g`, has written the entry of the reference
to `g` and is about to visit its type: the entries of `struct R g(long, char)`, of
`struct R` (elaborated and record) and of the nodes on the way are written, the record is
under visit, and the parameter types are not reached yet. -/
def duringFirstVisit : TranslateASTVisitor :=
  let v1 := encode_entry_raw TranslateASTVisitor.init 0x2040 .TagRecordDecl (at_a_c 1 1) 0 []
    [.text "R"]
  let v2 := encode_entry_raw v1 0x2080 .TagFunctionDecl (at_a_c 1 10) 0x10e0
    [0x20a0, 0x20c0, 0] [.text "g"]
  let v3 := encodeType v2 0x10e0 .TagFunctionType [.array [0x10d0, 0x10a0, 0x1060]]
  let v4 := encodeType v3 0x10d0 .TagElaboratedType [.uint 0x10c0]
  let v5 := encodeType v4 0x10c0 .TagRecordType [.uint 0x2100]
  let v6 := { v5 with typeEncoder := { v5.typeEncoder with recordDeclsUnderVisit := [0x2100] } }
  let v7 := encode_entry_raw v6 0x2100 .TagRecordDecl (at_a_c 2 1) 0 [0x2140] [.text "R"]
  let v8 := encode_entry_raw v7 0x2140 .TagFieldDecl (at_a_c 2 12) 0 [] [.text "x"]
  let v9 := encode_entry_raw v8 0x2180 .TagImplicitCastExpr (at_a_c 2 20) 0x1000 [0x21c0]
    [.text "IntegralCast"]
  let v10 := encodeType v9 0x1000 .TagInt []
  encode_entry_raw v10 0x2200 .TagDeclRefExpr (at_a_c 2 27) 0x10e0 [0x2080] []

end Example

/-- The `QualType`s that the `Visit…` method of the class of a type object hands to
`VisitQualType`, in call order: the pointee, the element type, the return type followed
by the parameter types, the desugared type; none for builtin, enum, record and typedef
types and for classes without a `Visit…` method. -/
def Ty.visited : Ty → List QualType
  | .ConstantArrayType _ t _ => [t]
  | .VariableArrayType _ t => [t]
  | .IncompleteArrayType _ t => [t]
  | .FunctionProtoType _ ret params => ret :: params
  | .FunctionNoProtoType _ ret => [ret]
  | .PointerType _ pointee => [pointee]
  | .TypeOfType _ t => [t]
  | .ElaboratedType _ t => [t]
  | .DecayedType _ t => [t]
  | _ => []

namespace Example

/-- The definition `struct S { int x : sizeof((struct S *)0); };` written on the given
line; the tree is that of `declBits`. -/
def declBitsAt (line : Nat) : Node :=
  .mk 0x2040 (at_a_c line 1) (.RecordDecl [0x2080] "S")
    [.mk 0x2080 (at_a_c line 12) (.FieldDecl (.mk tyInt false) "x")
      [.mk 0x20a0 (at_a_c line 20) (.ImplicitCastExpr (.mk tyInt false) 0x20c0 "IntegralCast")
        [.mk 0x20c0 (at_a_c line 20) .Other
          [.mk 0x20e0 (at_a_c line 26) (.ParenExpr (.mk tySPtr false) 0x2100)
            [.mk 0x2100 (at_a_c line 27)
              (.CStyleCastExpr (.mk tySPtr false) 0x2140 "NullToPointer")
              [.mk 0x2140 (at_a_c line 39) (.IntegerLiteral (.mk tyInt false) 0) []]]]]]]

/-- The translation unit
`struct S s;` (line 1) `struct S { int x : sizeof((struct S *)0); };` (line 2).  The
first declaration of `struct S`, inside the declaration of `s`, is the object at
`0x2020`.  The type `struct S *` is first visited from the body of `struct S` while that
body is walked for the type of `s`, and later from the same body when the walk of the
translation unit reaches the definition. -/
def useFirstUnit : ASTContext :=
  { getTranslationUnitDecl :=
      .mk 0x2000 nowhere (.TranslationUnitDecl [0x2020, 0x2200, 0x2040])
        [.mk 0x2020 (at_a_c 1 1) (.RecordDecl [] "S") [],
         .mk 0x2200 (at_a_c 1 10)
           (.VarDecl (.mk (.ElaboratedType 0x1040 (.mk tyS false)) false) 0 "s") [],
         declBitsAt 2],
    recordDecls := [declBitsAt 2] }

/-- The visitor of the run on `useFirstUnit` at the moment the walk of the body of
`struct S`, entered from the type of `s`, has written the entry of the parenthesised
expression and is about to visit its type `struct S *` for the first time: `struct S`
is under visit. -/
def duringUse : TranslateASTVisitor :=
  let v1 := encode_entry_raw TranslateASTVisitor.init 0x2020 .TagRecordDecl (at_a_c 1 1) 0 []
    [.text "S"]
  let v2 := encode_entry_raw v1 0x2200 .TagVarDecl (at_a_c 1 10) 0x1040 [0] [.text "s"]
  let v3 := encodeType v2 0x1040 .TagElaboratedType [.uint 0x1030]
  let v4 := encodeType v3 0x1030 .TagRecordType [.uint 0x2040]
  let v5 := { v4 with typeEncoder := { v4.typeEncoder with recordDeclsUnderVisit := [0x2040] } }
  let v6 := encode_entry_raw v5 0x2040 .TagRecordDecl (at_a_c 2 1) 0 [0x2080] [.text "S"]
  let v7 := encode_entry_raw v6 0x2080 .TagFieldDecl (at_a_c 2 12) 0 [] [.text "x"]
  let v8 := encode_entry_raw v7 0x20a0 .TagImplicitCastExpr (at_a_c 2 20) 0x1000 [0x20c0]
    [.text "IntegralCast"]
  let v9 := encodeType v8 0x1000 .TagInt []
  encode_entry_raw v9 0x20e0 .TagParenExpr (at_a_c 2 26) 0x1050 [0x2100] []

end Example

/-! ## The type objects and nodes of a translation unit -/

mutual
/-- The type objects of classes with a `Visit…` method that the encoder reaches from a
type without entering a record declaration, the object itself first: each with its
address, and a record type with the declaration it names. -/
def Ty.objects : Ty → List (Ptr × Option Ptr)
  | .BuiltinType T _ => [(T, none)]
  | .EnumType T _ => [(T, none)]
  | .ConstantArrayType T t _ => (T, none) :: QualType.objects t
  | .VariableArrayType T t => (T, none) :: QualType.objects t
  | .IncompleteArrayType T t => (T, none) :: QualType.objects t
  | .RecordType T D => [(T, some D)]
  | .FunctionProtoType T ret params =>
      (T, none) :: (QualType.objects ret ++ objectsOfTypes params)
  | .FunctionNoProtoType T ret => (T, none) :: QualType.objects ret
  | .PointerType T pointee => (T, none) :: QualType.objects pointee
  | .TypedefType T _ => [(T, none)]
  | .TypeOfType T t => (T, none) :: QualType.objects t
  | .ElaboratedType T t => (T, none) :: QualType.objects t
  | .DecayedType T t => (T, none) :: QualType.objects t
  | .Unhandled _ => []
/-- The type objects reached from a `QualType`. -/
def QualType.objects : QualType → List (Ptr × Option Ptr)
  | .null => []
  | .mk ty _ => Ty.objects ty
/-- The type objects reached from a sequence of `QualType`s. -/
def objectsOfTypes : List QualType → List (Ptr × Option Ptr)
  | [] => []
  | q :: qs => QualType.objects q ++ objectsOfTypes qs
end

/-- The type objects reached from the type that the `Visit…` method of a node visits. -/
def Node.typeObjects (n : Node) : List (Ptr × Option Ptr) :=
  match n.kind.handler with
  | none => []
  | some c => c.visited.objects

/-- The pair under which the `Visit…` method of a node registers it: its address and the
tag of its class; none for a class without a `Visit…` method. -/
def Node.key (n : Node) : Option (Ptr × ASTEntryTag) :=
  n.kind.handler.map fun c => (n.addr, c.tag)

/-- The node's pair is among `keys` and the addresses of its type objects among `types`. -/
def Node.inside (keys : List (Ptr × ASTEntryTag)) (types : List Ptr) (n : Node) : Prop :=
  (∀ k, n.key = some k → k ∈ keys) ∧ ∀ o ∈ n.typeObjects, o.1 ∈ types

/-- All nodes the walker can reach: those of the tree of the translation unit and those
of the trees of the record declarations. -/
def ASTContext.nodes (Context : ASTContext) : List Node :=
  Node.subtree Context.getTranslationUnitDecl ++ Node.subtrees Context.recordDecls

/-- The pairs of address and tag of all nodes of classes with a `Visit…` method. -/
def ASTContext.nodeKeys (Context : ASTContext) : List (Ptr × ASTEntryTag) :=
  Context.nodes.filterMap Node.key

/-- The type objects reached from the nodes. -/
def ASTContext.typeObjects (Context : ASTContext) : List (Ptr × Option Ptr) :=
  Context.nodes.flatMap Node.typeObjects

/-- The addresses of the type objects reached from the nodes. -/
def ASTContext.typeAddrs (Context : ASTContext) : List Ptr :=
  Context.typeObjects.map Prod.fst

/-! ## Properties kept by calls with arguments of the translation unit -/

/-- A property of the visitor that every elementary step keeps when its key is of
`keys`, respectively its type pointer of `types`. -/
structure GuardedInvariant (keys : List (Ptr × ASTEntryTag)) (types : List Ptr)
    (P : TranslateASTVisitor → Prop) : Prop where
  encodeType : ∀ v T tag extra, T ∈ types → P v → P (encodeType v T tag extra)
  encode_entry_raw : ∀ v ast tag loc ty childIds extra, (ast, tag) ∈ keys →
    P v → P (encode_entry_raw v ast tag loc ty childIds extra)
  setConst : ∀ v (c : Bool), P v →
    P { v with typeEncoder := { v.typeEncoder with isConst := c } }
  setUnderVisit : ∀ v (u : List Ptr), P v →
    P { v with typeEncoder := { v.typeEncoder with recordDeclsUnderVisit := u } }

/-- A step that keeps `P` whenever it returns. -/
def Guarded (P : TranslateASTVisitor → Prop) (f : Walk) : Prop :=
  ∀ v v1, P v → f v = some v1 → P v1

/-- Entries written so far come from registered keys of `keys` and exported pointers of
`types`, and have pairwise different ids. -/
def DistinctIds (keys : List (Ptr × ASTEntryTag)) (types : List Ptr)
    (v : TranslateASTVisitor) : Prop :=
  (∀ e ∈ v.encoder, e.origin keys types v) ∧ (v.encoder.map Entry.entity_id).Nodup

/-! ## What a run has finished -/

/-- Every node of the tree below `n` that is of a class with a `Visit…` method is
registered in `keys`, and every type object reached from the type its method visits is
exported in `types`. -/
def Node.covered (types : List Ptr) (keys : List (Ptr × ASTEntryTag)) (n : Node) : Prop :=
  ∀ m ∈ Node.subtree n, m.inside keys types

/-- The tree that the context has for the declaration `D`, if any, is covered. -/
def bodyCovered (Context : ASTContext) (types : List Ptr) (keys : List (Ptr × ASTEntryTag))
    (D : Ptr) : Prop :=
  ∀ n, Context.getDecl D = some n → n.covered types keys

/-- What holds of the visitor whenever a `Visit…` method or `VisitQualType` is entered
or left during a run: for every record type of the translation unit that is exported,
either its declaration is under visit or the walk of the declaration's body has been
completed, so that all its nodes are registered and all their types exported. -/
def RunInvariant (Context : ASTContext) (s : TranslateASTVisitor) : Prop :=
  ∀ o ∈ Context.typeObjects, ∀ D, o.2 = some D → o.1 ∈ s.typeEncoder.exports →
    D ∈ s.typeEncoder.recordDeclsUnderVisit ∨
      bodyCovered Context s.typeEncoder.exports s.exportedTags D

/-- A step that writes nothing and leaves the registries as they are, when made from a
visitor of a run whose registries satisfy `c`. -/
def Silent (Context : ASTContext) (c : List Ptr → List (Ptr × ASTEntryTag) → Prop)
    (f : Walk) : Prop :=
  ∀ s s1, RunInvariant Context s → c s.typeEncoder.exports s.exportedTags → f s = some s1 →
    SameOutput s s1

/-- A step that keeps the invariant of a run and leaves registries that satisfy `c`. -/
def Settles (Context : ASTContext) (c : List Ptr → List (Ptr × ASTEntryTag) → Prop)
    (f : Walk) : Prop :=
  ∀ v v1, RunInvariant Context v → f v = some v1 →
    RunInvariant Context v1 ∧ c v1.typeEncoder.exports v1.exportedTags

/-- A condition on the registries that stays true when they grow. -/
def Monotone2 (c : List Ptr → List (Ptr × ASTEntryTag) → Prop) : Prop :=
  ∀ E E' X X', (∀ k ∈ E, k ∈ E') → (∀ k ∈ X, k ∈ X') → c E X → c E' X'

/-! ## Identity registry -/

theorem markForExportAll_length (v : TranslateASTVisitor) (keys : List (Ptr × ASTEntryTag)) :
    (markForExportAll v keys).length = keys.length := by
  induction keys generalizing v with
  | nil => rfl
  | cons k ks ih => simp [markForExportAll, ih]

theorem isUnexportedAll_length (te : TypeEncoder) (ptrs : List Ptr) :
    (isUnexportedAll te ptrs).length = ptrs.length := by
  induction ptrs generalizing te with
  | nil => rfl
  | cons k ks ih => simp [isUnexportedAll, ih]

theorem markForExportAll_getElem (v : TranslateASTVisitor) (keys : List (Ptr × ASTEntryTag))
    (i : Nat) (h : i < keys.length) :
    (markForExportAll v keys)[i]? =
      some (decide (keys[i] ∉ v.exportedTags ∧ keys[i] ∉ keys.take i)) := by
  induction keys generalizing v i with
  | nil => simp at h
  | cons k ks ih =>
    cases i with
    | zero =>
      by_cases hk : (k.1, k.2) ∈ v.exportedTags <;> simp [markForExportAll, markForExport, hk]
    | succ j =>
      have hj : j < ks.length := by simpa using h
      simp only [markForExportAll, List.getElem?_cons_succ, List.getElem_cons_succ,
        List.take_succ_cons]
      rw [ih _ j hj]
      by_cases hk : (k.1, k.2) ∈ v.exportedTags
      · simp only [markForExport, hk, if_true]
        by_cases h1 : ks[j] ∈ v.exportedTags
        · simp [h1]
        · have : ks[j] ≠ k := by
            intro e; rw [e] at h1; exact h1 hk
          simp [h1, this]
      · simp only [markForExport, hk, if_false]
        by_cases h1 : ks[j] = k
        · simp [h1]
        · simp [h1]

theorem isUnexportedAll_getElem (te : TypeEncoder) (ptrs : List Ptr)
    (i : Nat) (h : i < ptrs.length) :
    (isUnexportedAll te ptrs)[i]? =
      some (decide (ptrs[i] ∉ te.exports ∧ ptrs[i] ∉ ptrs.take i)) := by
  induction ptrs generalizing te i with
  | nil => simp at h
  | cons k ks ih =>
    cases i with
    | zero =>
      by_cases hk : k ∈ te.exports <;> simp [isUnexportedAll, TypeEncoder.isUnexported, hk]
    | succ j =>
      have hj : j < ks.length := by simpa using h
      simp only [isUnexportedAll, List.getElem?_cons_succ, List.getElem_cons_succ,
        List.take_succ_cons]
      rw [ih _ j hj]
      by_cases hk : k ∈ te.exports
      · simp only [TypeEncoder.isUnexported, hk, if_true]
        by_cases h1 : ks[j] ∈ te.exports
        · simp [h1]
        · have : ks[j] ≠ k := by
            intro e; rw [e] at h1; exact h1 hk
          simp [h1, this]
      · simp only [TypeEncoder.isUnexported, hk, if_false]
        by_cases h1 : ks[j] = k
        · simp [h1]
        · simp [h1]

theorem markForExportAll_count (v : TranslateASTVisitor) (keys : List (Ptr × ASTEntryTag))
    (k : Ptr × ASTEntryTag) :
    (keys.zip (markForExportAll v keys)).count (k, true) =
      if k ∈ v.exportedTags then 0 else if k ∈ keys then 1 else 0 := by
  induction keys generalizing v with
  | nil => simp [markForExportAll]
  | cons a as ih =>
    simp only [markForExportAll, List.zip_cons_cons, List.count_cons, ih]
    by_cases ha : (a.1, a.2) ∈ v.exportedTags
    · have ha' : a ∈ v.exportedTags := ha
      by_cases hk : k ∈ v.exportedTags
      · simp [markForExport, ha, hk]
      · have : a ≠ k := by intro e; rw [e] at ha'; exact hk ha'
        have this' : k ≠ a := fun e => this e.symm
        simp [markForExport, ha, hk, this, this']
    · have ha' : a ∉ v.exportedTags := ha
      by_cases hk : k ∈ v.exportedTags
      · have : a ≠ k := by intro e; rw [e] at ha'; exact ha' hk
        simp [markForExport, ha, hk, this]
      · by_cases e : a = k
        · subst e; simp [markForExport, ha]
        · have e' : k ≠ a := fun h => e h.symm
          simp [markForExport, ha, hk, e, e']

theorem isUnexportedAll_count (te : TypeEncoder) (ptrs : List Ptr) (k : Ptr) :
    (ptrs.zip (isUnexportedAll te ptrs)).count (k, true) =
      if k ∈ te.exports then 0 else if k ∈ ptrs then 1 else 0 := by
  induction ptrs generalizing te with
  | nil => simp [isUnexportedAll]
  | cons a as ih =>
    simp only [isUnexportedAll, List.zip_cons_cons, List.count_cons, ih]
    by_cases ha : a ∈ te.exports
    · by_cases hk : k ∈ te.exports
      · simp [TypeEncoder.isUnexported, ha, hk]
      · have : a ≠ k := by intro e; rw [e] at ha; exact hk ha
        have this' : k ≠ a := fun e => this e.symm
        simp [TypeEncoder.isUnexported, ha, hk, this, this']
    · by_cases hk : k ∈ te.exports
      · have : a ≠ k := by intro e; rw [e] at ha; exact ha hk
        simp [TypeEncoder.isUnexported, ha, hk, this]
      · by_cases e : a = k
        · subst e; simp [TypeEncoder.isUnexported, ha]
        · have e' : k ≠ a := fun h => e h.symm
          simp [TypeEncoder.isUnexported, ha, hk, e, e']

/-- Claim C1: starting from the empty registry, in every sequence of registration
calls the `i`-th call returns true exactly when its key did not occur in an earlier
call, for `markForExport` (keys are pointer and tag) and for `isUnexported` (keys are
type pointers); so for every key of the sequence exactly one call with that key
returns true. -/
theorem registry_true_exactly_once (keys : List (Ptr × ASTEntryTag)) (ptrs : List Ptr) :
    (∀ i (h : i < keys.length),
      (markForExportAll TranslateASTVisitor.init keys)[i]? =
        some (decide (keys[i] ∉ keys.take i))) ∧
    (∀ k ∈ keys, (keys.zip (markForExportAll TranslateASTVisitor.init keys)).count (k, true) = 1) ∧
    (∀ i (h : i < ptrs.length),
      (isUnexportedAll TranslateASTVisitor.init.typeEncoder ptrs)[i]? =
        some (decide (ptrs[i] ∉ ptrs.take i))) ∧
    (∀ k ∈ ptrs,
      (ptrs.zip (isUnexportedAll TranslateASTVisitor.init.typeEncoder ptrs)).count (k, true) = 1) := by
  refine ⟨?_, ?_, ?_, ?_⟩
  · intro i h
    rw [markForExportAll_getElem _ _ i h]
    simp [TranslateASTVisitor.init]
  · intro k hk
    rw [markForExportAll_count]
    simp [TranslateASTVisitor.init, hk]
  · intro i h
    rw [isUnexportedAll_getElem _ _ i h]
    simp [TranslateASTVisitor.init]
  · intro k hk
    rw [isUnexportedAll_count]
    simp [TranslateASTVisitor.init, hk]

/-! ## Location table -/

theorem indexedTable_snoc (names : List String) (p : String) :
    indexedTable (names ++ [p]) = indexedTable names ++ [(p, names.length)] := by
  unfold indexedTable
  rw [List.length_append, List.length_singleton, List.range_succ,
    List.zip_append (by simp)]
  simp

theorem lookup_indexedTable (names : List String) (p : String) :
    List.lookup p (indexedTable names) =
      if p ∈ names then some (names.indexOf p) else none := by
  induction names using List.reverseRecOn with
  | nil => simp [indexedTable]
  | append_singleton ns q ih =>
    rw [indexedTable_snoc, List.lookup_append, ih]
    by_cases hp : p ∈ ns
    · simp [hp, List.indexOf_append_of_mem hp]
    · by_cases hq : p = q
      · subst hq
        simp [hp, List.indexOf_append_of_not_mem hp, List.lookup_cons]
      · have hq' : ¬ q = p := fun e => hq e.symm
        have hb : (p == q) = false := by simpa using hq
        simp [hp, hq, List.lookup_cons, hb]

theorem filenamesInsert_indexedTable (names : List String) (p : String) :
    filenamesInsert (indexedTable names) p =
      if p ∈ names then (names.indexOf p, indexedTable names)
      else (names.length, indexedTable (names ++ [p])) := by
  unfold filenamesInsert
  rw [lookup_indexedTable]
  by_cases hp : p ∈ names
  · simp [hp]
  · simp only [hp, if_false, indexedTable_snoc]
    simp [indexedTable]

theorem firstReferences_prefix (seen : List String) (ps : List String) :
    ∃ l, firstReferences seen ps = seen ++ l := by
  induction ps generalizing seen with
  | nil => exact ⟨[], by simp [firstReferences]⟩
  | cons p ps ih =>
    unfold firstReferences
    by_cases hp : p ∈ seen
    · simpa [hp] using ih seen
    · obtain ⟨l, hl⟩ := ih (seen ++ [p])
      exact ⟨p :: l, by simp [hp, hl]⟩

theorem firstReferences_nodup (seen : List String) (ps : List String) (h : seen.Nodup) :
    (firstReferences seen ps).Nodup := by
  induction ps generalizing seen with
  | nil => simpa [firstReferences] using h
  | cons p ps ih =>
    unfold firstReferences
    by_cases hp : p ∈ seen
    · simpa [hp] using ih seen h
    · simp only [hp, if_false]
      apply ih
      rw [List.nodup_append]
      refine ⟨h, List.nodup_singleton p, ?_⟩
      intro a ha hb
      simp at hb
      subst hb
      exact hp ha

theorem mem_firstReferences (seen : List String) (ps : List String) (q : String) :
    q ∈ firstReferences seen ps ↔ q ∈ seen ∨ q ∈ ps := by
  induction ps generalizing seen with
  | nil => simp [firstReferences]
  | cons p ps ih =>
    unfold firstReferences
    by_cases hp : p ∈ seen
    · simp only [hp, if_true, ih, List.mem_cons]
      constructor
      · rintro (h | h)
        · exact Or.inl h
        · exact Or.inr (Or.inr h)
      · rintro (h | h | h)
        · exact Or.inl h
        · exact Or.inl (h ▸ hp)
        · exact Or.inr h
    · simp only [hp, if_false, ih, List.mem_append, List.mem_singleton, List.mem_cons]
      tauto

theorem encodeSourcePosAll_indexedTable (names : List String) (locs : List SourceLocation)
    (v : TranslateASTVisitor) (hv : v.filenames = indexedTable names) :
    (encodeSourcePosAll v locs).1.map (fun t => t.1) =
        (locs.map SourceLocation.filename).map
          (fun p => (firstReferences names (locs.map SourceLocation.filename)).indexOf p) ∧
      (encodeSourcePosAll v locs).2.filenames =
        indexedTable (firstReferences names (locs.map SourceLocation.filename)) := by
  induction locs generalizing names v with
  | nil => simp [encodeSourcePosAll, firstReferences, hv]
  | cons loc locs ih =>
    simp only [encodeSourcePosAll, List.map_cons, firstReferences, encodeSourcePos, hv,
      filenamesInsert_indexedTable]
    by_cases hp : loc.filename ∈ names
    · simp only [hp, if_true]
      obtain ⟨h1, h2⟩ := ih names { v with filenames := indexedTable names } rfl
      refine ⟨?_, h2⟩
      rw [h1]
      obtain ⟨l, hl⟩ := firstReferences_prefix names (locs.map SourceLocation.filename)
      rw [hl, List.indexOf_append_of_mem hp]
    · simp only [hp, if_false]
      obtain ⟨h1, h2⟩ := ih (names ++ [loc.filename])
        { v with filenames := indexedTable (names ++ [loc.filename]) } rfl
      refine ⟨?_, h2⟩
      rw [h1]
      obtain ⟨l, hl⟩ := firstReferences_prefix (names ++ [loc.filename])
        (locs.map SourceLocation.filename)
      rw [hl, List.append_assoc, List.indexOf_append_of_not_mem hp]
      simp

/-- Claim C8: starting from the empty table, in every sequence of `encodeSourcePos`
calls each call writes, as file index, the position of its path among the distinct
paths in order of first reference (so an already seen path gets its first index again
and the `N` distinct paths get `0..N-1`), and the table afterwards pairs the `i`-th
distinct path with `i`. -/
theorem file_table_monotone (locs : List SourceLocation) :
    (encodeSourcePosAll TranslateASTVisitor.init locs).1.map (fun t => t.1) =
        (locs.map SourceLocation.filename).map
          (fun p => (firstReferences [] (locs.map SourceLocation.filename)).indexOf p) ∧
      (encodeSourcePosAll TranslateASTVisitor.init locs).2.filenames =
        indexedTable (firstReferences [] (locs.map SourceLocation.filename)) ∧
      (firstReferences [] (locs.map SourceLocation.filename)).Nodup ∧
      (∀ p, p ∈ firstReferences [] (locs.map SourceLocation.filename) ↔
        p ∈ locs.map SourceLocation.filename) := by
  obtain ⟨h1, h2⟩ := encodeSourcePosAll_indexedTable [] locs TranslateASTVisitor.init
    (by simp [TranslateASTVisitor.init, indexedTable])
  refine ⟨h1, h2, firstReferences_nodup [] _ List.nodup_nil, ?_⟩
  intro p
  simp [mem_firstReferences]

/-! ## Evaluation on example inputs -/

/-- Claim C3, evaluated: visiting `T` and then `const T`, for a builtin type at address
`T`, writes one type entry only, with `entity_id = T`; visiting `const T` and then `T`
writes one type entry only, with `entity_id = T + 1`.  In neither order does a second
entry follow. -/
theorem const_and_plain_write_one_entry (T : Ptr) (kind : BuiltinKind) :
    ((VisitQualType Example.noDecl (.mk (.BuiltinType T kind) false)
        TranslateASTVisitor.init).bind
      (VisitQualType Example.noDecl (.mk (.BuiltinType T kind) true))).map
        (fun v => v.encoder) = some [Entry.type T (builtinTag kind) []] ∧
    ((VisitQualType Example.noDecl (.mk (.BuiltinType T kind) true)
        TranslateASTVisitor.init).bind
      (VisitQualType Example.noDecl (.mk (.BuiltinType T kind) false))).map
        (fun v => v.encoder) = some [Entry.type (T + 1) (builtinTag kind) []] := by
  constructor <;>
  simp [VisitQualType, Visit, VisitBuiltinType, encodeType, TypeEncoder.isUnexported,
    TranslateASTVisitor.init]

/-- Claim C4, evaluated: for `const int x;` the variable entry has `type_id` equal to
the address of `int`, the only type entry has that address plus one as `entity_id`, and
so the type references are not closed. -/
theorem const_var_type_id_dangles :
    (exportedDocument id Example.constIntUnit).map (fun d => d.entries) =
        some [Entry.node 0x2040 .TagVarDecl [none] 0 1 1 (some 0x1000) [.text "x"],
              Entry.type 0x1001 .TagInt []] ∧
      ∀ d, exportedDocument id Example.constIntUnit = some d → ¬ typeRefsClosed d.entries := by
  have h : (exportedDocument id Example.constIntUnit).map (fun d => d.entries) =
      some [Entry.node 0x2040 .TagVarDecl [none] 0 1 1 (some 0x1000) [.text "x"],
            Entry.type 0x1001 .TagInt []] := by decide
  refine ⟨h, ?_⟩
  intro d hd
  rw [hd] at h
  simp only [Option.map_some', Option.some.injEq] at h
  rw [h]
  decide

/-- Claim C5, evaluated: for `void f(void) { L: ; goto L; }` the entry of the `goto` has
the address of the label declaration as its child, no entry has that address as
`entity_id` (the labelled statement is a different object), and so the child references
are not closed. -/
theorem goto_label_child_dangles :
    (exportedDocument id Example.gotoUnit).map (fun d => d.entries.map Entry.entity_id) =
        some [0x2040, 0x1020, 0x1010, 0x2080, 0x20c0, 0x2140, 0x2100] ∧
      (exportedDocument id Example.gotoUnit).map
          (fun d => nodeEntriesWith .TagGotoStmt d.entries) =
        some [Entry.node 0x2100 .TagGotoStmt [some 0x2180] 0 1 21 none []] ∧
      ∀ d, exportedDocument id Example.gotoUnit = some d → ¬ childRefsClosed d.entries := by
  refine ⟨by decide, by decide, ?_⟩
  intro d hd
  have h : (exportedDocument id Example.gotoUnit).map (fun d => decide (childRefsClosed d.entries))
      = some false := by decide
  rw [hd] at h
  simpa using h

/-- Claim C6, evaluated: for `struct S { struct S *next; };` the entries are the record
declaration and the field declaration, the field's `type_id` is null, and there is no
type entry at all, so no record-type entry. -/
theorem self_referential_record_has_no_type_entry :
    (exportedDocument id Example.selfRefUnit).map (fun d => d.entries) =
        some [Entry.node 0x2040 .TagRecordDecl [some 0x2080] 0 1 1 none [.text "S"],
              Entry.node 0x2080 .TagFieldDecl [] 0 1 12 none [.text "next"]] ∧
      (exportedDocument id Example.selfRefUnit).map
          (fun d => (typeEntriesWith .TagRecordType d.entries).length) = some 0 ∧
      (exportedDocument id Example.selfRefUnit).map
          (fun d => (nodeEntriesWith .TagRecordDecl d.entries).length) = some 1 := by
  refine ⟨by decide, by decide, by decide⟩

/-! ## Uniqueness of entity ids -/

theorem encoder_ids_nodup_step (nodeKeys : List (Ptr × ASTEntryTag)) (typePtrs : List Ptr)
    (hTag : ∀ k1 ∈ nodeKeys, ∀ k2 ∈ nodeKeys, k1.1 = k2.1 → k1.2 = k2.2)
    (hEven : ∀ T ∈ typePtrs, T % 2 = 0)
    (hNode : ∀ k ∈ nodeKeys, k.1 % 2 = 0 ∧ k.1 ∉ typePtrs)
    (c : Call) (hck : ∀ k, c.nodeKey = some k → k ∈ nodeKeys)
    (hct : ∀ T, c.typePtr = some T → T ∈ typePtrs)
    (v : TranslateASTVisitor)
    (hO : ∀ e ∈ v.encoder, e.origin nodeKeys typePtrs v)
    (hN : (v.encoder.map Entry.entity_id).Nodup) :
    (∀ e ∈ (c.run v).encoder, e.origin nodeKeys typePtrs (c.run v)) ∧
      ((c.run v).encoder.map Entry.entity_id).Nodup := by
  cases c with
  | encode_entry_raw a t loc ty childIds extra =>
    have hk : (a, t) ∈ nodeKeys := hck (a, t) rfl
    simp only [Call.run, encode_entry_raw, markForExport]
    by_cases hm : (a, t) ∈ v.exportedTags
    · simp only [hm, if_true]
      exact ⟨hO, hN⟩
    · simp only [hm, if_false, Bool.true_eq_false, encodeSourcePos]
      constructor
      · intro e he
        rcases List.mem_append.1 he with he | he
        · have := hO e he
          cases e with
          | node a' t' _ _ _ _ _ _ => exact ⟨List.mem_cons_of_mem _ this.1, this.2⟩
          | type id _ _ => exact this
        · rw [List.mem_singleton] at he
          subst he
          exact ⟨List.mem_cons_self _ _, hk⟩
      · rw [List.map_append, List.nodup_append]
        refine ⟨hN, by simp, ?_⟩
        intro x hx hx'
        simp only [List.map_cons, List.map_nil, List.mem_singleton, Entry.entity_id] at hx'
        subst hx'
        obtain ⟨e, he, hid⟩ := List.mem_map.1 hx
        have ho := hO e he
        cases e with
        | node a' t' _ _ _ _ _ _ =>
          simp only [Entry.entity_id] at hid
          subst hid
          have := hTag _ ho.2 _ hk rfl
          simp only at this
          subst this
          exact hm ho.1
        | type id _ _ =>
          simp only [Entry.entity_id] at hid
          subst hid
          obtain ⟨T, _, hT, h | h⟩ := ho
          · subst h
            exact (hNode _ hk).2 hT
          · have h1 := (hNode _ hk).1
            have h2 := hEven T hT
            simp only at h1
            simp only [Ptr] at *
            omega
  | encodeType isConst T tag extra =>
    have hT : T ∈ typePtrs := hct T rfl
    simp only [Call.run, encodeType, TypeEncoder.isUnexported]
    by_cases hm : T ∈ v.typeEncoder.exports
    · simp only [hm, if_true]
      refine ⟨?_, hN⟩
      intro e he
      have := hO e he
      cases e with
      | node a' t' _ _ _ _ _ _ => exact this
      | type id _ _ => exact this
    · simp only [hm, if_false, Bool.true_eq_false]
      constructor
      · intro e he
        rcases List.mem_append.1 he with he | he
        · have := hO e he
          cases e with
          | node a' t' _ _ _ _ _ _ => exact this
          | type id _ _ =>
            obtain ⟨T', h1, h2, h3⟩ := this
            exact ⟨T', List.mem_cons_of_mem _ h1, h2, h3⟩
        · rw [List.mem_singleton] at he
          subst he
          refine ⟨T, List.mem_cons_self _ _, hT, ?_⟩
          cases isConst <;> simp
      · rw [List.map_append, List.nodup_append]
        refine ⟨hN, by simp, ?_⟩
        intro x hx hx'
        simp only [List.map_cons, List.map_nil, List.mem_singleton, Entry.entity_id] at hx'
        subst hx'
        obtain ⟨e, he, hid⟩ := List.mem_map.1 hx
        have ho := hO e he
        have hTe := hEven T hT
        cases e with
        | node a' t' _ _ _ _ _ _ =>
          simp only [Entry.entity_id] at hid
          have h1 := (hNode _ ho.2).1
          have h2 := (hNode _ ho.2).2
          simp only at h1 h2
          cases isConst
          · simp only [Bool.false_eq_true, if_false, Nat.add_zero] at hid
            exact h2 (hid ▸ hT)
          · simp only [if_true] at hid
            simp only [Ptr] at *
            omega
        | type id _ _ =>
          simp only [Entry.entity_id] at hid
          obtain ⟨T', h1, h2, h3⟩ := ho
          have hT'e := hEven T' h2
          have : T' = T := by
            cases isConst
            · simp only [Bool.false_eq_true, if_false, Nat.add_zero] at hid
              rcases h3 with h | h <;> simp only [Ptr] at * <;> omega
            · simp only [if_true] at hid
              rcases h3 with h | h <;> simp only [Ptr] at * <;> omega
          exact hm (this ▸ h1)

theorem encoder_ids_nodup_foldl (nodeKeys : List (Ptr × ASTEntryTag)) (typePtrs : List Ptr)
    (hTag : ∀ k1 ∈ nodeKeys, ∀ k2 ∈ nodeKeys, k1.1 = k2.1 → k1.2 = k2.2)
    (hEven : ∀ T ∈ typePtrs, T % 2 = 0)
    (hNode : ∀ k ∈ nodeKeys, k.1 % 2 = 0 ∧ k.1 ∉ typePtrs)
    (cs : List Call) (hck : ∀ c ∈ cs, ∀ k, c.nodeKey = some k → k ∈ nodeKeys)
    (hct : ∀ c ∈ cs, ∀ T, c.typePtr = some T → T ∈ typePtrs)
    (v : TranslateASTVisitor)
    (hO : ∀ e ∈ v.encoder, e.origin nodeKeys typePtrs v)
    (hN : (v.encoder.map Entry.entity_id).Nodup) :
    ((cs.foldl Call.run v).encoder.map Entry.entity_id).Nodup := by
  induction cs generalizing v with
  | nil => exact hN
  | cons c cs ih =>
    obtain ⟨h1, h2⟩ := encoder_ids_nodup_step nodeKeys typePtrs hTag hEven hNode c
      (hck c (List.mem_cons_self _ _)) (hct c (List.mem_cons_self _ _)) v hO hN
    exact ih (fun c' hc' => hck c' (List.mem_cons_of_mem _ hc'))
      (fun c' hc' => hct c' (List.mem_cons_of_mem _ hc')) _ h1 h2

/-! ## Termination of the walk -/

@[simp] theorem encodeType_recordDeclsUnderVisit (v : TranslateASTVisitor) (T : Ptr)
    (tag : TypeTag) (extra : List CborValue) :
    (encodeType v T tag extra).typeEncoder.recordDeclsUnderVisit =
      v.typeEncoder.recordDeclsUnderVisit := by
  unfold encodeType TypeEncoder.isUnexported
  by_cases h : T ∈ v.typeEncoder.exports <;> simp [h]

@[simp] theorem encode_entry_raw_typeEncoder (v : TranslateASTVisitor) (ast : Ptr)
    (tag : ASTEntryTag) (loc : SourceLocation) (ty : Ptr) (childIds : List Ptr)
    (extra : List CborValue) :
    (encode_entry_raw v ast tag loc ty childIds extra).typeEncoder = v.typeEncoder := by
  unfold encode_entry_raw markForExport encodeSourcePos
  by_cases h : (ast, tag) ∈ v.exportedTags <;> simp [h]

theorem VisitRecordType_returns (u : List Ptr) (td : Ptr → Walk) (h : CallbackReturns u td)
    (T D : Ptr) : Returns u (fun v => VisitRecordType td v T D) := by
  intro v hv
  unfold VisitRecordType
  simp only [encodeType_recordDeclsUnderVisit, hv]
  by_cases hD : D ∈ u
  · simp [hD, hv]
  · simp only [hD, if_false]
    obtain ⟨v3, h3, hu3⟩ := h D hD
      { encodeType v T .TagRecordType [.uint D] with
        typeEncoder := { (encodeType v T .TagRecordType [.uint D]).typeEncoder with
          recordDeclsUnderVisit := D :: u } } rfl
    rw [h3]
    simp [hu3]

mutual
theorem Visit_returns (u : List Ptr) (td : Ptr → Walk) (h : CallbackReturns u td) :
    ∀ T : Ty, Returns u (Visit td T)
  | .BuiltinType T kind => fun v hv => ⟨_, rfl, by simp [VisitBuiltinType, hv]⟩
  | .EnumType T decl => fun v hv => ⟨_, rfl, by simp [VisitEnumType, hv]⟩
  | .ConstantArrayType T t size => fun v hv => by
      simpa [Visit, VisitConstantArrayType] using VisitQualType_returns u td h t _ (by simpa using hv)
  | .VariableArrayType T t => fun v hv => by
      simpa [Visit, VisitVariableArrayType] using VisitQualType_returns u td h t _ (by simpa using hv)
  | .IncompleteArrayType T t => fun v hv => by
      simpa [Visit, VisitIncompleteArrayType] using
        VisitQualType_returns u td h t _ (by simpa using hv)
  | .RecordType T D => fun v hv => by
      simpa [Visit] using VisitRecordType_returns u td h T D v hv
  | .FunctionProtoType T ret params => fun v hv => by
      obtain ⟨v1, h1, hu1⟩ := VisitQualType_returns u td h ret
        (encodeType v T .TagFunctionType
          [.array (ret.getTypePtrOrNull :: params.map QualType.getTypePtrOrNull)])
        (by simpa using hv)
      obtain ⟨v2, h2, hu2⟩ := VisitQualTypes_returns u td h params v1 hu1
      exact ⟨v2, by simp [Visit, VisitFunctionProtoType, h1, h2], hu2⟩
  | .FunctionNoProtoType T ret => fun v hv => by
      simpa [Visit, VisitFunctionNoProtoType] using
        VisitQualType_returns u td h ret _ (by simpa using hv)
  | .PointerType T pointee => fun v hv => by
      simpa [Visit, VisitPointerType] using
        VisitQualType_returns u td h pointee _ (by simpa using hv)
  | .TypedefType T D => fun v hv => ⟨_, rfl, by simp [VisitTypedefType, hv]⟩
  | .TypeOfType T t => fun v hv => by
      simpa [Visit, VisitTypeOfType] using VisitQualType_returns u td h t _ (by simpa using hv)
  | .ElaboratedType T t => fun v hv => by
      simpa [Visit, VisitElaboratedType] using VisitQualType_returns u td h t _ (by simpa using hv)
  | .DecayedType T t => fun v hv => by
      simpa [Visit, VisitDecayedType] using VisitQualType_returns u td h t _ (by simpa using hv)
  | .Unhandled T => fun v hv => ⟨v, rfl, hv⟩
theorem VisitQualType_returns (u : List Ptr) (td : Ptr → Walk) (h : CallbackReturns u td) :
    ∀ QT : QualType, Returns u (VisitQualType td QT)
  | .null => fun v hv => ⟨v, rfl, hv⟩
  | .mk ty hasConst => fun v hv => by
      simpa [VisitQualType] using Visit_returns u td h ty
        { v with typeEncoder := { v.typeEncoder with isConst := hasConst } } hv
theorem VisitQualTypes_returns (u : List Ptr) (td : Ptr → Walk) (h : CallbackReturns u td) :
    ∀ QTs : List QualType, Returns u (VisitQualTypes td QTs)
  | [] => fun v hv => ⟨v, rfl, hv⟩
  | x :: xs => fun v hv => by
      obtain ⟨v1, h1, hu1⟩ := VisitQualType_returns u td h x v hv
      obtain ⟨v2, h2, hu2⟩ := VisitQualTypes_returns u td h xs v1 hu1
      exact ⟨v2, by simp [VisitQualTypes, h1, h2], hu2⟩
end

theorem visitExpr_returns (u : List Ptr) (td : Ptr → Walk) (h : CallbackReturns u td)
    (E : Ptr) (tag : ASTEntryTag) (loc : SourceLocation) (ty : QualType)
    (childIds : List Ptr) (extra : List CborValue) :
    ReturnsTrue u (fun v => visitExpr td v E tag loc ty childIds extra) := by
  intro v hv
  obtain ⟨v1, h1, hu1⟩ := VisitQualType_returns u td h ty
    (encode_entry_raw v E tag loc ty.getTypePtrOrNull childIds extra) (by simpa using hv)
  exact ⟨v1, by simp [visitExpr, encode_entry_Expr, h1], hu1⟩

theorem visitDecl_returns (u : List Ptr) (td : Ptr → Walk) (h : CallbackReturns u td)
    (D : Ptr) (tag : ASTEntryTag) (loc : SourceLocation) (ty : QualType)
    (childIds : List Ptr) (extra : List CborValue) :
    ReturnsTrue u (fun v =>
      (VisitQualType td ty
        (encode_entry_Decl v D tag loc childIds ty.getTypePtrOrNull extra)).map
          fun v1 => (true, v1)) := by
  intro v hv
  obtain ⟨v1, h1, hu1⟩ := VisitQualType_returns u td h ty
    (encode_entry_raw v D tag loc ty.getTypePtrOrNull childIds extra) (by simpa using hv)
  exact ⟨v1, by simp [encode_entry_Decl, h1], hu1⟩

theorem visitStmt_returns (u : List Ptr) (v : TranslateASTVisitor)
    (hv : v.typeEncoder.recordDeclsUnderVisit = u) (ast : Ptr) (tag : ASTEntryTag)
    (loc : SourceLocation) (ty : Ptr) (childIds : List Ptr) (extra : List CborValue) :
    ∃ v1, some ((true, encode_entry_raw v ast tag loc ty childIds extra) : Visited) =
        some (true, v1) ∧ v1.typeEncoder.recordDeclsUnderVisit = u :=
  ⟨_, rfl, by simpa using hv⟩

theorem WalkUpFrom_returns (u : List Ptr) (td : Ptr → Walk) (h : CallbackReturns u td)
    (p : Ptr) (loc : SourceLocation) (kind : NodeKind) :
    ReturnsTrue u (WalkUpFrom td p loc kind) := by
  intro v hv
  cases kind with
  | CompoundStmt children => exact visitStmt_returns u v hv ..
  | ReturnStmt retValue => exact visitStmt_returns u v hv ..
  | DoStmt body cond => exact visitStmt_returns u v hv ..
  | GotoStmt label => exact visitStmt_returns u v hv ..
  | LabelStmt subStmt name => exact visitStmt_returns u v hv ..
  | NullStmt => exact visitStmt_returns u v hv ..
  | IfStmt cond thenStmt elseStmt => exact visitStmt_returns u v hv ..
  | ForStmt init cond inc body => exact visitStmt_returns u v hv ..
  | WhileStmt cond body => exact visitStmt_returns u v hv ..
  | DeclStmt decls => exact visitStmt_returns u v hv ..
  | BreakStmt => exact visitStmt_returns u v hv ..
  | ContinueStmt => exact visitStmt_returns u v hv ..
  | CaseStmt lhs subStmt => exact visitStmt_returns u v hv ..
  | SwitchStmt cond body => exact visitStmt_returns u v hv ..
  | DefaultStmt subStmt => exact visitStmt_returns u v hv ..
  | ParenExpr type subExpr => exact visitExpr_returns u td h _ _ _ _ _ _ v hv
  | MemberExpr type base memberDecl => exact visitExpr_returns u td h _ _ _ _ _ _ v hv
  | InitListExpr type inits => exact visitExpr_returns u td h _ _ _ _ _ _ v hv
  | ImplicitValueInitExpr type => exact visitExpr_returns u td h _ _ _ _ _ _ v hv
  | ImplicitCastExpr type subExpr castKindName =>
    exact visitExpr_returns u td h _ _ _ _ _ _ v hv
  | CStyleCastExpr type subExpr castKindName =>
    exact visitExpr_returns u td h _ _ _ _ _ _ v hv
  | UnaryOperator type subExpr opcodeStr isPrefix =>
    exact visitExpr_returns u td h _ _ _ _ _ _ v hv
  | BinaryOperator type lhs rhs opcodeStr => exact visitExpr_returns u td h _ _ _ _ _ _ v hv
  | ConditionalOperator type cond trueExpr falseExpr =>
    exact visitExpr_returns u td h _ _ _ _ _ _ v hv
  | BinaryConditionalOperator type common falseExpr =>
    exact visitExpr_returns u td h _ _ _ _ _ _ v hv
  | DeclRefExpr type decl => exact visitExpr_returns u td h _ _ _ _ _ _ v hv
  | CallExpr type callee arguments => exact visitExpr_returns u td h _ _ _ _ _ _ v hv
  | ArraySubscriptExpr type lhs rhs => exact visitExpr_returns u td h _ _ _ _ _ _ v hv
  | FunctionDecl type parameters body name =>
    exact visitDecl_returns u td h _ _ _ _ _ _ v hv
  | VarDecl type init name => exact visitDecl_returns u td h _ _ _ _ _ _ v hv
  | RecordDecl fields name => exact visitStmt_returns u v hv ..
  | EnumDecl enumerators name => exact visitStmt_returns u v hv ..
  | EnumConstantDecl initExpr name => exact visitStmt_returns u v hv ..
  | FieldDecl type name => exact visitStmt_returns u v hv ..
  | TypedefDecl underlyingType name => exact visitDecl_returns u td h _ _ _ _ _ _ v hv
  | IntegerLiteral type value => exact visitExpr_returns u td h _ _ _ _ _ _ v hv
  | CharacterLiteral type value => exact visitExpr_returns u td h _ _ _ _ _ _ v hv
  | StringLiteral type kind charByteWidth bytes =>
    exact visitExpr_returns u td h _ _ _ _ _ _ v hv
  | FloatingLiteral type lit => exact visitExpr_returns u td h _ _ _ _ _ _ v hv
  | TranslationUnitDecl decls => exact ⟨v, rfl, hv⟩
  | Other => exact ⟨v, rfl, hv⟩

mutual
theorem traverse_returns (u : List Ptr) (td : Ptr → Walk) (h : CallbackReturns u td) :
    ∀ n : Node, ReturnsTrue u (traverse td n)
  | .mk p loc kind walked => fun v hv => by
      obtain ⟨v1, h1, hu1⟩ := WalkUpFrom_returns u td h p loc kind v hv
      obtain ⟨v2, h2, hu2⟩ := traverseAll_returns u td h walked v1 hu1
      exact ⟨v2, by simp [traverse, h1, h2], hu2⟩
theorem traverseAll_returns (u : List Ptr) (td : Ptr → Walk) (h : CallbackReturns u td) :
    ∀ ns : List Node, ReturnsTrue u (traverseAll td ns)
  | [] => fun v hv => ⟨v, rfl, hv⟩
  | n :: ns => fun v hv => by
      obtain ⟨v1, h1, hu1⟩ := traverse_returns u td h n v hv
      obtain ⟨v2, h2, hu2⟩ := traverseAll_returns u td h ns v1 hu1
      exact ⟨v2, by simp [traverseAll, h1, h2], hu2⟩
end

theorem getDecl_some_mem (Context : ASTContext) (D : Ptr) (n : Node)
    (h : Context.getDecl D = some n) : D ∈ Context.recordDecls.map Node.addr := by
  unfold ASTContext.getDecl at h
  have h1 := List.mem_of_find?_eq_some h
  have h2 := List.find?_some h
  simp only [beq_iff_eq] at h2
  exact List.mem_map.2 ⟨n, h1, h2⟩

theorem underVisit_length_le (Context : ASTContext) (u : List Ptr) (hn : u.Nodup)
    (hs : ∀ D ∈ u, D ∈ Context.recordDecls.map Node.addr) :
    u.length ≤ Context.recordDecls.length := by
  have := (List.Nodup.subperm hn hs).length_le
  simpa using this

/-- With the declarations of `u` under visit, all distinct and all of the context's
record table, fuel for the remaining ones (and one unit more) lets the walk return,
with `recordDeclsUnderVisit` as before. -/
theorem TraverseDecl_returns (Context : ASTContext) :
    ∀ (fuel : Nat) (u : List Ptr), u.Nodup →
      (∀ D ∈ u, D ∈ Context.recordDecls.map Node.addr) →
      Context.recordDecls.length + 1 ≤ fuel + u.length →
      ∀ n : Node, ReturnsTrue u (TraverseDecl Context fuel n)
  | 0, u, hn, hs, hb, _ => by
      have := underVisit_length_le Context u hn hs
      omega
  | fuel + 1, u, hn, hs, hb, n => by
      apply traverse_returns
      intro D hD v hv
      cases hg : Context.getDecl D with
      | none => exact ⟨v, by simp [hg], hv⟩
      | some m =>
        have hmem := getDecl_some_mem Context D m hg
        obtain ⟨v1, h1, hu1⟩ := TraverseDecl_returns Context fuel (D :: u)
          (List.nodup_cons.2 ⟨hD, hn⟩)
          (by
            intro x hx
            rcases List.mem_cons.1 hx with hx | hx
            · exact hx ▸ hmem
            · exact hs x hx)
          (by simp only [List.length_cons]; omega) m v hv
        exact ⟨v1, by simp [hg, h1], hu1⟩

theorem exportedDocument_returns (iter : IterationOrder) (Context : ASTContext) :
    ∃ v, TraverseDecl Context Context.fuel Context.getTranslationUnitDecl
        TranslateASTVisitor.init = some (true, v) ∧
      exportedDocument iter Context = some
        { entries := v.encoder,
          topLevel := Context.getTranslationUnitDecl.decls,
          fileTable := (iter v.filenames).map fun kv => kv.1 } := by
  obtain ⟨v, hv, _⟩ := TraverseDecl_returns Context Context.fuel [] List.nodup_nil
    (by simp) (by simp [ASTContext.fuel]) Context.getTranslationUnitDecl
    TranslateASTVisitor.init rfl
  exact ⟨v, hv, by simp [exportedDocument, hv]⟩

/-- Claim C7: for every context (a finite table of record declarations) and every
finite tree, the walk from a fresh visitor returns when given the fuel of `process`,
or more; and `VisitRecordType` on a record whose declaration is in
`recordDeclsUnderVisit` only encodes the type, whatever the walker would do. -/
theorem walk_terminates (Context : ASTContext) (n : Node) :
    (∀ extra, ∃ v,
      TraverseDecl Context (Context.fuel + extra) n TranslateASTVisitor.init = some (true, v)) ∧
    (∀ (td : Ptr → Walk) (v : TranslateASTVisitor) (T D : Ptr),
      D ∈ v.typeEncoder.recordDeclsUnderVisit →
        VisitRecordType td v T D = some (encodeType v T .TagRecordType [.uint D])) := by
  constructor
  · intro extra
    obtain ⟨v, hv, _⟩ := TraverseDecl_returns Context (Context.fuel + extra) [] List.nodup_nil
      (by simp) (by simp only [List.length_nil, ASTContext.fuel]; omega) n TranslateASTVisitor.init rfl
    exact ⟨v, hv⟩
  · intro td v T D hD
    simp [VisitRecordType, hD]

/-- Evaluation for `walk_terminates`: in `struct S { int x : sizeof((struct S *)0); };
struct S s;` the walk reaches `struct S` from inside the body of `S` and from the
variable; it returns, having written one record-type entry and one record-declaration
entry. -/
theorem walk_terminates_witness :
    (∃ v, TraverseDecl Example.bitsUnit Example.bitsUnit.fuel
        Example.bitsUnit.getTranslationUnitDecl TranslateASTVisitor.init = some (true, v)) ∧
      (exportedDocument id Example.bitsUnit).map
          (fun d => d.entries.map Entry.entity_id) =
        some [0x2040, 0x2080, 0x20a0, 0x1000, 0x20e0, 0x1050, 0x1040, 0x1030, 0x2100,
          0x2140, 0x2200] :=
  ⟨by simpa using (walk_terminates Example.bitsUnit
      Example.bitsUnit.getTranslationUnitDecl).1 0, by decide!⟩


/-! ## File table section -/

/-- Claim C9, evaluated: for a translation unit whose entries come from `a.h` (index 0)
and `a.c` (index 1), with a table that iterates the newest pair first, the file table
section is `["a.c", "a.h"]`: the path with index 0 is not its element 0, and the entry of
`y`, written with `file_idx = 0` for `a.h`, indexes `a.c`. -/
theorem file_table_follows_iteration_order :
    (TraverseDecl Example.twoFilesUnit Example.twoFilesUnit.fuel
        Example.twoFilesUnit.getTranslationUnitDecl TranslateASTVisitor.init).map
          (fun r => r.2.filenames) = some [("a.h", 0), ("a.c", 1)] ∧
      (exportedDocument Example.newestFirst Example.twoFilesUnit).map
          (fun d => d.fileTable) = some ["a.c", "a.h"] ∧
      (exportedDocument Example.newestFirst Example.twoFilesUnit).map
          (fun d => nodeEntriesWith .TagVarDecl d.entries) =
        some [Entry.node 0x2040 .TagVarDecl [none] 0 1 1 (some 0x1000) [.text "y"],
              Entry.node 0x2080 .TagVarDecl [none] 1 2 1 (some 0x1000) [.text "x"]] ∧
      ¬ fileTableByIndex [("a.h", 0), ("a.c", 1)] ["a.c", "a.h"] := by
  refine ⟨by decide!, by decide!, by decide!, by decide!⟩

/-! ## Two-pass sizing -/

theorem foldl_append_sizing (chunks : List (List Nat)) (e : CborEncoder)
    (hs : e.size = 0) (hw : e.written = []) :
    cbor_encoder_get_extra_bytes_needed (chunks.foldl CborEncoder.append e) =
        cbor_encoder_get_extra_bytes_needed e + chunks.flatten.length ∧
      (chunks.foldl CborEncoder.append e).written = [] := by
  induction chunks generalizing e with
  | nil => simp [hw]
  | cons c cs ih =>
    obtain ⟨size, written, overflowed, needed⟩ := e
    simp only at hs hw
    subst hs hw
    simp only [List.foldl_cons, List.flatten_cons, List.length_append]
    cases overflowed with
    | true =>
      have he : CborEncoder.append ⟨0, [], true, needed⟩ c = ⟨0, [], true, needed + c.length⟩ := by
        simp [CborEncoder.append]
      rw [he]
      obtain ⟨h1, h2⟩ := ih ⟨0, [], true, needed + c.length⟩ rfl rfl
      rw [h1, h2]
      simp only [cbor_encoder_get_extra_bytes_needed, if_true, and_true]
      omega
    | false =>
      cases c with
      | nil =>
        have he : CborEncoder.append ⟨0, [], false, needed⟩ [] = ⟨0, [], false, needed⟩ := by
          simp [CborEncoder.append]
        rw [he]
        obtain ⟨h1, h2⟩ := ih ⟨0, [], false, needed⟩ rfl rfl
        rw [h1, h2]
        simp [cbor_encoder_get_extra_bytes_needed]
      | cons x xs =>
        have he : CborEncoder.append ⟨0, [], false, needed⟩ (x :: xs) =
            ⟨0, [], true, (x :: xs).length⟩ := by
          simp [CborEncoder.append]
        rw [he]
        obtain ⟨h1, h2⟩ := ih ⟨0, [], true, (x :: xs).length⟩ rfl rfl
        rw [h1, h2]
        simp [cbor_encoder_get_extra_bytes_needed]

theorem foldl_append_fits (chunks : List (List Nat)) (e : CborEncoder)
    (ho : e.overflowed = false) (hfit : e.written.length + chunks.flatten.length ≤ e.size) :
    chunks.foldl CborEncoder.append e = { e with written := e.written ++ chunks.flatten } := by
  induction chunks generalizing e with
  | nil => simp
  | cons c cs ih =>
    simp only [List.flatten_cons, List.length_append] at hfit
    have hc : e.written.length + c.length ≤ e.size := by omega
    have he : e.append c = { e with written := e.written ++ c } := by
      simp [CborEncoder.append, ho, hc]
    have h := ih { e with written := e.written ++ c } ho
      (by simp only [List.length_append]; omega)
    simp only [List.foldl_cons, he, h]
    simp

/-- Claim C10: for every translation unit (and every byte writer and iteration order),
both passes return and write the chunks of the same document, made by a fresh visitor;
the sizing pass on the empty buffer writes nothing and counts the length of all chunks,
and the real pass on a buffer of that size writes exactly those bytes without overflow:
the byte length written by the real pass equals the size computed by the sizing
pass. -/
theorem two_pass_sizing (w : TinyCbor) (iter : IterationOrder) (Context : ASTContext) :
    ∃ doc sizing real,
      exportedDocument iter Context = some doc ∧
      process w iter Context 0 = some sizing ∧
      sizing.written = [] ∧
      cbor_encoder_get_extra_bytes_needed sizing = (w.document doc).flatten.length ∧
      process w iter Context (cbor_encoder_get_extra_bytes_needed sizing) = some real ∧
      real.overflowed = false ∧
      real.written = (w.document doc).flatten ∧
      real.written.length = cbor_encoder_get_extra_bytes_needed sizing ∧
      HandleTranslationUnit w iter Context = some real.written := by
  obtain ⟨doc, hdoc⟩ : ∃ doc, exportedDocument iter Context = some doc := by
    obtain ⟨v, _, hv⟩ := exportedDocument_returns iter Context
    exact ⟨_, hv⟩
  obtain ⟨h1, h2⟩ := foldl_append_sizing (w.document doc) (cbor_encoder_init 0) rfl rfl
  have hneed : cbor_encoder_get_extra_bytes_needed (cbor_encoder_init 0) = 0 := rfl
  rw [hneed, Nat.zero_add] at h1
  have h3 := foldl_append_fits (w.document doc)
    (cbor_encoder_init (w.document doc).flatten.length) rfl (by simp [cbor_encoder_init])
  have hp : ∀ len, process w iter Context len =
      some ((w.document doc).foldl CborEncoder.append (cbor_encoder_init len)) := by
    intro len
    simp only [process, hdoc, Option.map_some']
  refine ⟨doc, (w.document doc).foldl CborEncoder.append (cbor_encoder_init 0),
    (w.document doc).foldl CborEncoder.append
      (cbor_encoder_init (w.document doc).flatten.length),
    hdoc, hp 0, h2, h1, ?_, ?_, ?_, ?_, ?_⟩
  · rw [h1]; exact hp _
  · rw [h3]; rfl
  · rw [h3]; simp [cbor_encoder_init]
  · rw [h3, h1]; simp [cbor_encoder_init]
  · simp only [HandleTranslationUnit, hp, Option.some_bind, Option.map_some', h1]
    rw [h3]
    simp [cbor_encoder_init]

/-- Evaluation for `two_pass_sizing`: for `const int x;` and a one-byte-per-item writer
the sizing pass counts 22 bytes and the real pass writes these 22 bytes. -/
theorem two_pass_sizing_witness :
    (∃ doc sizing real,
      exportedDocument id Example.constIntUnit = some doc ∧
      process Example.oneByte id Example.constIntUnit 0 = some sizing ∧
      sizing.written = [] ∧
      cbor_encoder_get_extra_bytes_needed sizing = (Example.oneByte.document doc).flatten.length ∧
      process Example.oneByte id Example.constIntUnit
        (cbor_encoder_get_extra_bytes_needed sizing) = some real ∧
      real.overflowed = false ∧
      real.written = (Example.oneByte.document doc).flatten ∧
      real.written.length = cbor_encoder_get_extra_bytes_needed sizing ∧
      HandleTranslationUnit Example.oneByte id Example.constIntUnit = some real.written) ∧
    (process Example.oneByte id Example.constIntUnit 0).map
        cbor_encoder_get_extra_bytes_needed = some 22 ∧
    HandleTranslationUnit Example.oneByte id Example.constIntUnit =
      some [159, 159, 64, 1, 129, 246, 0, 1, 1, 0, 97, 255, 159, 1, 2, 255, 255, 159, 64,
        255, 129, 99] :=
  ⟨two_pass_sizing Example.oneByte id Example.constIntUnit, by decide!, by decide!⟩

/-! ## Layout of the entries -/

theorem encode_entry_raw_fresh (v : TranslateASTVisitor) (ast : Ptr) (tag : ASTEntryTag)
    (loc : SourceLocation) (ty : Ptr) (childIds : List Ptr) (extra : List CborValue)
    (h : (ast, tag) ∉ v.exportedTags) :
    encode_entry_raw v ast tag loc ty childIds extra =
      { v with
        exportedTags := (ast, tag) :: v.exportedTags,
        filenames := (filenamesInsert v.filenames loc.filename).2,
        encoder := v.encoder ++
          [Entry.node ast tag (childIds.map fun x => if x = 0 then none else some x)
            (filenamesInsert v.filenames loc.filename).1 loc.line loc.col
            (if ty = 0 then none else some ty) extra] } := by
  simp [encode_entry_raw, markForExport, h, encodeSourcePos, encodeChildIds]

theorem encode_entry_raw_seen (v : TranslateASTVisitor) (ast : Ptr) (tag : ASTEntryTag)
    (loc : SourceLocation) (ty : Ptr) (childIds : List Ptr) (extra : List CborValue)
    (h : (ast, tag) ∈ v.exportedTags) :
    encode_entry_raw v ast tag loc ty childIds extra = v := by
  simp [encode_entry_raw, markForExport, h]

theorem encodeType_fresh (v : TranslateASTVisitor) (T : Ptr) (tag : TypeTag)
    (extra : List CborValue) (h : T ∉ v.typeEncoder.exports) :
    encodeType v T tag extra =
      { v with
        typeEncoder := { v.typeEncoder with exports := T :: v.typeEncoder.exports },
        encoder := v.encoder ++
          [Entry.type (T + if v.typeEncoder.isConst then 1 else 0) tag extra] } := by
  simp [encodeType, TypeEncoder.isUnexported, h]

theorem encodeType_seen (v : TranslateASTVisitor) (T : Ptr) (tag : TypeTag)
    (extra : List CborValue) (h : T ∈ v.typeEncoder.exports) :
    encodeType v T tag extra = v := by
  simp [encodeType, TypeEncoder.isUnexported, h]

/-- Claim C15: a first-time emission by `encode_entry_raw` appends exactly one entry,
with the node's address, the tag, one child slot per supplied child in the supplied
order (null for a null child, the child's address otherwise), the file index of the
location's path, line, column, the type pointer or null, and the extra fields; on the
wire these come in this order inside one indefinite-length array. -/
theorem node_entry_layout (v : TranslateASTVisitor) (ast : Ptr) (tag : ASTEntryTag)
    (loc : SourceLocation) (ty : Ptr) (childIds : List Ptr) (extra : List CborValue)
    (w : TinyCbor) (h : (ast, tag) ∉ v.exportedTags) :
    (encode_entry_raw v ast tag loc ty childIds extra).encoder =
        v.encoder ++
          [Entry.node ast tag (childIds.map fun x => if x = 0 then none else some x)
            (filenamesInsert v.filenames loc.filename).1 loc.line loc.col
            (if ty = 0 then none else some ty) extra] ∧
      (childIds.map fun x => if x = 0 then none else some x).length = childIds.length ∧
      w.entry
          (Entry.node ast tag (childIds.map fun x => if x = 0 then none else some x)
            (filenamesInsert v.filenames loc.filename).1 loc.line loc.col
            (if ty = 0 then none else some ty) extra) =
        [w.create_array none, w.encode_uint ast, w.encode_uint (w.astTag tag),
            w.create_array (some childIds.length)]
          ++ childIds.map (fun x => if x = 0 then w.encode_null else w.encode_uint x)
          ++ [w.close_container (some childIds.length),
              w.encode_uint (filenamesInsert v.filenames loc.filename).1,
              w.encode_uint loc.line, w.encode_uint loc.col,
              if ty = 0 then w.encode_null else w.encode_uint ty]
          ++ (extra.map w.value).flatten
          ++ [w.close_container none] := by
  refine ⟨by rw [encode_entry_raw_fresh _ _ _ _ _ _ _ h], by simp, ?_⟩
  have hc : List.map w.uintOrNull (childIds.map fun x => if x = 0 then none else some x) =
      childIds.map (fun x => if x = 0 then w.encode_null else w.encode_uint x) := by
    rw [List.map_map]
    apply List.map_congr_left
    intro x _
    by_cases hx : x = 0 <;> simp [hx, TinyCbor.uintOrNull]
  by_cases ht : ty = 0 <;>
    simp [TinyCbor.entry, TinyCbor.array, hc, ht, TinyCbor.uintOrNull]

/-- Witness for `node_entry_layout`: the entry of an `if` without `else` in `a.c`, and its
chunks under a one-byte-per-item writer. -/
theorem node_entry_layout_witness :
    (encode_entry_raw TranslateASTVisitor.init 0x2040 .TagIfStmt (Example.at_a_c 3 5) 0
        [0x2080, 0x20c0, 0] []).encoder =
      [Entry.node 0x2040 .TagIfStmt [some 0x2080, some 0x20c0, none] 0 3 5 none []] ∧
    Example.oneByte.entry
        (Entry.node 0x2040 .TagIfStmt [some 0x2080, some 0x20c0, none] 0 3 5 none []) =
      [[0x9f], [0x40], [1], [0x83], [0x80], [0xc0], [0xf6], [], [0], [3], [5], [0xf6],
        [0xff]] := by
  have h := node_entry_layout TranslateASTVisitor.init 0x2040 .TagIfStmt (Example.at_a_c 3 5) 0
    [0x2080, 0x20c0, 0] [] Example.oneByte (by decide)
  refine ⟨?_, by decide⟩
  rw [h.1]
  decide

/-! ## Optional children -/

/-- Claim C11: the entry of an `if` statement has three child slots, for condition,
then and else, and the third is null exactly when `getElse()` is null (an else branch,
also an empty compound statement, is written as its address); the entry of a `return`
has one slot and that of a `for` four, a null operand being written as null in its
slot. -/
theorem optional_child_fidelity (v : TranslateASTVisitor) (S : Ptr) (loc : SourceLocation)
    (cond thenStmt elseStmt retValue init inc body : Ptr)
    (h : ∀ tag, (S, tag) ∉ v.exportedTags) :
    (VisitIfStmt v S loc cond thenStmt elseStmt).2.encoder =
        v.encoder ++
          [Entry.node S .TagIfStmt
            [if cond = 0 then none else some cond,
             if thenStmt = 0 then none else some thenStmt,
             if elseStmt = 0 then none else some elseStmt]
            (filenamesInsert v.filenames loc.filename).1 loc.line loc.col none []] ∧
      ((if elseStmt = 0 then none else some elseStmt : Option Nat) = none ↔ elseStmt = 0) ∧
      (elseStmt ≠ 0 →
        (if elseStmt = 0 then none else some elseStmt : Option Nat) = some elseStmt) ∧
      (VisitReturnStmt v S loc retValue).2.encoder =
        v.encoder ++
          [Entry.node S .TagReturnStmt [if retValue = 0 then none else some retValue]
            (filenamesInsert v.filenames loc.filename).1 loc.line loc.col none []] ∧
      (VisitForStmt v S loc init cond inc body).2.encoder =
        v.encoder ++
          [Entry.node S .TagForStmt
            [if init = 0 then none else some init,
             if cond = 0 then none else some cond,
             if inc = 0 then none else some inc,
             if body = 0 then none else some body]
            (filenamesInsert v.filenames loc.filename).1 loc.line loc.col none []] := by
  refine ⟨?_, ?_, ?_, ?_, ?_⟩
  · simp [VisitIfStmt, encode_entry_Stmt, encode_entry_raw_fresh _ _ _ _ _ _ _ (h _)]
  · by_cases he : elseStmt = 0 <;> simp [he]
  · intro he; simp [he]
  · simp [VisitReturnStmt, encode_entry_Stmt, encode_entry_raw_fresh _ _ _ _ _ _ _ (h _)]
  · simp [VisitForStmt, encode_entry_Stmt, encode_entry_raw_fresh _ _ _ _ _ _ _ (h _)]

/-- Witness for `optional_child_fidelity`: an `if` without `else`, and the same `if` with
an else branch at `0x2100`, give different third slots. -/
theorem optional_child_fidelity_witness :
    (VisitIfStmt TranslateASTVisitor.init 0x2040 (Example.at_a_c 3 5) 0x2080 0x20c0 0).2.encoder =
      [Entry.node 0x2040 .TagIfStmt [some 0x2080, some 0x20c0, none] 0 3 5 none []] ∧
    (VisitIfStmt TranslateASTVisitor.init 0x2040 (Example.at_a_c 3 5) 0x2080 0x20c0
        0x2100).2.encoder =
      [Entry.node 0x2040 .TagIfStmt [some 0x2080, some 0x20c0, some 0x2100] 0 3 5 none []] := by
  have h1 := (optional_child_fidelity TranslateASTVisitor.init 0x2040 (Example.at_a_c 3 5)
    0x2080 0x20c0 0 0 0 0 0 (by simp [TranslateASTVisitor.init])).1
  have h2 := (optional_child_fidelity TranslateASTVisitor.init 0x2040 (Example.at_a_c 3 5)
    0x2080 0x20c0 0x2100 0 0 0 0 (by simp [TranslateASTVisitor.init])).1
  rw [h1, h2]
  exact ⟨by decide, by decide⟩

/-! ## Payloads of type entries -/

/-- Claim C16: the entry of a prototyped function type with `n` parameters carries one
array of `n + 1` type pointers, the return type first and the parameter types after it
in order; the entry of an unprototyped function type carries an array with the return
type only.  Each handler writes this entry and then visits the constituents. -/
theorem function_type_payload (v : TranslateASTVisitor) (T : Ptr) (returnType : QualType)
    (paramTypes : List QualType) (h : T ∉ v.typeEncoder.exports) :
    (∃ v1, (∀ k1 k2 : Walk,
          VisitFunctionProtoType v T returnType paramTypes k1 k2 = (k1 v1).bind k2) ∧
        v1.encoder = v.encoder ++
          [Entry.type (T + if v.typeEncoder.isConst then 1 else 0) .TagFunctionType
            [.array (returnType.getTypePtrOrNull ::
              paramTypes.map QualType.getTypePtrOrNull)]]) ∧
      (returnType.getTypePtrOrNull :: paramTypes.map QualType.getTypePtrOrNull).length =
        paramTypes.length + 1 ∧
      (∀ i, (returnType.getTypePtrOrNull :: paramTypes.map QualType.getTypePtrOrNull)[i + 1]? =
        (paramTypes[i]?).map QualType.getTypePtrOrNull) ∧
      (∃ v1, (∀ k1 : Walk, VisitFunctionNoProtoType v T returnType k1 = k1 v1) ∧
        v1.encoder = v.encoder ++
          [Entry.type (T + if v.typeEncoder.isConst then 1 else 0) .TagFunctionType
            [.array [returnType.getTypePtrOrNull]]]) := by
  refine ⟨⟨_, fun k1 k2 => rfl, by rw [encodeType_fresh _ _ _ _ h]⟩, by simp, ?_,
    ⟨_, fun k1 => rfl, by rw [encodeType_fresh _ _ _ _ h]⟩⟩
  intro i
  simp

/-- Witness for `function_type_payload`: the types `int (int, char)` and `int ()`, each at
`0x10a0` of a fresh visitor, with continuations that do nothing. -/
theorem function_type_payload_witness :
    (VisitFunctionProtoType TranslateASTVisitor.init 0x10a0 (.mk Example.tyInt false)
        [.mk Example.tyInt false, .mk Example.tyChar false] some some).map
          (fun v => v.encoder) =
      some [Entry.type 0x10a0 .TagFunctionType [.array [0x1000, 0x1000, 0x1060]]] ∧
    (VisitFunctionNoProtoType TranslateASTVisitor.init 0x10a0 (.mk Example.tyInt false)
        some).map (fun v => v.encoder) =
      some [Entry.type 0x10a0 .TagFunctionType [.array [0x1000]]] := by
  obtain ⟨⟨v1, hk1, he1⟩, _, _, ⟨v2, hk2, he2⟩⟩ :=
    function_type_payload TranslateASTVisitor.init 0x10a0 (.mk Example.tyInt false)
      [.mk Example.tyInt false, .mk Example.tyChar false] (by simp [TranslateASTVisitor.init])
  rw [hk1, hk2]
  simp only [Option.some_bind, Option.map_some', he1, he2]
  exact ⟨by decide, by decide⟩

/-- Claim C17: the entry of a constant-size array type carries the element type pointer
and then the element count, exactly, for a count below `2 ^ 64`; the entry of a
variable-length array type carries the element type pointer and then the `undefined`
marker. -/
theorem sized_array_payloads (v : TranslateASTVisitor) (T : Ptr) (t : QualType) (size : Nat)
    (h : T ∉ v.typeEncoder.exports) (hsize : size < 2 ^ 64) :
    (∃ v1, (∀ k : Walk, VisitConstantArrayType v T t size k = k v1) ∧
        v1.encoder = v.encoder ++
          [Entry.type (T + if v.typeEncoder.isConst then 1 else 0) .TagConstantArrayType
            [.uint t.getTypePtrOrNull, .uint size]]) ∧
      (∃ v1, (∀ k : Walk, VisitVariableArrayType v T t k = k v1) ∧
        v1.encoder = v.encoder ++
          [Entry.type (T + if v.typeEncoder.isConst then 1 else 0) .TagVariableArrayType
            [.uint t.getTypePtrOrNull, .undefined]]) := by
  have hl : getLimitedValue size = size := by
    unfold getLimitedValue
    rw [if_neg]
    omega
  refine ⟨⟨_, fun k => rfl, ?_⟩, ⟨_, fun k => rfl, by rw [encodeType_fresh _ _ _ _ h]⟩⟩
  rw [encodeType_fresh _ _ _ _ h, hl]

/-- Witness for `sized_array_payloads`: the types `int [3]` and `int [n]`, each at `0x10b0`
of a fresh visitor, with a continuation that does nothing. -/
theorem sized_array_payloads_witness :
    (VisitConstantArrayType TranslateASTVisitor.init 0x10b0 (.mk Example.tyInt false) 3
        some).map (fun v => v.encoder) =
      some [Entry.type 0x10b0 .TagConstantArrayType [.uint 0x1000, .uint 3]] ∧
    (VisitVariableArrayType TranslateASTVisitor.init 0x10b0 (.mk Example.tyInt false)
        some).map (fun v => v.encoder) =
      some [Entry.type 0x10b0 .TagVariableArrayType [.uint 0x1000, .undefined]] := by
  obtain ⟨⟨v1, hk1, he1⟩, ⟨v2, hk2, he2⟩⟩ :=
    sized_array_payloads TranslateASTVisitor.init 0x10b0 (.mk Example.tyInt false) 3
      (by simp [TranslateASTVisitor.init]) (by norm_num)
  rw [hk1, hk2]
  simp only [Option.map_some', he1, he2]
  exact ⟨by decide, by decide⟩

/-- Claim C18 as stated fails: the entry of the incomplete array type `int []` carries the
pointer of its element type, so it is not the entry with `entity_id` and tag only. -/
theorem incomplete_array_entry_names_element :
    (VisitIncompleteArrayType TranslateASTVisitor.init 0x10d0 (.mk Example.tyInt false)
        some).map (fun v => v.encoder) =
      some [Entry.type 0x10d0 .TagIncompleteArrayType [.uint 0x1000]] ∧
    ¬ (VisitIncompleteArrayType TranslateASTVisitor.init 0x10d0 (.mk Example.tyInt false)
        some).map (fun v => v.encoder) =
      some [Entry.type 0x10d0 .TagIncompleteArrayType []] := by
  exact ⟨by decide, by decide⟩

/-- Claim C18, amended: the entry of an incomplete array type carries its element type
pointer and no size: it consists of the `entity_id`, the incomplete-array tag and the
element type pointer. -/
theorem incomplete_array_payload (v : TranslateASTVisitor) (T : Ptr) (t : QualType)
    (h : T ∉ v.typeEncoder.exports) :
    ∃ v1, (∀ k : Walk, VisitIncompleteArrayType v T t k = k v1) ∧
      v1.encoder = v.encoder ++
        [Entry.type (T + if v.typeEncoder.isConst then 1 else 0) .TagIncompleteArrayType
          [.uint t.getTypePtrOrNull]] :=
  ⟨_, fun _ => rfl, by rw [encodeType_fresh _ _ _ _ h]⟩

/-- Witness for `incomplete_array_payload`: the type `const char []`, reached through a
const-qualified `QualType`. -/
theorem incomplete_array_payload_witness :
    (VisitIncompleteArrayType
        { TranslateASTVisitor.init with
          typeEncoder := { TranslateASTVisitor.init.typeEncoder with isConst := true } }
        0x10d0 (.mk Example.tyChar false) some).map (fun v => v.encoder) =
      some [Entry.type 0x10d1 .TagIncompleteArrayType [.uint 0x1060]] := by
  obtain ⟨v1, hk, he⟩ := incomplete_array_payload
    { TranslateASTVisitor.init with
      typeEncoder := { TranslateASTVisitor.init.typeEncoder with isConst := true } }
    0x10d0 (.mk Example.tyChar false) (by simp [TranslateASTVisitor.init])
  rw [hk]
  simp only [Option.map_some', he]
  decide

/-! ## Integer literals -/

/-- Claim C19 as stated fails: for the literal `18446744073709551616` (`2 ^ 64`, of type
`__int128`) the payload is `2 ^ 64 - 1`, while the value cut to 64 bits is `0`. -/
theorem wide_literal_payload_is_limit :
    (VisitIntegerLiteral Example.noDecl TranslateASTVisitor.init 0x2040 (Example.at_a_c 1 9)
        (.mk Example.tyInt128 false) (2 ^ 64)).map (fun r => r.2.encoder) =
      some [Entry.node 0x2040 .TagIntegerLiteral [] 0 1 9 (some 0x1070)
              [.uint 18446744073709551615],
            Entry.type 0x1070 .TagTypeUnknown []] ∧
    truncatedTo64 (2 ^ 64) = 0 ∧
    ¬ (VisitIntegerLiteral Example.noDecl TranslateASTVisitor.init 0x2040 (Example.at_a_c 1 9)
        (.mk Example.tyInt128 false) (2 ^ 64)).map (fun r => r.2.encoder) =
      some [Entry.node 0x2040 .TagIntegerLiteral [] 0 1 9 (some 0x1070)
              [.uint (truncatedTo64 (2 ^ 64))],
            Entry.type 0x1070 .TagTypeUnknown []] := by
  exact ⟨by decide!, by decide!, by decide!⟩

/-- Claim C19, amended: the payload of an integer literal is its value when the value is
below `2 ^ 64`, and the limit `2 ^ 64 - 1` for every larger value.  The handler writes the
entry with this payload and then visits the literal's type. -/
theorem integer_literal_payload (td : Ptr → Walk) (v : TranslateASTVisitor) (IL : Ptr)
    (loc : SourceLocation) (type : QualType) (value : Nat)
    (h : (IL, ASTEntryTag.TagIntegerLiteral) ∉ v.exportedTags) :
    VisitIntegerLiteral td v IL loc type value =
        (VisitQualType td type
          (encode_entry_raw v IL .TagIntegerLiteral loc type.getTypePtrOrNull []
            [.uint (if value < 2 ^ 64 then value else 2 ^ 64 - 1)])).map
          (fun v2 => (true, v2)) ∧
      (encode_entry_raw v IL .TagIntegerLiteral loc type.getTypePtrOrNull []
          [.uint (if value < 2 ^ 64 then value else 2 ^ 64 - 1)]).encoder =
        v.encoder ++
          [Entry.node IL .TagIntegerLiteral []
            (filenamesInsert v.filenames loc.filename).1 loc.line loc.col
            (if type.getTypePtrOrNull = 0 then none else some type.getTypePtrOrNull)
            [.uint (if value < 2 ^ 64 then value else 2 ^ 64 - 1)]] := by
  have hl : getLimitedValue value = if value < 2 ^ 64 then value else 2 ^ 64 - 1 := by
    unfold getLimitedValue
    by_cases hv : value < 2 ^ 64
    · rw [if_neg (by omega), if_pos hv]
    · rw [if_pos (by omega), if_neg hv]
  refine ⟨?_, ?_⟩
  · simp only [VisitIntegerLiteral, visitExpr, encode_entry_Expr, hl]
  · rw [encode_entry_raw_fresh _ _ _ _ _ _ _ h]
    simp

/-- Witness for `integer_literal_payload`: the literal `2` of type `int`. -/
theorem integer_literal_payload_witness :
    (VisitIntegerLiteral Example.noDecl TranslateASTVisitor.init 0x2100 (Example.at_a_c 1 13)
        (.mk Example.tyInt false) 2).map (fun r => r.2.encoder) =
      some [Entry.node 0x2100 .TagIntegerLiteral [] 0 1 13 (some 0x1000) [.uint 2],
            Entry.type 0x1000 .TagInt []] := by
  rw [(integer_literal_payload Example.noDecl TranslateASTVisitor.init 0x2100
    (Example.at_a_c 1 13) (.mk Example.tyInt false) 2 (by simp [TranslateASTVisitor.init])).1]
  decide!

/-! ## Unknown type kinds -/

/-- Claim C13, evaluated: a builtin type of a kind that `VisitBuiltinType` does not name
gets an entry with `TagTypeUnknown`; a type of a class without a `Visit…` method gets no
entry at all, from any visitor; for `_Complex double z;` the document has the entry of `z`
with the address of its type as `type_id` and no type entry. -/
theorem unhandled_type_class_writes_no_entry :
    (VisitQualType Example.noDecl (.mk Example.tyInt128 false)
        TranslateASTVisitor.init).map (fun v => v.encoder) =
      some [Entry.type 0x1070 .TagTypeUnknown []] ∧
    (∀ (td : Ptr → Walk) (T : Ptr) (v : TranslateASTVisitor),
      Visit td (.Unhandled T) v = some v) ∧
    (exportedDocument id Example.complexUnit).map (fun d => d.entries) =
      some [Entry.node 0x2040 .TagVarDecl [none] 0 1 1 (some 0x1080) [.text "z"]] ∧
    (exportedDocument id Example.complexUnit).map (fun d => typeIds d.entries) = some [] := by
  refine ⟨by decide, ?_, by decide, by decide⟩
  intro td T v
  simp [Visit]

/-! ## End-to-end scenario -/

/-- Claim C12, evaluated against the claim: for `int x = 1 + 2;` as the front end hands it
over, the top-level list holds the address of the implicit typedef before that of the
variable declaration, so it is not the variable declaration's `entity_id` alone; and the
implicit typedef has no entry. -/
theorem sum_top_level_lists_implicit_declaration :
    (exportedDocument id Example.sumUnit).map (fun d => d.topLevel) = some [0x2010, 0x2040] ∧
    (exportedDocument id Example.sumUnit).map (fun d => d.topLevel) ≠ some [0x2040] ∧
    (exportedDocument id Example.sumUnit).map (fun d => nodeIds d.entries) =
      some [0x2040, 0x2080, 0x20c0, 0x2100] := by
  exact ⟨by decide!, by decide!, by decide!⟩

/-- Claim C12, amended: for `int x = 1 + 2;` in `a.c`, with any iteration order that is a
permutation of the table and whatever declarations the front end puts under the root by
itself, the document has the file table `["a.c"]`; the entries are the variable
declaration (single child the binary operator, `type_id` the `entity_id` of the one `int`
type entry), that type entry, the binary operator (children the two literals in order,
operator text `+`) and the two integer literals with payloads `1` and `2`; and the
top-level list is the addresses of the front end's own declarations followed by the
variable declaration's `entity_id`. -/
theorem end_to_end_sum (iter : IterationOrder) (hperm : ∀ t, (iter t).Perm t)
    (implicitDecls : List Ptr) :
    exportedDocument iter (Example.sumUnitWith implicitDecls) = some
      { entries :=
          [Entry.node 0x2040 .TagVarDecl [some 0x2080] 0 1 1 (some 0x1000) [.text "x"],
           Entry.type 0x1000 .TagInt [],
           Entry.node 0x2080 .TagBinaryOperator [some 0x20c0, some 0x2100] 0 1 9 (some 0x1000)
             [.text "+"],
           Entry.node 0x20c0 .TagIntegerLiteral [] 0 1 9 (some 0x1000) [.uint 1],
           Entry.node 0x2100 .TagIntegerLiteral [] 0 1 13 (some 0x1000) [.uint 2]],
        topLevel := implicitDecls ++ [0x2040],
        fileTable := ["a.c"] } := by
  have hi : TraverseDecl (Example.sumUnitWith implicitDecls)
      (Example.sumUnitWith implicitDecls).fuel
      (Example.sumUnitWith implicitDecls).getTranslationUnitDecl TranslateASTVisitor.init =
      TraverseDecl (Example.sumUnitWith []) (Example.sumUnitWith []).fuel
        (Example.sumUnitWith []).getTranslationUnitDecl TranslateASTVisitor.init := rfl
  have hw : (TraverseDecl (Example.sumUnitWith []) (Example.sumUnitWith []).fuel
      (Example.sumUnitWith []).getTranslationUnitDecl TranslateASTVisitor.init).map
        (fun r => (r.2.encoder, r.2.filenames)) =
      some ([Entry.node 0x2040 .TagVarDecl [some 0x2080] 0 1 1 (some 0x1000) [.text "x"],
           Entry.type 0x1000 .TagInt [],
           Entry.node 0x2080 .TagBinaryOperator [some 0x20c0, some 0x2100] 0 1 9 (some 0x1000)
             [.text "+"],
           Entry.node 0x20c0 .TagIntegerLiteral [] 0 1 9 (some 0x1000) [.uint 1],
           Entry.node 0x2100 .TagIntegerLiteral [] 0 1 13 (some 0x1000) [.uint 2]],
          [("a.c", 0)]) := by decide!
  have hd : (Example.sumUnitWith implicitDecls).getTranslationUnitDecl.decls =
      implicitDecls ++ [0x2040] := rfl
  obtain ⟨v, hv, hdoc⟩ := exportedDocument_returns iter (Example.sumUnitWith implicitDecls)
  rw [← hi, hv] at hw
  simp only [Option.map_some', Option.some.injEq, Prod.mk.injEq] at hw
  rw [hdoc, hw.1, hw.2, hd, List.perm_singleton.1 (hperm [("a.c", 0)])]
  rfl

/-- Witness for `end_to_end_sum`: the iteration order that keeps insertion order, and the
unit with one implicit typedef. -/
theorem end_to_end_sum_witness :
    (exportedDocument id Example.sumUnit).map (fun d => d.fileTable) = some ["a.c"] ∧
    (exportedDocument id Example.sumUnit).map (fun d => d.topLevel) = some [0x2010, 0x2040] ∧
    (exportedDocument id Example.sumUnit).map
        (fun d => (nodeEntriesWith .TagIntegerLiteral d.entries).length) = some 2 ∧
    (exportedDocument id Example.sumUnit).map
        (fun d => (typeEntriesWith .TagInt d.entries).length) = some 1 := by
  have h := end_to_end_sum id (fun t => List.Perm.refl t) [0x2010]
  have hs : Example.sumUnit = Example.sumUnitWith [0x2010] := rfl
  rw [hs, h]
  exact ⟨rfl, rfl, by decide, by decide⟩

/-! ## Locations without a file -/

theorem file_table_indices (locs : List SourceLocation) :
    (encodeSourcePosAll TranslateASTVisitor.init locs).1.map (fun t => t.1) =
      (locs.map SourceLocation.filename).map
        (fun p => (firstReferences [] (locs.map SourceLocation.filename)).indexOf p) :=
  (encodeSourcePosAll_indexedTable [] locs TranslateASTVisitor.init
    (by simp [TranslateASTVisitor.init, indexedTable])).1

theorem encodeSourcePosAll_getElem (locs : List SourceLocation) (i : Nat)
    (l : SourceLocation) (h : locs[i]? = some l) :
    ((encodeSourcePosAll TranslateASTVisitor.init locs).1.map (fun t => t.1))[i]? =
      some ((firstReferences [] (locs.map SourceLocation.filename)).indexOf l.filename) := by
  rw [(file_table_indices locs)]
  simp [List.getElem?_map, h]

/-- Claim C20 as stated fails: when a source file is named `?`, a location without file
entry gets the file index of that real path (here both get `0`). -/
theorem unknown_location_shares_index :
    (encodeSourcePosAll TranslateASTVisitor.init
        [Example.at_question_mark 1 1, Example.nowhere]).1 = [(0, 1, 1), (0, 0, 0)] ∧
    (encodeSourcePosAll TranslateASTVisitor.init
        [Example.at_question_mark 1 1, Example.nowhere]).2.filenames = [("?", 0)] := by
  exact ⟨by decide, by decide⟩

/-- Claim C20, amended: an entry whose location has no file entry is still written, with
the file index of the placeholder path `?`; in every sequence of `encodeSourcePos` calls
from the empty table, a location without file entry gets the position of `?` among the
distinct paths, and that differs from the index of every location whose path is not
spelled `?`. -/
theorem unknown_location_index (v : TranslateASTVisitor) (ast : Ptr) (tag : ASTEntryTag)
    (ty : Ptr) (childIds : List Ptr) (extra : List CborValue)
    (locs : List SourceLocation) (i j : Nat) (li lj : SourceLocation) (p : String)
    (hfresh : (ast, tag) ∉ v.exportedTags)
    (hi : locs[i]? = some li) (hli : li.fileEntry = none)
    (hj : locs[j]? = some lj) (hlj : lj.fileEntry = some p) (hp : p ≠ "?") :
    (encode_entry_raw v ast tag li ty childIds extra).encoder =
        v.encoder ++
          [Entry.node ast tag (childIds.map fun x => if x = 0 then none else some x)
            (filenamesInsert v.filenames "?").1 li.line li.col
            (if ty = 0 then none else some ty) extra] ∧
      ((encodeSourcePosAll TranslateASTVisitor.init locs).1.map (fun t => t.1))[i]? =
        some ((firstReferences [] (locs.map SourceLocation.filename)).indexOf "?") ∧
      ((encodeSourcePosAll TranslateASTVisitor.init locs).1.map (fun t => t.1))[i]? ≠
        ((encodeSourcePosAll TranslateASTVisitor.init locs).1.map (fun t => t.1))[j]? := by
  have hfi : li.filename = "?" := by simp [SourceLocation.filename, hli]
  have hfj : lj.filename = p := by simp [SourceLocation.filename, hlj]
  have hmi : li.filename ∈ firstReferences [] (locs.map SourceLocation.filename) := by
    rw [mem_firstReferences]
    exact Or.inr (List.mem_map.2 ⟨li, List.getElem?_mem hi, rfl⟩)
  have hmj : lj.filename ∈ firstReferences [] (locs.map SourceLocation.filename) := by
    rw [mem_firstReferences]
    exact Or.inr (List.mem_map.2 ⟨lj, List.getElem?_mem hj, rfl⟩)
  refine ⟨?_, ?_, ?_⟩
  · rw [encode_entry_raw_fresh _ _ _ _ _ _ _ hfresh, hfi]
  · rw [encodeSourcePosAll_getElem locs i li hi, hfi]
  · rw [encodeSourcePosAll_getElem locs i li hi, encodeSourcePosAll_getElem locs j lj hj]
    intro he
    have := (List.indexOf_inj hmi hmj).1 (Option.some.inj he)
    rw [hfi, hfj] at this
    exact hp this.symm

/-- Witness for `unknown_location_index`: locations in `a.c`, nowhere, and in `a.h`. -/
theorem unknown_location_index_witness :
    (encodeSourcePosAll TranslateASTVisitor.init
        [Example.at_a_c 1 1, Example.nowhere, Example.at_a_h 2 1]).1.map (fun t => t.1) =
      [0, 1, 2] ∧
    ((encodeSourcePosAll TranslateASTVisitor.init
        [Example.at_a_c 1 1, Example.nowhere, Example.at_a_h 2 1]).1.map (fun t => t.1))[1]? ≠
      ((encodeSourcePosAll TranslateASTVisitor.init
        [Example.at_a_c 1 1, Example.nowhere, Example.at_a_h 2 1]).1.map (fun t => t.1))[0]? :=
  ⟨by decide,
    (unknown_location_index TranslateASTVisitor.init 0x2040 .TagNullStmt 0 [] []
      [Example.at_a_c 1 1, Example.nowhere, Example.at_a_h 2 1] 1 0 Example.nowhere
      (Example.at_a_c 1 1) "a.c" (by simp [TranslateASTVisitor.init]) rfl rfl rfl rfl
      (by decide)).2.2⟩

/-! ## Properties kept along the walk -/

theorem VisitRecordType_keeps (P : TranslateASTVisitor → Prop) (hP : StepInvariant P)
    (td : Ptr → Walk) (htd : ∀ D v v1, P v → td D v = some v1 → P v1)
    (T D : Ptr) (v v1 : TranslateASTVisitor) (hv : P v)
    (h : VisitRecordType td v T D = some v1) : P v1 := by
  unfold VisitRecordType at h
  have he := hP.encodeType v T .TagRecordType [.uint D] hv
  by_cases hD : D ∈ (encodeType v T .TagRecordType [.uint D]).typeEncoder.recordDeclsUnderVisit
  · simp only [hD, if_true, Option.some.injEq] at h
    exact h ▸ he
  · simp only [hD, if_false] at h
    obtain ⟨v3, h3, h4⟩ := Option.bind_eq_some.1 h
    have hv3 := htd D _ v3 (hP.setUnderVisit _ _ he) h3
    simp only [Option.some.injEq] at h4
    exact h4 ▸ hP.setUnderVisit _ _ hv3

mutual
theorem Visit_keeps (P : TranslateASTVisitor → Prop) (hP : StepInvariant P)
    (td : Ptr → Walk) (htd : ∀ D v v1, P v → td D v = some v1 → P v1) :
    ∀ (T : Ty) (v v1 : TranslateASTVisitor), P v → Visit td T v = some v1 → P v1
  | .BuiltinType T kind, v, v1, hv, h => by
      simp only [Visit, VisitBuiltinType, Option.some.injEq] at h
      exact h ▸ hP.encodeType _ _ _ _ hv
  | .EnumType T decl, v, v1, hv, h => by
      simp only [Visit, VisitEnumType, Option.some.injEq] at h
      exact h ▸ hP.encodeType _ _ _ _ hv
  | .ConstantArrayType T t size, v, v1, hv, h =>
      VisitQualType_keeps P hP td htd t _ v1 (hP.encodeType _ _ _ _ hv)
        (by simpa only [Visit, VisitConstantArrayType] using h)
  | .VariableArrayType T t, v, v1, hv, h =>
      VisitQualType_keeps P hP td htd t _ v1 (hP.encodeType _ _ _ _ hv)
        (by simpa only [Visit, VisitVariableArrayType] using h)
  | .IncompleteArrayType T t, v, v1, hv, h =>
      VisitQualType_keeps P hP td htd t _ v1 (hP.encodeType _ _ _ _ hv)
        (by simpa only [Visit, VisitIncompleteArrayType] using h)
  | .RecordType T D, v, v1, hv, h =>
      VisitRecordType_keeps P hP td htd T D v v1 hv (by simpa only [Visit] using h)
  | .FunctionProtoType T ret params, v, v1, hv, h => by
      simp only [Visit, VisitFunctionProtoType] at h
      obtain ⟨v2, h2, h3⟩ := Option.bind_eq_some.1 h
      exact VisitQualTypes_keeps P hP td htd params v2 v1
        (VisitQualType_keeps P hP td htd ret _ v2 (hP.encodeType _ _ _ _ hv) h2) h3
  | .FunctionNoProtoType T ret, v, v1, hv, h =>
      VisitQualType_keeps P hP td htd ret _ v1 (hP.encodeType _ _ _ _ hv)
        (by simpa only [Visit, VisitFunctionNoProtoType] using h)
  | .PointerType T pointee, v, v1, hv, h =>
      VisitQualType_keeps P hP td htd pointee _ v1 (hP.encodeType _ _ _ _ hv)
        (by simpa only [Visit, VisitPointerType] using h)
  | .TypedefType T D, v, v1, hv, h => by
      simp only [Visit, VisitTypedefType, Option.some.injEq] at h
      exact h ▸ hP.encodeType _ _ _ _ hv
  | .TypeOfType T t, v, v1, hv, h =>
      VisitQualType_keeps P hP td htd t _ v1 (hP.encodeType _ _ _ _ hv)
        (by simpa only [Visit, VisitTypeOfType] using h)
  | .ElaboratedType T t, v, v1, hv, h =>
      VisitQualType_keeps P hP td htd t _ v1 (hP.encodeType _ _ _ _ hv)
        (by simpa only [Visit, VisitElaboratedType] using h)
  | .DecayedType T t, v, v1, hv, h =>
      VisitQualType_keeps P hP td htd t _ v1 (hP.encodeType _ _ _ _ hv)
        (by simpa only [Visit, VisitDecayedType] using h)
  | .Unhandled T, v, v1, hv, h => by
      simp only [Visit, Option.some.injEq] at h
      exact h ▸ hv
theorem VisitQualType_keeps (P : TranslateASTVisitor → Prop) (hP : StepInvariant P)
    (td : Ptr → Walk) (htd : ∀ D v v1, P v → td D v = some v1 → P v1) :
    ∀ (QT : QualType) (v v1 : TranslateASTVisitor), P v → VisitQualType td QT v = some v1 → P v1
  | .null, v, v1, hv, h => by
      simp only [VisitQualType, Option.some.injEq] at h
      exact h ▸ hv
  | .mk ty hasConst, v, v1, hv, h =>
      Visit_keeps P hP td htd ty _ v1 (hP.setConst v hasConst hv)
        (by simpa only [VisitQualType] using h)
theorem VisitQualTypes_keeps (P : TranslateASTVisitor → Prop) (hP : StepInvariant P)
    (td : Ptr → Walk) (htd : ∀ D v v1, P v → td D v = some v1 → P v1) :
    ∀ (QTs : List QualType) (v v1 : TranslateASTVisitor),
      P v → VisitQualTypes td QTs v = some v1 → P v1
  | [], v, v1, hv, h => by
      simp only [VisitQualTypes, Option.some.injEq] at h
      exact h ▸ hv
  | x :: xs, v, v1, hv, h => by
      simp only [VisitQualTypes] at h
      obtain ⟨v2, h2, h3⟩ := Option.bind_eq_some.1 h
      exact VisitQualTypes_keeps P hP td htd xs v2 v1
        (VisitQualType_keeps P hP td htd x v v2 hv h2) h3
end

theorem mem_exportedTags_stepInvariant (k : Ptr × ASTEntryTag) :
    StepInvariant (fun v => k ∈ v.exportedTags) where
  encodeType := by
    intro v T tag extra h
    unfold encodeType TypeEncoder.isUnexported
    by_cases hT : T ∈ v.typeEncoder.exports <;> simpa [hT] using h
  encode_entry_raw := by
    intro v ast tag loc ty childIds extra h
    by_cases hm : (ast, tag) ∈ v.exportedTags
    · rw [encode_entry_raw_seen _ _ _ _ _ _ _ hm]; exact h
    · rw [encode_entry_raw_fresh _ _ _ _ _ _ _ hm]; exact List.mem_cons_of_mem _ h
  setConst := fun _ _ h => h
  setUnderVisit := fun _ _ h => h

theorem encode_entry_raw_marks (v : TranslateASTVisitor) (ast : Ptr) (tag : ASTEntryTag)
    (loc : SourceLocation) (ty : Ptr) (childIds : List Ptr) (extra : List CborValue) :
    (ast, tag) ∈ (encode_entry_raw v ast tag loc ty childIds extra).exportedTags := by
  by_cases hm : (ast, tag) ∈ v.exportedTags
  · rw [encode_entry_raw_seen _ _ _ _ _ _ _ hm]; exact hm
  · rw [encode_entry_raw_fresh _ _ _ _ _ _ _ hm]; exact List.mem_cons_self _ _

theorem entry_post (v : TranslateASTVisitor) (p : Ptr) (tag : ASTEntryTag)
    (loc : SourceLocation) (ty : Ptr) (childIds : List Ptr) (extra : List CborValue)
    (r : Visited) (h : some ((true, encode_entry_raw v p tag loc ty childIds extra) : Visited) = some r) :
    r.1 = true ∧ (∀ P, StepInvariant P → P v → P r.2) ∧ (p, tag) ∈ r.2.exportedTags := by
  simp only [Option.some.injEq] at h
  subst h
  exact ⟨rfl, fun P hP hv => hP.encode_entry_raw _ _ _ _ _ _ _ hv, encode_entry_raw_marks ..⟩

theorem afterEntry_post (td : Ptr → Walk) (htd : WalkerKeeps td) (v : TranslateASTVisitor)
    (p : Ptr) (tag : ASTEntryTag) (loc : SourceLocation) (ty : Ptr) (childIds : List Ptr)
    (extra : List CborValue) (QT : QualType) (r : Visited)
    (h : (VisitQualType td QT (encode_entry_raw v p tag loc ty childIds extra)).map
      (fun v1 => ((true, v1) : Visited)) = some r) :
    r.1 = true ∧ (∀ P, StepInvariant P → P v → P r.2) ∧ (p, tag) ∈ r.2.exportedTags := by
  obtain ⟨v1, h1, h2⟩ := Option.map_eq_some'.1 h
  subst h2
  refine ⟨rfl, fun P hP hv => ?_, ?_⟩
  · exact VisitQualType_keeps P hP td (htd P hP) QT _ v1
      (hP.encode_entry_raw _ _ _ _ _ _ _ hv) h1
  · exact VisitQualType_keeps _ (mem_exportedTags_stepInvariant (p, tag)) td
      (htd _ (mem_exportedTags_stepInvariant (p, tag))) QT _ v1 (encode_entry_raw_marks ..) h1

theorem entry_post_tag (v : TranslateASTVisitor) (p : Ptr) (tag : ASTEntryTag)
    (loc : SourceLocation) (ty : Ptr) (childIds : List Ptr) (extra : List CborValue)
    (r : Visited) (h : some ((true, encode_entry_raw v p tag loc ty childIds extra) : Visited) = some r) :
    r.1 = true ∧ (∀ P, StepInvariant P → P v → P r.2) ∧
      (∀ t, some tag = some t → (p, t) ∈ r.2.exportedTags) := by
  obtain ⟨h1, h2, h3⟩ := entry_post v p tag loc ty childIds extra r h
  exact ⟨h1, h2, fun t ht => Option.some.inj ht ▸ h3⟩

theorem afterEntry_post_tag (td : Ptr → Walk) (htd : WalkerKeeps td) (v : TranslateASTVisitor)
    (p : Ptr) (tag : ASTEntryTag) (loc : SourceLocation) (ty : Ptr) (childIds : List Ptr)
    (extra : List CborValue) (QT : QualType) (r : Visited)
    (h : (VisitQualType td QT (encode_entry_raw v p tag loc ty childIds extra)).map
      (fun v1 => ((true, v1) : Visited)) = some r) :
    r.1 = true ∧ (∀ P, StepInvariant P → P v → P r.2) ∧
      (∀ t, some tag = some t → (p, t) ∈ r.2.exportedTags) := by
  obtain ⟨h1, h2, h3⟩ := afterEntry_post td htd v p tag loc ty childIds extra QT r h
  exact ⟨h1, h2, fun t ht => Option.some.inj ht ▸ h3⟩

theorem noEntry_post (v : TranslateASTVisitor) (p : Ptr) (r : Visited)
    (h : some ((true, v) : Visited) = some r) :
    r.1 = true ∧ (∀ P, StepInvariant P → P v → P r.2) ∧
      (∀ t, (none : Option ASTEntryTag) = some t → (p, t) ∈ r.2.exportedTags) := by
  simp only [Option.some.injEq] at h
  subst h
  exact ⟨rfl, fun _ _ hv => hv, fun t ht => by simp at ht⟩

/-- After the `WalkUpFrom…` of an object: the `bool` is `true`, every property the
elementary steps keep still holds, and an object of a class with a `Visit…` method is
registered under its tag. -/
theorem WalkUpFrom_post (td : Ptr → Walk) (htd : WalkerKeeps td) (p : Ptr)
    (loc : SourceLocation) (kind : NodeKind) (v : TranslateASTVisitor) (r : Visited)
    (h : WalkUpFrom td p loc kind v = some r) :
    r.1 = true ∧ (∀ P, StepInvariant P → P v → P r.2) ∧
      (∀ t, kind.entryTag = some t → (p, t) ∈ r.2.exportedTags) := by
  cases kind <;>
  simp only [WalkUpFrom, VisitCompoundStmt, VisitReturnStmt, VisitDoStmt, VisitGotoStmt,
    VisitLabelStmt, VisitNullStmt, VisitIfStmt, VisitForStmt, VisitWhileStmt, VisitDeclStmt,
    VisitBreakStmt, VisitContinueStmt, VisitCaseStmt, VisitSwitchStmt, VisitDefaultStmt,
    VisitParenExpr, VisitMemberExpr, VisitInitListExpr, VisitImplicitValueInitExpr,
    VisitImplicitCastExpr, VisitCStyleCastExpr, VisitUnaryOperator, VisitBinaryOperator,
    VisitConditionalOperator, VisitBinaryConditionalOperator, VisitDeclRefExpr, VisitCallExpr,
    VisitArraySubscriptExpr, VisitFunctionDecl, VisitVarDecl, VisitRecordDecl, VisitEnumDecl,
    VisitEnumConstantDecl, VisitFieldDecl, VisitTypedefDecl, VisitIntegerLiteral,
    VisitCharacterLiteral, VisitStringLiteral, VisitFloatingLiteral, visitExpr,
    encode_entry_Expr, encode_entry_Stmt, encode_entry_Decl] at h <;>
  simp only [NodeKind.entryTag] <;>
  first
  | exact entry_post_tag _ _ _ _ _ _ _ r h
  | exact afterEntry_post_tag td htd _ _ _ _ _ _ _ _ r h
  | exact noEntry_post _ _ r h

mutual
theorem traverse_post (td : Ptr → Walk) (htd : WalkerKeeps td) :
    ∀ (n : Node) (v : TranslateASTVisitor) (r : Visited), traverse td n v = some r →
      r.1 = true ∧ (∀ P, StepInvariant P → P v → P r.2) ∧
        (∀ t, n.kind.entryTag = some t → (n.addr, t) ∈ r.2.exportedTags) ∧
        (∀ m ∈ n.walked, ∀ t, m.kind.entryTag = some t → (m.addr, t) ∈ r.2.exportedTags)
  | .mk p loc kind walked, v, r, h => by
      simp only [traverse] at h
      obtain ⟨r1, h1, h2⟩ := Option.bind_eq_some.1 h
      obtain ⟨ht, hk, hm⟩ := WalkUpFrom_post td htd p loc kind v r1 h1
      simp only [ht, if_true] at h2
      obtain ⟨ht2, hk2, hm2⟩ := traverseAll_post td htd walked r1.2 r h2
      refine ⟨ht2, fun P hP hv => hk2 P hP (hk P hP hv), fun t hkt => ?_, hm2⟩
      exact hk2 _ (mem_exportedTags_stepInvariant (p, t)) (hm t hkt)
theorem traverseAll_post (td : Ptr → Walk) (htd : WalkerKeeps td) :
    ∀ (ns : List Node) (v : TranslateASTVisitor) (r : Visited), traverseAll td ns v = some r →
      r.1 = true ∧ (∀ P, StepInvariant P → P v → P r.2) ∧
        (∀ m ∈ ns, ∀ t, m.kind.entryTag = some t → (m.addr, t) ∈ r.2.exportedTags)
  | [], v, r, h => by
      simp only [traverseAll, Option.some.injEq] at h
      subst h
      exact ⟨rfl, fun _ _ hv => hv, fun m hm => by simp at hm⟩
  | n :: ns, v, r, h => by
      simp only [traverseAll] at h
      obtain ⟨r1, h1, h2⟩ := Option.bind_eq_some.1 h
      obtain ⟨ht, hk, hn, _⟩ := traverse_post td htd n v r1 h1
      simp only [ht, if_true] at h2
      obtain ⟨ht2, hk2, hm2⟩ := traverseAll_post td htd ns r1.2 r h2
      refine ⟨ht2, fun P hP hv => hk2 P hP (hk P hP hv), fun m hm t hkt => ?_⟩
      rcases List.mem_cons.1 hm with hm | hm
      · subst hm
        exact hk2 _ (mem_exportedTags_stepInvariant (m.addr, t)) (hn t hkt)
      · exact hm2 m hm t hkt
end

/-- The walker that `TraverseDecl` hands to `VisitRecordType` keeps every property the
elementary steps keep, and so does `TraverseDecl` itself. -/
theorem TraverseDecl_keeps (Context : ASTContext) :
    ∀ (fuel : Nat) (P : TranslateASTVisitor → Prop), StepInvariant P →
      ∀ (n : Node) (v : TranslateASTVisitor) (r : Visited),
        P v → TraverseDecl Context fuel n v = some r → P r.2
  | 0, _, _, _, _, _, _, h => by simp [TraverseDecl] at h
  | fuel + 1, P, hP, n, v, r, hv, h => by
      have htd : WalkerKeeps (fun D v =>
          match Context.getDecl D with
          | none => some v
          | some n => (TraverseDecl Context fuel n v).map fun r => r.2) := by
        intro Q hQ D w w1 hw hD
        cases hg : Context.getDecl D with
        | none =>
          simp only [hg, Option.some.injEq] at hD
          exact hD ▸ hw
        | some m =>
          simp only [hg] at hD
          obtain ⟨r1, h1, h2⟩ := Option.map_eq_some'.1 hD
          exact h2 ▸ TraverseDecl_keeps Context fuel Q hQ m w r1 hw h1
      exact (traverse_post _ htd n v r h).2.1 P hP hv

theorem TraverseDecl_callback_keeps (Context : ASTContext) (fuel : Nat) :
    WalkerKeeps (fun D v =>
      match Context.getDecl D with
      | none => some v
      | some n => (TraverseDecl Context fuel n v).map fun r => r.2) := by
  intro Q hQ D w w1 hw hD
  cases hg : Context.getDecl D with
  | none =>
    simp only [hg, Option.some.injEq] at hD
    exact hD ▸ hw
  | some m =>
    simp only [hg] at hD
    obtain ⟨r1, h1, h2⟩ := Option.map_eq_some'.1 hD
    exact h2 ▸ TraverseDecl_keeps Context fuel Q hQ m w r1 hw h1

/-! ## Top-level declaration list -/

theorem nodeIds_append_type (entries : List Entry) (id : Nat) (tag : TypeTag)
    (extra : List CborValue) :
    nodeIds (entries ++ [Entry.type id tag extra]) = nodeIds entries := by
  simp [nodeIds, List.filter_append, Entry.isType]

theorem nodeIds_append_node (entries : List Entry) (id : Nat) (tag : ASTEntryTag)
    (children : List (Option Nat)) (f l c : Nat) (ty : Option Nat) (extra : List CborValue) :
    nodeIds (entries ++ [Entry.node id tag children f l c ty extra]) =
      nodeIds entries ++ [id] := by
  simp [nodeIds, List.filter_append, Entry.isType, Entry.entity_id]

theorem registeredAreWritten_stepInvariant : StepInvariant RegisteredAreWritten where
  encodeType := by
    intro v T tag extra h
    by_cases hT : T ∈ v.typeEncoder.exports
    · rw [encodeType_seen _ _ _ _ hT]; exact h
    · rw [encodeType_fresh _ _ _ _ hT]
      intro k hk
      simp only [nodeIds_append_type]
      exact h k hk
  encode_entry_raw := by
    intro v ast tag loc ty childIds extra h
    by_cases hm : (ast, tag) ∈ v.exportedTags
    · rw [encode_entry_raw_seen _ _ _ _ _ _ _ hm]; exact h
    · rw [encode_entry_raw_fresh _ _ _ _ _ _ _ hm]
      intro k hk
      simp only [nodeIds_append_node, List.mem_append, List.mem_singleton]
      rcases List.mem_cons.1 hk with hk | hk
      · exact Or.inr (by rw [hk])
      · exact Or.inl (h k hk)
  setConst := fun _ _ h => h
  setUnderVisit := fun _ _ h => h

/-- Claim C14 as stated fails: for `_Static_assert(1, "ok");` the top-level list holds the
address of the assertion declaration, which has no entry; the node entries are those of
its two operands. -/
theorem top_level_key_without_entry :
    (exportedDocument id Example.staticAssertUnit).map (fun d => d.topLevel) = some [0x2040] ∧
    (exportedDocument id Example.staticAssertUnit).map (fun d => nodeIds d.entries) =
      some [0x2080, 0x20c0] ∧
    ¬ (0x2040 ∈ ([0x2080, 0x20c0] : List Nat)) := by
  exact ⟨by decide!, by decide!, by decide⟩

/-- Claim C14, amended: the second section of the document is the sequence of the
addresses of all declarations directly under the translation-unit root
(`translation_unit->decls()`), in that order; and the address of every declaration that
the walker visits directly under the root and that is of a class with a `Visit…` method
is the `entity_id` of a node entry. -/
theorem top_level_list (iter : IterationOrder) (Context : ASTContext) :
    ∃ doc, exportedDocument iter Context = some doc ∧
      doc.topLevel = Context.getTranslationUnitDecl.decls ∧
      ∀ n ∈ Context.getTranslationUnitDecl.walked, ∀ t, n.kind.entryTag = some t →
        n.addr ∈ nodeIds doc.entries := by
  obtain ⟨v, hv, hdoc⟩ := exportedDocument_returns iter Context
  refine ⟨_, hdoc, rfl, ?_⟩
  have hpost := traverse_post _
    (TraverseDecl_callback_keeps Context Context.recordDecls.length)
    Context.getTranslationUnitDecl TranslateASTVisitor.init (true, v) hv
  have hI : RegisteredAreWritten v :=
    hpost.2.1 _ registeredAreWritten_stepInvariant (by
      intro k hk
      simp [TranslateASTVisitor.init] at hk)
  intro n hn t ht
  exact hI _ (hpost.2.2.2 n hn t ht)

/-- Evaluation for `top_level_list`: for `int x = 1 + 2;` the top-level list is the
address of the implicit typedef, which the walker does not visit, and the address of the
variable declaration, which is the `entity_id` of a node entry. -/
theorem top_level_list_witness :
    (exportedDocument id Example.sumUnit).map (fun d => d.topLevel) =
      some [0x2010, 0x2040] ∧
    (exportedDocument id Example.sumUnit).map (fun d => nodeIds d.entries) =
      some [0x2040, 0x2080, 0x20c0, 0x2100] ∧
    ∃ doc, exportedDocument id Example.sumUnit = some doc ∧
      doc.topLevel = Example.sumUnit.getTranslationUnitDecl.decls ∧
      ∀ n ∈ Example.sumUnit.getTranslationUnitDecl.walked, ∀ t, n.kind.entryTag = some t →
        n.addr ∈ nodeIds doc.entries :=
  ⟨by decide!, by decide!, top_level_list id Example.sumUnit⟩

/-! ## The `Visit…` methods in summary -/

theorem WalkUpFrom_eq (td : Ptr → Walk) (p : Ptr) (loc : SourceLocation) (kind : NodeKind)
    (v : TranslateASTVisitor) :
    WalkUpFrom td p loc kind v =
      match kind.handler with
      | none => some (true, v)
      | some c =>
        (VisitQualType td c.visited
          (encode_entry_raw v p c.tag loc c.ty c.childIds c.extra)).map
            fun v1 => ((true, v1) : Visited) := by
  cases kind <;> rfl

theorem entryTag_eq_handler (kind : NodeKind) :
    kind.entryTag = kind.handler.map fun c => c.tag := by
  cases kind <;> rfl

theorem TraverseDecl_succ (Context : ASTContext) (fuel : Nat) :
    TraverseDecl Context (fuel + 1) = traverse (nestedWalk Context fuel) := rfl

theorem WalkUpFrom_fst (td : Ptr → Walk) (p : Ptr) (loc : SourceLocation) (kind : NodeKind)
    (v : TranslateASTVisitor) (r : Visited) (h : WalkUpFrom td p loc kind v = some r) :
    r.1 = true := by
  rw [WalkUpFrom_eq] at h
  cases hk : kind.handler with
  | none =>
    simp only [hk, Option.some.injEq] at h
    exact h ▸ rfl
  | some c =>
    simp only [hk] at h
    obtain ⟨v1, _, h2⟩ := Option.map_eq_some'.1 h
    exact h2 ▸ rfl

/-! ## Running a step again

The order in which the walk reaches nodes and types depends on the declarations under
visit only, never on the registries; the registries decide what is written.  So a step
that is run again, with at least the same declarations under visit and with everything
registered that its first run registered, writes nothing. -/

theorem SameOutput.rfl (w : TranslateASTVisitor) : SameOutput w w :=
  ⟨Eq.refl _, Eq.refl _, Eq.refl _, Eq.refl _, Eq.refl _⟩

theorem SameOutput.trans {a b c : TranslateASTVisitor} (h1 : SameOutput a b)
    (h2 : SameOutput b c) : SameOutput a c :=
  ⟨h2.1.trans h1.1, h2.2.1.trans h1.2.1, h2.2.2.1.trans h1.2.2.1,
    h2.2.2.2.1.trans h1.2.2.2.1, h2.2.2.2.2.trans h1.2.2.2.2⟩

theorem encodeType_marks (v : TranslateASTVisitor) (T : Ptr) (tag : TypeTag)
    (extra : List CborValue) : T ∈ (encodeType v T tag extra).typeEncoder.exports := by
  by_cases hT : T ∈ v.typeEncoder.exports
  · rw [encodeType_seen _ _ _ _ hT]; exact hT
  · rw [encodeType_fresh _ _ _ _ hT]; exact List.mem_cons_self _ _

theorem encodeType_exports_mono (v : TranslateASTVisitor) (T : Ptr) (tag : TypeTag)
    (extra : List CborValue) (k : Ptr) (h : k ∈ v.typeEncoder.exports) :
    k ∈ (encodeType v T tag extra).typeEncoder.exports := by
  by_cases hT : T ∈ v.typeEncoder.exports
  · rw [encodeType_seen _ _ _ _ hT]; exact h
  · rw [encodeType_fresh _ _ _ _ hT]; exact List.mem_cons_of_mem _ h

theorem encodeType_exportedTags (v : TranslateASTVisitor) (T : Ptr) (tag : TypeTag)
    (extra : List CborValue) : (encodeType v T tag extra).exportedTags = v.exportedTags := by
  by_cases hT : T ∈ v.typeEncoder.exports
  · rw [encodeType_seen _ _ _ _ hT]
  · rw [encodeType_fresh _ _ _ _ hT]

theorem encode_entry_raw_exportedTags_mono (v : TranslateASTVisitor) (ast : Ptr)
    (tag : ASTEntryTag) (loc : SourceLocation) (ty : Ptr) (childIds : List Ptr)
    (extra : List CborValue) (k : Ptr × ASTEntryTag) (h : k ∈ v.exportedTags) :
    k ∈ (encode_entry_raw v ast tag loc ty childIds extra).exportedTags :=
  (mem_exportedTags_stepInvariant k).encode_entry_raw v ast tag loc ty childIds extra h

theorem Replays_some : Replays some := by
  intro v v1 h
  simp only [Option.some.injEq] at h
  subst h
  exact ⟨rfl, fun _ hk => hk, fun _ hk => hk, fun w _ _ _ => ⟨w, rfl, SameOutput.rfl w⟩⟩

theorem Replays_encodeType (T : Ptr) (tag : TypeTag) (extra : List CborValue) :
    Replays fun v => some (encodeType v T tag extra) := by
  intro v v1 h
  simp only [Option.some.injEq] at h
  subst h
  refine ⟨encodeType_recordDeclsUnderVisit .., fun k hk => encodeType_exports_mono _ _ _ _ k hk,
    fun k hk => by rw [encodeType_exportedTags]; exact hk, fun w _ he _ => ?_⟩
  exact ⟨w, congrArg some (encodeType_seen _ _ _ _ (he T (encodeType_marks ..))), SameOutput.rfl w⟩

theorem Replays_encode_entry_raw (ast : Ptr) (tag : ASTEntryTag) (loc : SourceLocation)
    (ty : Ptr) (childIds : List Ptr) (extra : List CborValue) :
    Replays fun v => some (encode_entry_raw v ast tag loc ty childIds extra) := by
  intro v v1 h
  simp only [Option.some.injEq] at h
  subst h
  refine ⟨by rw [encode_entry_raw_typeEncoder], fun k hk => by
      rw [encode_entry_raw_typeEncoder]; exact hk,
    fun k hk => encode_entry_raw_exportedTags_mono _ _ _ _ _ _ _ k hk, fun w _ _ ht => ?_⟩
  exact ⟨w, congrArg some (encode_entry_raw_seen _ _ _ _ _ _ _ (ht _ (encode_entry_raw_marks ..))),
    SameOutput.rfl w⟩

theorem Replays_setConst (c : Bool) :
    Replays fun v => some { v with typeEncoder := { v.typeEncoder with isConst := c } } := by
  intro v v1 h
  simp only [Option.some.injEq] at h
  subst h
  exact ⟨rfl, fun _ hk => hk, fun _ hk => hk,
    fun w _ _ _ => ⟨_, rfl, Eq.refl _, Eq.refl _, Eq.refl _, Eq.refl _, Eq.refl _⟩⟩

theorem Replays_bind (f g : Walk) (hf : Replays f) (hg : Replays g) :
    Replays fun v => (f v).bind g := by
  intro v v1 h
  obtain ⟨v2, h2, h3⟩ := Option.bind_eq_some.1 h
  obtain ⟨fu, fe, ft, fr⟩ := hf v v2 h2
  obtain ⟨gu, ge, gt, gr⟩ := hg v2 v1 h3
  refine ⟨gu.trans fu, fun k hk => ge k (fe k hk), fun k hk => gt k (ft k hk),
    fun w hu he ht => ?_⟩
  obtain ⟨w2, hw2, s2⟩ := fr w hu (fun k hk => he k (ge k hk)) (fun k hk => ht k (gt k hk))
  obtain ⟨w1, hw1, s1⟩ := gr w2 (fun x hx => by rw [s2.2.2.2.2]; exact hu x (fu ▸ hx))
    (fun k hk => by rw [s2.2.2.2.1]; exact he k hk)
    (fun k hk => by rw [s2.2.2.1]; exact ht k hk)
  exact ⟨w1, by simp only [hw2, Option.some_bind, hw1], s2.trans s1⟩

theorem Replays_after (s : TranslateASTVisitor → TranslateASTVisitor) (g : Walk)
    (hs : Replays fun v => some (s v)) (hg : Replays g) : Replays fun v => g (s v) :=
  Replays_bind (fun v => some (s v)) g hs hg

theorem VisitRecordType_replays (td : Ptr → Walk) (htd : ∀ D, Replays (td D)) (T D : Ptr) :
    Replays fun v => VisitRecordType td v T D := by
  intro v v1 h
  have hT : ∀ w : TranslateASTVisitor, T ∈ w.typeEncoder.exports →
      encodeType w T .TagRecordType [.uint D] = w := fun w hw => encodeType_seen _ _ _ _ hw
  by_cases hD : D ∈ v.typeEncoder.recordDeclsUnderVisit
  · have h1 : v1 = encodeType v T .TagRecordType [.uint D] := by
      simp only [VisitRecordType, encodeType_recordDeclsUnderVisit, hD, if_true,
        Option.some.injEq] at h
      exact h.symm
    subst h1
    refine ⟨encodeType_recordDeclsUnderVisit .., fun k hk => encodeType_exports_mono _ _ _ _ k hk,
      fun k hk => by rw [encodeType_exportedTags]; exact hk, fun w hu he _ => ?_⟩
    refine ⟨w, ?_, SameOutput.rfl w⟩
    simp only [VisitRecordType, hT w (he T (encodeType_marks ..)), hu D hD, if_true]
  · simp only [VisitRecordType, encodeType_recordDeclsUnderVisit, hD, if_false] at h
    obtain ⟨v3, h3, h4⟩ := Option.bind_eq_some.1 h
    simp only [Option.some.injEq] at h4
    obtain ⟨cu, ce, ct, cr⟩ := htd D _ v3 h3
    simp only [encodeType_recordDeclsUnderVisit] at cu
    have hu1 : v1.typeEncoder.recordDeclsUnderVisit = v.typeEncoder.recordDeclsUnderVisit := by
      rw [← h4]
      simp only [cu, List.erase_cons_head]
    have he1 : v1.typeEncoder.exports = v3.typeEncoder.exports := by rw [← h4]
    have ht1 : v1.exportedTags = v3.exportedTags := by rw [← h4]
    refine ⟨hu1, fun k hk => ?_, fun k hk => ?_, fun w hu he ht => ?_⟩
    · rw [he1]
      exact ce k (encodeType_exports_mono _ _ _ _ k hk)
    · rw [ht1]
      exact ct k (by simpa only [encodeType_exportedTags] using hk)
    · have hTw : T ∈ w.typeEncoder.exports :=
        he T (by rw [he1]; exact ce T (encodeType_marks ..))
      by_cases hDw : D ∈ w.typeEncoder.recordDeclsUnderVisit
      · refine ⟨w, ?_, SameOutput.rfl w⟩
        simp only [VisitRecordType, hT w hTw, hDw, if_true]
      · obtain ⟨w3, hw3, s3⟩ := cr
          { w with typeEncoder := { w.typeEncoder with
              recordDeclsUnderVisit := D :: w.typeEncoder.recordDeclsUnderVisit } }
          (fun x hx => by
            simp only [encodeType_recordDeclsUnderVisit, List.mem_cons] at hx ⊢
            exact hx.imp id (hu x))
          (fun k hk => he k (by rw [he1]; exact hk))
          (fun k hk => ht k (by rw [ht1]; exact hk))
        refine ⟨{ w3 with typeEncoder := { w3.typeEncoder with
          recordDeclsUnderVisit := w3.typeEncoder.recordDeclsUnderVisit.erase D } }, ?_, ?_⟩
        · simp only [VisitRecordType, hT w hTw, hDw, if_false, hw3, Option.some_bind]
        · exact ⟨s3.1, s3.2.1, s3.2.2.1, s3.2.2.2.1, by
            simp only [s3.2.2.2.2, List.erase_cons_head]⟩

mutual
theorem Visit_replays (td : Ptr → Walk) (htd : ∀ D, Replays (td D)) :
    ∀ T : Ty, Replays (Visit td T)
  | .BuiltinType T kind => Replays_encodeType T (builtinTag kind) []
  | .EnumType T decl => Replays_encodeType T .TagEnumType [.uint decl]
  | .ConstantArrayType T t size =>
      Replays_after (fun v => encodeType v T .TagConstantArrayType
        [.uint t.getTypePtrOrNull, .uint (getLimitedValue size)]) _
        (Replays_encodeType _ _ _) (VisitQualType_replays td htd t)
  | .VariableArrayType T t =>
      Replays_after (fun v => encodeType v T .TagVariableArrayType
        [.uint t.getTypePtrOrNull, .undefined]) _
        (Replays_encodeType _ _ _) (VisitQualType_replays td htd t)
  | .IncompleteArrayType T t =>
      Replays_after (fun v => encodeType v T .TagIncompleteArrayType
        [.uint t.getTypePtrOrNull]) _
        (Replays_encodeType _ _ _) (VisitQualType_replays td htd t)
  | .RecordType T D => VisitRecordType_replays td htd T D
  | .FunctionProtoType T ret params =>
      Replays_bind _ _
        (Replays_after (fun v => encodeType v T .TagFunctionType
          [.array (ret.getTypePtrOrNull :: params.map QualType.getTypePtrOrNull)]) _
          (Replays_encodeType _ _ _) (VisitQualType_replays td htd ret))
        (VisitQualTypes_replays td htd params)
  | .FunctionNoProtoType T ret =>
      Replays_after (fun v => encodeType v T .TagFunctionType
        [.array [ret.getTypePtrOrNull]]) _
        (Replays_encodeType _ _ _) (VisitQualType_replays td htd ret)
  | .PointerType T pointee =>
      Replays_after (fun v => encodeType v T .TagPointer [.uint pointee.getTypePtrOrNull]) _
        (Replays_encodeType _ _ _) (VisitQualType_replays td htd pointee)
  | .TypedefType T D => Replays_encodeType T .TagTypedefType [.uint D]
  | .TypeOfType T t =>
      Replays_after (fun v => encodeType v T .TagTypeOfType [.uint t.getTypePtrOrNull]) _
        (Replays_encodeType _ _ _) (VisitQualType_replays td htd t)
  | .ElaboratedType T t =>
      Replays_after (fun v => encodeType v T .TagElaboratedType [.uint t.getTypePtrOrNull]) _
        (Replays_encodeType _ _ _) (VisitQualType_replays td htd t)
  | .DecayedType T t =>
      Replays_after (fun v => encodeType v T .TagDecayedType [.uint t.getTypePtrOrNull]) _
        (Replays_encodeType _ _ _) (VisitQualType_replays td htd t)
  | .Unhandled _ => Replays_some
theorem VisitQualType_replays (td : Ptr → Walk) (htd : ∀ D, Replays (td D)) :
    ∀ QT : QualType, Replays (VisitQualType td QT)
  | .null => Replays_some
  | .mk ty hasConst =>
      Replays_after
        (fun v => { v with typeEncoder := { v.typeEncoder with isConst := hasConst } }) _
        (Replays_setConst hasConst) (Visit_replays td htd ty)
theorem VisitQualTypes_replays (td : Ptr → Walk) (htd : ∀ D, Replays (td D)) :
    ∀ QTs : List QualType, Replays (VisitQualTypes td QTs)
  | [] => Replays_some
  | x :: xs =>
      Replays_bind _ _ (VisitQualType_replays td htd x) (VisitQualTypes_replays td htd xs)
end

theorem WalkUpFrom_snd (td : Ptr → Walk) (p : Ptr) (loc : SourceLocation) (kind : NodeKind)
    (v : TranslateASTVisitor) :
    (WalkUpFrom td p loc kind v).map Prod.snd =
      match kind.handler with
      | none => some v
      | some c =>
        VisitQualType td c.visited (encode_entry_raw v p c.tag loc c.ty c.childIds c.extra) := by
  rw [WalkUpFrom_eq]
  cases kind.handler with
  | none => rfl
  | some c =>
    show Option.map Prod.snd (Option.map (fun v1 => ((true, v1) : Visited))
      (VisitQualType td c.visited (encode_entry_raw v p c.tag loc c.ty c.childIds c.extra))) =
        VisitQualType td c.visited (encode_entry_raw v p c.tag loc c.ty c.childIds c.extra)
    generalize VisitQualType td c.visited
      (encode_entry_raw v p c.tag loc c.ty c.childIds c.extra) = o
    cases o <;> rfl

theorem WalkUpFrom_replays (td : Ptr → Walk) (htd : ∀ D, Replays (td D)) (p : Ptr)
    (loc : SourceLocation) (kind : NodeKind) :
    Replays fun v => (WalkUpFrom td p loc kind v).map Prod.snd := by
  have h : (fun v => (WalkUpFrom td p loc kind v).map Prod.snd) =
      match kind.handler with
      | none => some
      | some c => fun v =>
        VisitQualType td c.visited (encode_entry_raw v p c.tag loc c.ty c.childIds c.extra) := by
    funext v
    rw [WalkUpFrom_snd]
    cases kind.handler <;> rfl
  rw [h]
  cases kind.handler with
  | none => exact Replays_some
  | some c =>
    exact Replays_after (fun v => encode_entry_raw v p c.tag loc c.ty c.childIds c.extra) _
      (Replays_encode_entry_raw _ _ _ _ _ _) (VisitQualType_replays td htd c.visited)

theorem traverse_snd (td : Ptr → Walk) (p : Ptr) (loc : SourceLocation) (kind : NodeKind)
    (walked : List Node) (v : TranslateASTVisitor) :
    (traverse td (.mk p loc kind walked) v).map Prod.snd =
      ((WalkUpFrom td p loc kind v).map Prod.snd).bind fun v1 =>
        (traverseAll td walked v1).map Prod.snd := by
  simp only [traverse]
  cases hw : WalkUpFrom td p loc kind v with
  | none => rfl
  | some r =>
    have h1 := WalkUpFrom_fst td p loc kind v r hw
    simp only [Option.some_bind, h1, if_true, Option.map_some']

mutual
theorem traverse_fst (td : Ptr → Walk) :
    ∀ (n : Node) (v : TranslateASTVisitor) (r : Visited), traverse td n v = some r → r.1 = true
  | .mk p loc kind walked, v, r, h => by
      simp only [traverse] at h
      obtain ⟨r1, h1, h2⟩ := Option.bind_eq_some.1 h
      simp only [WalkUpFrom_fst td p loc kind v r1 h1, if_true] at h2
      exact traverseAll_fst td walked r1.2 r h2
theorem traverseAll_fst (td : Ptr → Walk) :
    ∀ (ns : List Node) (v : TranslateASTVisitor) (r : Visited),
      traverseAll td ns v = some r → r.1 = true
  | [], v, r, h => by
      simp only [traverseAll, Option.some.injEq] at h
      exact h ▸ rfl
  | n :: ns, v, r, h => by
      simp only [traverseAll] at h
      obtain ⟨r1, h1, h2⟩ := Option.bind_eq_some.1 h
      simp only [traverse_fst td n v r1 h1, if_true] at h2
      exact traverseAll_fst td ns r1.2 r h2
end

theorem traverseAll_snd (td : Ptr → Walk) (n : Node) (ns : List Node)
    (v : TranslateASTVisitor) :
    (traverseAll td (n :: ns) v).map Prod.snd =
      ((traverse td n v).map Prod.snd).bind fun v1 => (traverseAll td ns v1).map Prod.snd := by
  simp only [traverseAll]
  cases hw : traverse td n v with
  | none => rfl
  | some r =>
    have h1 := traverse_fst td n v r hw
    simp only [Option.some_bind, h1, if_true, Option.map_some']

mutual
theorem traverse_replays (td : Ptr → Walk) (htd : ∀ D, Replays (td D)) :
    ∀ n : Node, Replays fun v => (traverse td n v).map Prod.snd
  | .mk p loc kind walked => by
      have h : (fun v => (traverse td (.mk p loc kind walked) v).map Prod.snd) =
          fun v => ((WalkUpFrom td p loc kind v).map Prod.snd).bind fun v1 =>
            (traverseAll td walked v1).map Prod.snd := funext fun v => traverse_snd ..
      rw [h]
      exact Replays_bind _ _ (WalkUpFrom_replays td htd p loc kind)
        (traverseAll_replays td htd walked)
theorem traverseAll_replays (td : Ptr → Walk) (htd : ∀ D, Replays (td D)) :
    ∀ ns : List Node, Replays fun v => (traverseAll td ns v).map Prod.snd
  | [] => Replays_some
  | n :: ns => by
      have h : (fun v => (traverseAll td (n :: ns) v).map Prod.snd) =
          fun v => ((traverse td n v).map Prod.snd).bind fun v1 =>
            (traverseAll td ns v1).map Prod.snd := funext fun v => traverseAll_snd ..
      rw [h]
      exact Replays_bind _ _ (traverse_replays td htd n) (traverseAll_replays td htd ns)
end

theorem TraverseDecl_replays (Context : ASTContext) :
    ∀ (fuel : Nat) (n : Node), Replays fun v => (TraverseDecl Context fuel n v).map Prod.snd
  | 0, n => by
      intro v v1 h
      simp [TraverseDecl] at h
  | fuel + 1, n => by
      rw [TraverseDecl_succ]
      refine traverse_replays _ (fun D => ?_) n
      unfold nestedWalk
      cases Context.getDecl D with
      | none => exact Replays_some
      | some m => exact TraverseDecl_replays Context fuel m

theorem nestedWalk_replays (Context : ASTContext) (fuel : Nat) (D : Ptr) :
    Replays (nestedWalk Context fuel D) := by
  unfold nestedWalk
  cases Context.getDecl D with
  | none => exact Replays_some
  | some m => exact TraverseDecl_replays Context fuel m

/-! ## String literals -/

/-- Claim C21: the extra fields of the entry of a string literal are, in this order, the
tag of its kind (narrow, wide, UTF-8, UTF-16, UTF-32 each has its own tag), the byte width
of one unit, and the literal's bytes as one byte string, unchanged; on the wire they are
an unsigned integer, an unsigned integer and one byte string of these bytes. -/
theorem string_literal_payload (td : Ptr → Walk) (v : TranslateASTVisitor) (SL : Ptr)
    (loc : SourceLocation) (type : QualType) (kind : StringKind) (charByteWidth : Nat)
    (bytes : List Nat) (w : TinyCbor)
    (h : (SL, ASTEntryTag.TagStringLiteral) ∉ v.exportedTags) :
    VisitStringLiteral td v SL loc type kind charByteWidth bytes =
        (VisitQualType td type
          (encode_entry_raw v SL .TagStringLiteral loc type.getTypePtrOrNull []
            [.stringTag (stringTypeTag kind), .uint charByteWidth, .bytes bytes])).map
          (fun v2 => (true, v2)) ∧
      (encode_entry_raw v SL .TagStringLiteral loc type.getTypePtrOrNull []
          [.stringTag (stringTypeTag kind), .uint charByteWidth, .bytes bytes]).encoder =
        v.encoder ++
          [Entry.node SL .TagStringLiteral []
            (filenamesInsert v.filenames loc.filename).1 loc.line loc.col
            (if type.getTypePtrOrNull = 0 then none else some type.getTypePtrOrNull)
            [.stringTag (stringTypeTag kind), .uint charByteWidth, .bytes bytes]] ∧
      (([.stringTag (stringTypeTag kind), .uint charByteWidth, .bytes bytes] :
          List CborValue).map w.value).flatten =
        [w.encode_uint (w.stringTag (stringTypeTag kind)), w.encode_uint charByteWidth,
          w.encode_byte_string bytes] ∧
      stringTypeTag .Ascii = .TagAscii ∧ stringTypeTag .Wide = .TagWide ∧
      stringTypeTag .UTF8 = .TagUTF8 ∧ stringTypeTag .UTF16 = .TagUTF16 ∧
      stringTypeTag .UTF32 = .TagUTF32 := by
  refine ⟨rfl, ?_, rfl, rfl, rfl, rfl, rfl, rfl⟩
  rw [encode_entry_raw_fresh _ _ _ _ _ _ _ h]
  simp

/-- Witness for `string_literal_payload`: the wide literal `L"hi"` with four bytes per
unit; its entry carries the eight bytes of the two units. -/
theorem string_literal_payload_witness :
    (VisitStringLiteral Example.noDecl TranslateASTVisitor.init 0x2100 (Example.at_a_c 1 13)
        (.mk (.ConstantArrayType 0x1090 (.mk Example.tyInt false) 3) false) .Wide 4
        [0x68, 0, 0, 0, 0x69, 0, 0, 0]).map (fun r => r.2.encoder) =
      some [Entry.node 0x2100 .TagStringLiteral [] 0 1 13 (some 0x1090)
              [.stringTag .TagWide, .uint 4, .bytes [0x68, 0, 0, 0, 0x69, 0, 0, 0]],
            Entry.type 0x1090 .TagConstantArrayType [.uint 0x1000, .uint 3],
            Entry.type 0x1000 .TagInt []] := by
  rw [(string_literal_payload Example.noDecl TranslateASTVisitor.init 0x2100
    (Example.at_a_c 1 13) (.mk (.ConstantArrayType 0x1090 (.mk Example.tyInt false) 3) false)
    .Wide 4 [0x68, 0, 0, 0, 0x69, 0, 0, 0] Example.oneByte
    (by simp [TranslateASTVisitor.init])).1]
  decide!

/-! ## Type entries -/

theorem encoder_prefix_stepInvariant (l : List Entry) :
    StepInvariant (fun s => ∃ rest, s.encoder = l ++ rest) where
  encodeType := by
    rintro v T tag extra ⟨rest, h⟩
    by_cases hT : T ∈ v.typeEncoder.exports
    · rw [encodeType_seen _ _ _ _ hT]; exact ⟨rest, h⟩
    · rw [encodeType_fresh _ _ _ _ hT]
      exact ⟨rest ++ [_], by simp only [h, List.append_assoc]; rfl⟩
  encode_entry_raw := by
    rintro v ast tag loc ty childIds extra ⟨rest, h⟩
    by_cases hm : (ast, tag) ∈ v.exportedTags
    · rw [encode_entry_raw_seen _ _ _ _ _ _ _ hm]; exact ⟨rest, h⟩
    · rw [encode_entry_raw_fresh _ _ _ _ _ _ _ hm]
      exact ⟨rest ++ [_], by simp only [h, List.append_assoc]; rfl⟩
  setConst := fun _ _ h => h
  setUnderVisit := fun _ _ h => h

theorem after_encodeType_first (k : Walk)
    (hk : ∀ P, StepInvariant P → ∀ s s1, P s → k s = some s1 → P s1)
    (v v1 : TranslateASTVisitor) (T : Ptr) (tag : TypeTag) (extra : List CborValue)
    (hf : T ∉ v.typeEncoder.exports) (h : k (encodeType v T tag extra) = some v1) :
    ∃ rest, v1.encoder =
      v.encoder ++ Entry.type (T + if v.typeEncoder.isConst then 1 else 0) tag extra :: rest := by
  obtain ⟨rest, hr⟩ := hk _ (encoder_prefix_stepInvariant
    (v.encoder ++ [Entry.type (T + if v.typeEncoder.isConst then 1 else 0) tag extra]))
    _ v1 ⟨[], by rw [encodeType_fresh _ _ _ _ hf]; simp⟩ h
  exact ⟨rest, by simpa only [List.append_assoc, List.singleton_append] using hr⟩

theorem Visit_after_encodeType (td : Ptr → Walk) (htd : WalkerKeeps td) (ty : Ty)
    (hh : ty.handled = true) :
    ∃ (tag : TypeTag) (extra : List CborValue) (k : Walk),
      (∀ P, StepInvariant P → ∀ s s1, P s → k s = some s1 → P s1) ∧
      ∀ v, Visit td ty v = k (encodeType v ty.addr tag extra) := by
  have hq : ∀ t : QualType, ∀ P, StepInvariant P → ∀ s s1, P s →
      VisitQualType td t s = some s1 → P s1 :=
    fun t P hP s s1 hs h1 => VisitQualType_keeps P hP td (htd P hP) t s s1 hs h1
  have hs : ∀ P, StepInvariant P → ∀ s s1 : TranslateASTVisitor, P s → some s = some s1 → P s1 :=
    fun P _ s s1 hs h1 => Option.some.inj h1 ▸ hs
  cases ty with
  | BuiltinType T kind => exact ⟨_, _, some, hs, fun _ => rfl⟩
  | EnumType T decl => exact ⟨_, _, some, hs, fun _ => rfl⟩
  | ConstantArrayType T t size => exact ⟨_, _, _, hq t, fun _ => rfl⟩
  | VariableArrayType T t => exact ⟨_, _, _, hq t, fun _ => rfl⟩
  | IncompleteArrayType T t => exact ⟨_, _, _, hq t, fun _ => rfl⟩
  | RecordType T D =>
    refine ⟨.TagRecordType, [.uint D],
      (fun s => if D ∈ s.typeEncoder.recordDeclsUnderVisit then some s
        else (td D { s with typeEncoder := { s.typeEncoder with
            recordDeclsUnderVisit := D :: s.typeEncoder.recordDeclsUnderVisit } }).bind fun v3 =>
          some { v3 with typeEncoder := { v3.typeEncoder with
            recordDeclsUnderVisit := v3.typeEncoder.recordDeclsUnderVisit.erase D } }),
      ?_, fun _ => rfl⟩
    intro P hP s s1 hs1 h1
    by_cases hD : D ∈ s.typeEncoder.recordDeclsUnderVisit
    · simp only [hD, if_true, Option.some.injEq] at h1
      exact h1 ▸ hs1
    · simp only [hD, if_false] at h1
      obtain ⟨v3, h3, h4⟩ := Option.bind_eq_some.1 h1
      simp only [Option.some.injEq] at h4
      exact h4 ▸ hP.setUnderVisit _ _ (htd P hP D _ v3 (hP.setUnderVisit _ _ hs1) h3)
  | FunctionProtoType T ret params =>
    refine ⟨_, _, (fun s => (VisitQualType td ret s).bind (VisitQualTypes td params)), ?_,
      fun _ => rfl⟩
    intro P hP s s1 hs1 h1
    obtain ⟨v2, h2, h3⟩ := Option.bind_eq_some.1 h1
    exact VisitQualTypes_keeps P hP td (htd P hP) params v2 s1 (hq ret P hP s v2 hs1 h2) h3
  | FunctionNoProtoType T ret => exact ⟨_, _, _, hq ret, fun _ => rfl⟩
  | PointerType T pointee => exact ⟨_, _, _, hq pointee, fun _ => rfl⟩
  | TypedefType T D => exact ⟨_, _, some, hs, fun _ => rfl⟩
  | TypeOfType T t => exact ⟨_, _, _, hq t, fun _ => rfl⟩
  | ElaboratedType T t => exact ⟨_, _, _, hq t, fun _ => rfl⟩
  | DecayedType T t => exact ⟨_, _, _, hq t, fun _ => rfl⟩
  | Unhandled T => simp [Ty.handled] at hh

theorem Visit_first_entry (td : Ptr → Walk) (htd : WalkerKeeps td) (ty : Ty)
    (v v1 : TranslateASTVisitor) (hh : ty.handled = true)
    (hf : ty.addr ∉ v.typeEncoder.exports) (h : Visit td ty v = some v1) :
    ∃ tag extra rest, v1.encoder =
      v.encoder ++
        Entry.type (ty.addr + if v.typeEncoder.isConst then 1 else 0) tag extra :: rest := by
  obtain ⟨tag, extra, k, hk, he⟩ := Visit_after_encodeType td htd ty hh
  rw [he] at h
  exact ⟨tag, extra, after_encodeType_first k hk v v1 ty.addr tag extra hf h⟩

theorem mem_exports_stepInvariant (k : Ptr) :
    StepInvariant (fun v => k ∈ v.typeEncoder.exports) where
  encodeType := fun v T tag extra h => encodeType_exports_mono v T tag extra k h
  encode_entry_raw := by
    intro v ast tag loc ty childIds extra h
    rw [encode_entry_raw_typeEncoder]
    exact h
  setConst := fun _ _ h => h
  setUnderVisit := fun _ _ h => h

theorem Visit_marks (td : Ptr → Walk) (htd : WalkerKeeps td) (ty : Ty)
    (v v1 : TranslateASTVisitor) (hh : ty.handled = true) (h : Visit td ty v = some v1) :
    ty.addr ∈ v1.typeEncoder.exports := by
  obtain ⟨tag, extra, k, hk, he⟩ := Visit_after_encodeType td htd ty hh
  rw [he] at h
  exact hk _ (mem_exports_stepInvariant ty.addr) _ v1 (encodeType_marks ..) h

theorem noDecl_keeps : WalkerKeeps Example.noDecl := by
  intro P _ D v v1 hv h
  simp only [Example.noDecl, Option.some.injEq] at h
  exact h ▸ hv

/-- Claim C26: a type entry consists of its `entity_id`, its tag and its extra fields,
with no child, position or type fields.  The entry that a visit through a `QualType`
writes for a type not exported before has as `entity_id` the address of the type object
plus one when the `QualType` is `const`-qualified, and the address itself otherwise.  For
even addresses, two different pairs of address and `const` flag give different ids. -/
theorem type_entry_id_and_shape (td : Ptr → Walk) (htd : WalkerKeeps td) (ty : Ty) (c : Bool)
    (v v1 : TranslateASTVisitor) (w : TinyCbor) (hh : ty.handled = true)
    (hf : ty.addr ∉ v.typeEncoder.exports)
    (h : VisitQualType td (.mk ty c) v = some v1) :
    (∃ tag extra rest, v1.encoder =
        v.encoder ++ Entry.type (ty.addr + if c then 1 else 0) tag extra :: rest) ∧
      (∀ (s : TranslateASTVisitor) (T : Ptr) (tag : TypeTag) (extra : List CborValue),
        T ∉ s.typeEncoder.exports →
        (encodeType s T tag extra).encoder =
          s.encoder ++ [Entry.type (T + if s.typeEncoder.isConst then 1 else 0) tag extra]) ∧
      (∀ (id : Nat) (tag : TypeTag) (extra : List CborValue),
        w.entry (Entry.type id tag extra) =
          [w.create_array none, w.encode_uint id, w.encode_uint (w.typeTag tag)] ++
            (extra.map w.value).flatten ++ [w.close_container none]) ∧
      (∀ (T1 T2 : Ptr) (c1 c2 : Bool), T1 % 2 = 0 → T2 % 2 = 0 → (T1, c1) ≠ (T2, c2) →
        T1 + (if c1 then 1 else 0) ≠ T2 + (if c2 then 1 else 0)) := by
  refine ⟨?_, fun s T tag extra hT => by rw [encodeType_fresh _ _ _ _ hT], fun _ _ _ => rfl, ?_⟩
  · exact Visit_first_entry td htd ty
      { v with typeEncoder := { v.typeEncoder with isConst := c } } v1 hh hf h
  · intro T1 T2 c1 c2 h1 h2 hne heq
    simp only [Ptr] at *
    apply hne
    cases c1 <;> cases c2 <;> simp at heq ⊢ <;> omega

/-- Witness for `type_entry_id_and_shape`: `const int` reached first; its entry has the
id `0x1001`. -/
theorem type_entry_id_and_shape_witness :
    ∃ v1, VisitQualType Example.noDecl (.mk Example.tyInt true) TranslateASTVisitor.init =
        some v1 ∧
      v1.encoder = [Entry.type 0x1001 .TagInt []] ∧
      ∃ tag extra rest, v1.encoder =
        TranslateASTVisitor.init.encoder ++
          Entry.type (Example.tyInt.addr + if true then 1 else 0) tag extra :: rest := by
  refine ⟨_, rfl, by decide!, ?_⟩
  exact (type_entry_id_and_shape Example.noDecl noDecl_keeps Example.tyInt true
    TranslateASTVisitor.init _ Example.oneByte rfl (by simp [TranslateASTVisitor.init]) rfl).1

/-! ## Type references of node entries -/

/-- Claim C24, evaluated: the entry of a field declaration has a null `type_id`, whatever
the type of the field; for `struct P { int x; };` the field's entry has none and `int`
gets no entry, whereas the entry of a variable `int x;` refers to `int`.  Statement
entries have a null `type_id` and expression entries the type pointer of the
expression. -/
theorem field_entry_has_null_type_id :
    (∀ (td : Ptr → Walk) (v : TranslateASTVisitor) (D : Ptr) (loc : SourceLocation)
        (type : QualType) (name : String), (D, ASTEntryTag.TagFieldDecl) ∉ v.exportedTags →
        ∃ v1, WalkUpFrom td D loc (.FieldDecl type name) v = some (true, v1) ∧
          v1.encoder = v.encoder ++
            [Entry.node D .TagFieldDecl [] (filenamesInsert v.filenames loc.filename).1
              loc.line loc.col none [.text name]]) ∧
      (exportedDocument id Example.intFieldUnit).map (fun d => d.entries) =
        some [Entry.node 0x2040 .TagRecordDecl [some 0x2080] 0 1 1 none [.text "P"],
              Entry.node 0x2080 .TagFieldDecl [] 0 1 12 none [.text "x"]] ∧
      (WalkUpFrom Example.noDecl 0x2080 (Example.at_a_c 1 12)
          (.VarDecl (.mk Example.tyInt false) 0 "x") TranslateASTVisitor.init).map
          (fun r => r.2.encoder) =
        some [Entry.node 0x2080 .TagVarDecl [none] 0 1 12 (some 0x1000) [.text "x"],
              Entry.type 0x1000 .TagInt []] ∧
      (∀ (v : TranslateASTVisitor) (ast : Ptr) (tag : ASTEntryTag) (loc : SourceLocation)
        (childIds : List Ptr) (extra : List CborValue), (ast, tag) ∉ v.exportedTags →
        (encode_entry_Stmt v ast tag loc childIds extra).encoder = v.encoder ++
          [Entry.node ast tag (childIds.map fun x => if x = 0 then none else some x)
            (filenamesInsert v.filenames loc.filename).1 loc.line loc.col none extra]) ∧
      (∀ (td : Ptr → Walk) (v : TranslateASTVisitor) (ast : Ptr) (tag : ASTEntryTag)
        (loc : SourceLocation) (ty : QualType) (childIds : List Ptr) (extra : List CborValue),
        (ast, tag) ∉ v.exportedTags →
        encode_entry_Expr td v ast tag loc ty childIds extra =
          VisitQualType td ty { v with
            exportedTags := (ast, tag) :: v.exportedTags,
            filenames := (filenamesInsert v.filenames loc.filename).2,
            encoder := v.encoder ++
              [Entry.node ast tag (childIds.map fun x => if x = 0 then none else some x)
                (filenamesInsert v.filenames loc.filename).1 loc.line loc.col
                (if ty.getTypePtrOrNull = 0 then none else some ty.getTypePtrOrNull)
                extra] }) := by
  refine ⟨?_, by decide!, by decide!, ?_, ?_⟩
  · intro td v D loc type name h
    refine ⟨_, rfl, ?_⟩
    simp only [encode_entry_Decl]
    rw [encode_entry_raw_fresh _ _ _ _ _ _ _ h]
    simp
  · intro v ast tag loc childIds extra h
    simp only [encode_entry_Stmt]
    rw [encode_entry_raw_fresh _ _ _ _ _ _ _ h]
    simp
  · intro td v ast tag loc ty childIds extra h
    simp only [encode_entry_Expr]
    rw [encode_entry_raw_fresh _ _ _ _ _ _ _ h]

/-! ## Constituents of composite types -/

/-- Claim C23, evaluated against the claim: the entry of a typedef type carries the
address of the alias declaration, and the encoder visits nothing further; for
`__int128_t x;` the document has the entry of `x` and the entry of the typedef type, and
no entry for the aliased type. -/
theorem typedef_type_entry_names_declaration :
    (VisitQualType (nestedWalk Example.aliasUnit 1) (.mk Example.tyInt128Alias false)
        TranslateASTVisitor.init).map (fun v => (v.encoder, v.typeEncoder.exports)) =
      some ([Entry.type 0x10b0 .TagTypedefType [.uint 0x2010]], [0x10b0]) ∧
    (exportedDocument id Example.aliasUnit).map (fun d => d.entries) =
      some [Entry.node 0x2040 .TagVarDecl [none] 0 1 1 (some 0x10b0) [.text "x"],
            Entry.type 0x10b0 .TagTypedefType [.uint 0x2010]] := by
  exact ⟨by decide!, by decide!⟩

theorem VisitQualType_marks (td : Ptr → Walk) (htd : WalkerKeeps td) (t : Ty) (c : Bool)
    (v v1 : TranslateASTVisitor) (hh : t.handled = true)
    (h : VisitQualType td (.mk t c) v = some v1) : t.addr ∈ v1.typeEncoder.exports :=
  Visit_marks td htd t _ v1 hh h

theorem VisitQualTypes_marks (td : Ptr → Walk) (htd : WalkerKeeps td) :
    ∀ (qs : List QualType) (v v1 : TranslateASTVisitor), VisitQualTypes td qs v = some v1 →
      ∀ (t : Ty) (c : Bool), QualType.mk t c ∈ qs → t.handled = true →
        t.addr ∈ v1.typeEncoder.exports
  | [], _, _, _, _, _, hm, _ => by simp at hm
  | q :: qs, v, v1, h, t, c, hm, hh => by
      simp only [VisitQualTypes] at h
      obtain ⟨v2, h2, h3⟩ := Option.bind_eq_some.1 h
      rcases List.mem_cons.1 hm with hq | hq
      · subst hq
        exact VisitQualTypes_keeps _ (mem_exports_stepInvariant t.addr) td
          (htd _ (mem_exports_stepInvariant t.addr)) qs v2 v1
          (VisitQualType_marks td htd t c v v2 hh h2) h3
      · exact VisitQualTypes_marks td htd qs v2 v1 h3 t c hq hh

/-- Claim C23, amended: for a pointer, constant, variable or incomplete array, function,
type-of, elaborated or decayed type the encoder writes the entry, whose payload holds the
address of each immediate constituent type, and then visits each of these constituents,
so that after the visit every constituent of a class with a `Visit…` method is registered
as exported.  For a typedef type the payload holds the address of the alias declaration,
and the encoder visits no type. -/
theorem composite_type_recursion (td : Ptr → Walk) (htd : WalkerKeeps td) :
    (∀ T t size v, Visit td (.ConstantArrayType T t size) v =
        VisitQualType td t (encodeType v T .TagConstantArrayType
          [.uint t.getTypePtrOrNull, .uint (getLimitedValue size)])) ∧
      (∀ T t v, Visit td (.VariableArrayType T t) v =
        VisitQualType td t (encodeType v T .TagVariableArrayType
          [.uint t.getTypePtrOrNull, .undefined])) ∧
      (∀ T t v, Visit td (.IncompleteArrayType T t) v =
        VisitQualType td t (encodeType v T .TagIncompleteArrayType [.uint t.getTypePtrOrNull])) ∧
      (∀ T ret params v, Visit td (.FunctionProtoType T ret params) v =
        (VisitQualType td ret (encodeType v T .TagFunctionType
          [.array (ret.getTypePtrOrNull :: params.map QualType.getTypePtrOrNull)])).bind
          (VisitQualTypes td params)) ∧
      (∀ T ret v, Visit td (.FunctionNoProtoType T ret) v =
        VisitQualType td ret (encodeType v T .TagFunctionType [.array [ret.getTypePtrOrNull]])) ∧
      (∀ T pointee v, Visit td (.PointerType T pointee) v =
        VisitQualType td pointee (encodeType v T .TagPointer [.uint pointee.getTypePtrOrNull])) ∧
      (∀ T t v, Visit td (.TypeOfType T t) v =
        VisitQualType td t (encodeType v T .TagTypeOfType [.uint t.getTypePtrOrNull])) ∧
      (∀ T t v, Visit td (.ElaboratedType T t) v =
        VisitQualType td t (encodeType v T .TagElaboratedType [.uint t.getTypePtrOrNull])) ∧
      (∀ T t v, Visit td (.DecayedType T t) v =
        VisitQualType td t (encodeType v T .TagDecayedType [.uint t.getTypePtrOrNull])) ∧
      (∀ T D v, Visit td (.TypedefType T D) v =
        some (encodeType v T .TagTypedefType [.uint D])) ∧
      (∀ (ty : Ty) (v v1 : TranslateASTVisitor), Visit td ty v = some v1 →
        ∀ (t : Ty) (c : Bool), QualType.mk t c ∈ ty.visited → t.handled = true →
          t.addr ∈ v1.typeEncoder.exports) := by
  iterate 10 refine And.intro (by intros; rfl) ?_
  intro ty v v1 h t c hm hh
  have one : ∀ (q : QualType) (s : TranslateASTVisitor), QualType.mk t c ∈ [q] →
      VisitQualType td q s = some v1 → t.addr ∈ v1.typeEncoder.exports := by
    intro q s hq hv
    rw [List.mem_singleton] at hq
    subst hq
    exact VisitQualType_marks td htd t c s v1 hh hv
  cases ty with
  | ConstantArrayType T q size => exact one q _ hm h
  | VariableArrayType T q => exact one q _ hm h
  | IncompleteArrayType T q => exact one q _ hm h
  | FunctionProtoType T ret params =>
    obtain ⟨v2, h2, h3⟩ := Option.bind_eq_some.1 h
    rcases List.mem_cons.1 hm with hq | hq
    · subst hq
      exact VisitQualTypes_keeps _ (mem_exports_stepInvariant t.addr) td
        (htd _ (mem_exports_stepInvariant t.addr)) params v2 v1
        (VisitQualType_marks td htd t c _ v2 hh h2) h3
    · exact VisitQualTypes_marks td htd params v2 v1 h3 t c hq hh
  | FunctionNoProtoType T ret => exact one ret _ hm h
  | PointerType T pointee => exact one pointee _ hm h
  | TypeOfType T q => exact one q _ hm h
  | ElaboratedType T q => exact one q _ hm h
  | DecayedType T q => exact one q _ hm h
  | BuiltinType T kind => simp [Ty.visited] at hm
  | EnumType T decl => simp [Ty.visited] at hm
  | RecordType T D => simp [Ty.visited] at hm
  | TypedefType T D => simp [Ty.visited] at hm
  | Unhandled T => simp [Ty.visited] at hm

/-- Witness for `composite_type_recursion`: the type `const int *` visited first; the
pointer's entry names `int`, the entry of `const int` follows, and `int` is registered. -/
theorem composite_type_recursion_witness :
    (Visit Example.noDecl (.PointerType 0x1050 (.mk Example.tyInt true))
        TranslateASTVisitor.init).map (fun v => (v.encoder, v.typeEncoder.exports)) =
      some ([Entry.type 0x1050 .TagPointer [.uint 0x1000], Entry.type 0x1001 .TagInt []],
        [0x1000, 0x1050]) ∧
    ∀ v1, Visit Example.noDecl (.PointerType 0x1050 (.mk Example.tyInt true))
        TranslateASTVisitor.init = some v1 →
      Example.tyInt.addr ∈ v1.typeEncoder.exports := by
  refine ⟨by decide!, fun v1 h => ?_⟩
  exact (composite_type_recursion Example.noDecl noDecl_keeps).2.2.2.2.2.2.2.2.2.2 _ _ v1 h
    Example.tyInt true (by simp [Ty.visited]) rfl

/-! ## The guard of `VisitRecordType` -/

/-- Claim C22: when a call of `VisitRecordType` returns, `recordDeclsUnderVisit` is what it
was before the call.  A call for a declaration that is under visit writes at most the
type entry and does not walk the body; a call for a declaration that is not under visit
walks the body with the declaration under visit and removes it afterwards, so that the
declaration is again not under visit and a later call walks the body again. -/
theorem guard_restored (Context : ASTContext) (fuel : Nat) (T D : Ptr)
    (v v1 : TranslateASTVisitor)
    (h : VisitRecordType (nestedWalk Context fuel) v T D = some v1) :
    v1.typeEncoder.recordDeclsUnderVisit = v.typeEncoder.recordDeclsUnderVisit ∧
      (D ∈ v.typeEncoder.recordDeclsUnderVisit →
        v1 = encodeType v T .TagRecordType [.uint D]) ∧
      (D ∉ v.typeEncoder.recordDeclsUnderVisit → ∀ n, Context.getDecl D = some n →
        ∃ r, TraverseDecl Context fuel n
            { encodeType v T .TagRecordType [.uint D] with
              typeEncoder := { (encodeType v T .TagRecordType [.uint D]).typeEncoder with
                recordDeclsUnderVisit := D :: v.typeEncoder.recordDeclsUnderVisit } } = some r ∧
          r.2.typeEncoder.recordDeclsUnderVisit = D :: v.typeEncoder.recordDeclsUnderVisit ∧
          v1 = { r.2 with typeEncoder := { r.2.typeEncoder with
            recordDeclsUnderVisit := r.2.typeEncoder.recordDeclsUnderVisit.erase D } }) ∧
      (D ∉ v.typeEncoder.recordDeclsUnderVisit → D ∉ v1.typeEncoder.recordDeclsUnderVisit) := by
  have hu := (VisitRecordType_replays (nestedWalk Context fuel)
    (nestedWalk_replays Context fuel) T D v v1 h).1
  refine ⟨hu, fun hD => ?_, fun hD n hn => ?_, fun hD => hu ▸ hD⟩
  · simp only [VisitRecordType, encodeType_recordDeclsUnderVisit, hD, if_true,
      Option.some.injEq] at h
    exact h.symm
  · simp only [VisitRecordType, encodeType_recordDeclsUnderVisit, hD, if_false, nestedWalk,
      hn] at h
    obtain ⟨v3, h3, h4⟩ := Option.bind_eq_some.1 h
    obtain ⟨r, hr, hr2⟩ := Option.map_eq_some'.1 h3
    simp only [Option.some.injEq] at h4
    subst hr2
    refine ⟨r, hr, ?_, h4.symm⟩
    have := (TraverseDecl_replays Context fuel n _ r.2 (congrArg (Option.map Prod.snd) hr)).1
    simpa only [encodeType_recordDeclsUnderVisit] using this

/-- Witness for `guard_restored`: in `struct S { int x : sizeof((struct S *)0); };` the
visit of `struct S` from a fresh visitor walks the body, where the nested visit of
`struct S` finds the declaration under visit; afterwards nothing is under visit. -/
theorem guard_restored_witness :
    ∃ v1, VisitRecordType (nestedWalk Example.bitsUnit 1) TranslateASTVisitor.init
        0x1030 0x2040 = some v1 ∧
      v1.typeEncoder.recordDeclsUnderVisit = [] ∧
      (nodeEntriesWith .TagRecordDecl v1.encoder).length = 1 := by
  obtain ⟨v1, h1⟩ : ∃ v1, VisitRecordType (nestedWalk Example.bitsUnit 1)
      TranslateASTVisitor.init 0x1030 0x2040 = some v1 :=
    Option.isSome_iff_exists.1 (by decide!)
  refine ⟨v1, h1, (guard_restored Example.bitsUnit 1 0x1030 0x2040 _ v1 h1).1, ?_⟩
  have h2 : (VisitRecordType (nestedWalk Example.bitsUnit 1) TranslateASTVisitor.init
      0x1030 0x2040).map (fun s => (nodeEntriesWith .TagRecordDecl s.encoder).length) =
        some 1 := by decide!
  rw [h1] at h2
  exact Option.some.inj h2

/-! ## Nodes of classes without a `Visit…` method -/

mutual
theorem traverse_subtree_post (td : Ptr → Walk) (htd : WalkerKeeps td) :
    ∀ (n : Node) (v : TranslateASTVisitor) (r : Visited), traverse td n v = some r →
      ∀ m ∈ Node.subtree n, ∀ t, m.kind.entryTag = some t → (m.addr, t) ∈ r.2.exportedTags
  | .mk p loc kind walked, v, r, h => by
      simp only [traverse] at h
      obtain ⟨r1, h1, h2⟩ := Option.bind_eq_some.1 h
      obtain ⟨ht, _, hm⟩ := WalkUpFrom_post td htd p loc kind v r1 h1
      simp only [ht, if_true] at h2
      intro m hmem t hkt
      simp only [Node.subtree, List.mem_cons] at hmem
      rcases hmem with hmem | hmem
      · subst hmem
        exact (traverseAll_post td htd walked r1.2 r h2).2.1 _
          (mem_exportedTags_stepInvariant (p, t)) (hm t hkt)
      · exact traverseAll_subtree_post td htd walked r1.2 r h2 m hmem t hkt
theorem traverseAll_subtree_post (td : Ptr → Walk) (htd : WalkerKeeps td) :
    ∀ (ns : List Node) (v : TranslateASTVisitor) (r : Visited), traverseAll td ns v = some r →
      ∀ m ∈ Node.subtrees ns, ∀ t, m.kind.entryTag = some t → (m.addr, t) ∈ r.2.exportedTags
  | [], _, _, _ => by
      intro m hmem
      simp [Node.subtrees] at hmem
  | n :: ns, v, r, h => by
      simp only [traverseAll] at h
      obtain ⟨r1, h1, h2⟩ := Option.bind_eq_some.1 h
      simp only [traverse_fst td n v r1 h1, if_true] at h2
      intro m hmem t hkt
      simp only [Node.subtrees, List.mem_append] at hmem
      rcases hmem with hmem | hmem
      · exact (traverseAll_post td htd ns r1.2 r h2).2.1 _
          (mem_exportedTags_stepInvariant (m.addr, t))
          (traverse_subtree_post td htd n v r1 h1 m hmem t hkt)
      · exact traverseAll_subtree_post td htd ns r1.2 r h2 m hmem t hkt
end

/-- Claim C25: every `Visit…` method returns `true`, so does the walk below any node; the
`WalkUpFrom…` of a node of a class without a `Visit…` method leaves the visitor as it is,
so writes no entry; and the document of a translation unit exists and has a node entry
for every node of the walked tree that is of a class with a `Visit…` method, whatever the
classes of its ancestors. -/
theorem unhandled_kinds_do_not_stop_the_walk (iter : IterationOrder) (Context : ASTContext) :
    (∀ (td : Ptr → Walk) (p : Ptr) (loc : SourceLocation) (kind : NodeKind)
        (v : TranslateASTVisitor) (r : Visited),
        WalkUpFrom td p loc kind v = some r → r.1 = true) ∧
      (∀ (td : Ptr → Walk) (p : Ptr) (loc : SourceLocation) (kind : NodeKind)
        (v : TranslateASTVisitor), kind.entryTag = none →
        WalkUpFrom td p loc kind v = some (true, v)) ∧
      (∀ (td : Ptr → Walk) (n : Node) (v : TranslateASTVisitor) (r : Visited),
        traverse td n v = some r → r.1 = true) ∧
      ∃ doc, exportedDocument iter Context = some doc ∧
        ∀ m ∈ Node.subtree Context.getTranslationUnitDecl, ∀ t, m.kind.entryTag = some t →
          m.addr ∈ nodeIds doc.entries := by
  refine ⟨WalkUpFrom_fst, ?_, traverse_fst, ?_⟩
  · intro td p loc kind v hk
    rw [WalkUpFrom_eq]
    rw [entryTag_eq_handler] at hk
    cases hh : kind.handler with
    | none => rfl
    | some c => simp [hh] at hk
  · obtain ⟨v, hv, hdoc⟩ := exportedDocument_returns iter Context
    refine ⟨_, hdoc, ?_⟩
    have hkeep := TraverseDecl_callback_keeps Context Context.recordDecls.length
    have hI : RegisteredAreWritten v :=
      (traverse_post _ hkeep Context.getTranslationUnitDecl TranslateASTVisitor.init
        (true, v) hv).2.1 _ registeredAreWritten_stepInvariant (by
          intro k hk
          simp [TranslateASTVisitor.init] at hk)
    intro m hm t ht
    exact hI _ (traverse_subtree_post _ hkeep Context.getTranslationUnitDecl
      TranslateASTVisitor.init (true, v) hv m hm t ht)

/-! ## Encoding a second time -/

/-- Claim C27, evaluated against the claim: in the run on
`struct R g(long, char); struct R { int x : sizeof g; };` the type of `g` is visited
from the declaration of `g` and, while that visit walks the body of `struct R`, a second
time from the reference to `g`.  At the start of the second visit the function type is
exported and the entries written so far are the first ten of the document; the second
visit appends the entries of `long` and `char`, which the first has not reached yet. -/
theorem nested_second_visit_appends :
    (0x10e0 ∈ Example.duringFirstVisit.typeEncoder.exports) ∧
    (exportedDocument id Example.fnUnit).map (fun d => d.entries.take 10) =
      some Example.duringFirstVisit.encoder ∧
    (VisitQualType (nestedWalk Example.fnUnit 1) (.mk Example.tyRFn false)
        Example.duringFirstVisit).map (fun s => s.encoder) =
      some (Example.duringFirstVisit.encoder ++
        [Entry.type 0x10a0 .TagLong [], Entry.type 0x1060 .TagChar []]) ∧
    (exportedDocument id Example.fnUnit).map (fun d => (d.entries.drop 10).take 2) =
      some [Entry.type 0x10a0 .TagLong [], Entry.type 0x1060 .TagChar []] := by
  exact ⟨by decide!, by decide!, by decide!, by decide!⟩

/-! ## Calls whose arguments are of the translation unit -/

theorem Guarded_some (P : TranslateASTVisitor → Prop) : Guarded P some := by
  intro v v1 hv h
  exact Option.some.inj h ▸ hv

theorem Guarded_bind (P : TranslateASTVisitor → Prop) (f g : Walk) (hf : Guarded P f)
    (hg : Guarded P g) : Guarded P fun v => (f v).bind g := by
  intro v v1 hv h
  obtain ⟨v2, h2, h3⟩ := Option.bind_eq_some.1 h
  exact hg v2 v1 (hf v v2 hv h2) h3

theorem Guarded_after (P : TranslateASTVisitor → Prop)
    (s : TranslateASTVisitor → TranslateASTVisitor) (g : Walk)
    (hs : ∀ v, P v → P (s v)) (hg : Guarded P g) : Guarded P fun v => g (s v) :=
  fun v v1 hv h => hg (s v) v1 (hs v hv) h

theorem Guarded_encodeType_then {keys : List (Ptr × ASTEntryTag)} {types : List Ptr}
    {P : TranslateASTVisitor → Prop} (hP : GuardedInvariant keys types P) (T : Ptr)
    (tag : TypeTag) (extra : List CborValue) (hT : T ∈ types) (g : Walk) (hg : Guarded P g) :
    Guarded P fun v => g (encodeType v T tag extra) :=
  fun v v1 hv h => hg _ v1 (hP.encodeType v T tag extra hT hv) h

theorem Guarded_setConst_then {keys : List (Ptr × ASTEntryTag)} {types : List Ptr}
    {P : TranslateASTVisitor → Prop} (hP : GuardedInvariant keys types P) (c : Bool)
    (g : Walk) (hg : Guarded P g) :
    Guarded P fun v => g { v with typeEncoder := { v.typeEncoder with isConst := c } } :=
  fun v v1 hv h => hg _ v1 (hP.setConst v c hv) h

theorem VisitRecordType_guarded {keys : List (Ptr × ASTEntryTag)} {types : List Ptr}
    {P : TranslateASTVisitor → Prop} (hP : GuardedInvariant keys types P) (td : Ptr → Walk)
    (htd : ∀ D, Guarded P (td D)) (T D : Ptr) (hT : T ∈ types) :
    Guarded P fun v => VisitRecordType td v T D := by
  intro v v1 hv h
  have he := hP.encodeType v T .TagRecordType [.uint D] hT hv
  by_cases hD : D ∈ v.typeEncoder.recordDeclsUnderVisit
  · simp only [VisitRecordType, encodeType_recordDeclsUnderVisit, hD, if_true,
      Option.some.injEq] at h
    exact h ▸ he
  · simp only [VisitRecordType, encodeType_recordDeclsUnderVisit, hD, if_false] at h
    obtain ⟨v3, h3, h4⟩ := Option.bind_eq_some.1 h
    simp only [Option.some.injEq] at h4
    exact h4 ▸ hP.setUnderVisit _ _ (htd D _ v3 (hP.setUnderVisit _ _ he) h3)

mutual
theorem Visit_guarded {keys : List (Ptr × ASTEntryTag)} {types : List Ptr}
    {P : TranslateASTVisitor → Prop} (hP : GuardedInvariant keys types P) (td : Ptr → Walk)
    (htd : ∀ D, Guarded P (td D)) :
    ∀ ty : Ty, (∀ o ∈ ty.objects, o.1 ∈ types) → Guarded P (Visit td ty)
  | .BuiltinType T kind, h =>
      Guarded_encodeType_then hP T _ _ (h (T, none) (by simp [Ty.objects])) some (Guarded_some P)
  | .EnumType T decl, h =>
      Guarded_encodeType_then hP T _ _ (h (T, none) (by simp [Ty.objects])) some (Guarded_some P)
  | .ConstantArrayType T t size, h =>
      Guarded_encodeType_then hP T _ _ (h (T, none) (by simp [Ty.objects])) (VisitQualType td t)
        (VisitQualType_guarded hP td htd t fun o ho => h o (by simp [Ty.objects, ho]))
  | .VariableArrayType T t, h =>
      Guarded_encodeType_then hP T _ _ (h (T, none) (by simp [Ty.objects])) (VisitQualType td t)
        (VisitQualType_guarded hP td htd t fun o ho => h o (by simp [Ty.objects, ho]))
  | .IncompleteArrayType T t, h =>
      Guarded_encodeType_then hP T _ _ (h (T, none) (by simp [Ty.objects])) (VisitQualType td t)
        (VisitQualType_guarded hP td htd t fun o ho => h o (by simp [Ty.objects, ho]))
  | .RecordType T D, h =>
      VisitRecordType_guarded hP td htd T D (h (T, some D) (by simp [Ty.objects]))
  | .FunctionProtoType T ret params, h =>
      Guarded_bind P _ _
        (Guarded_encodeType_then hP T _ _ (h (T, none) (by simp [Ty.objects]))
          (VisitQualType td ret)
          (VisitQualType_guarded hP td htd ret fun o ho => h o (by simp [Ty.objects, ho])))
        (VisitQualTypes_guarded hP td htd params fun o ho => h o (by simp [Ty.objects, ho]))
  | .FunctionNoProtoType T ret, h =>
      Guarded_encodeType_then hP T _ _ (h (T, none) (by simp [Ty.objects])) (VisitQualType td ret)
        (VisitQualType_guarded hP td htd ret fun o ho => h o (by simp [Ty.objects, ho]))
  | .PointerType T pointee, h =>
      Guarded_encodeType_then hP T _ _ (h (T, none) (by simp [Ty.objects])) (VisitQualType td pointee)
        (VisitQualType_guarded hP td htd pointee fun o ho => h o (by simp [Ty.objects, ho]))
  | .TypedefType T D, h =>
      Guarded_encodeType_then hP T _ _ (h (T, none) (by simp [Ty.objects])) some (Guarded_some P)
  | .TypeOfType T t, h =>
      Guarded_encodeType_then hP T _ _ (h (T, none) (by simp [Ty.objects])) (VisitQualType td t)
        (VisitQualType_guarded hP td htd t fun o ho => h o (by simp [Ty.objects, ho]))
  | .ElaboratedType T t, h =>
      Guarded_encodeType_then hP T _ _ (h (T, none) (by simp [Ty.objects])) (VisitQualType td t)
        (VisitQualType_guarded hP td htd t fun o ho => h o (by simp [Ty.objects, ho]))
  | .DecayedType T t, h =>
      Guarded_encodeType_then hP T _ _ (h (T, none) (by simp [Ty.objects])) (VisitQualType td t)
        (VisitQualType_guarded hP td htd t fun o ho => h o (by simp [Ty.objects, ho]))
  | .Unhandled _, _ => Guarded_some P
theorem VisitQualType_guarded {keys : List (Ptr × ASTEntryTag)} {types : List Ptr}
    {P : TranslateASTVisitor → Prop} (hP : GuardedInvariant keys types P) (td : Ptr → Walk)
    (htd : ∀ D, Guarded P (td D)) :
    ∀ QT : QualType, (∀ o ∈ QT.objects, o.1 ∈ types) → Guarded P (VisitQualType td QT)
  | .null, _ => Guarded_some P
  | .mk ty hasConst, h =>
      Guarded_setConst_then hP hasConst (Visit td ty) (Visit_guarded hP td htd ty h)
theorem VisitQualTypes_guarded {keys : List (Ptr × ASTEntryTag)} {types : List Ptr}
    {P : TranslateASTVisitor → Prop} (hP : GuardedInvariant keys types P) (td : Ptr → Walk)
    (htd : ∀ D, Guarded P (td D)) :
    ∀ QTs : List QualType, (∀ o ∈ objectsOfTypes QTs, o.1 ∈ types) →
      Guarded P (VisitQualTypes td QTs)
  | [], _ => Guarded_some P
  | x :: xs, h =>
      Guarded_bind P _ _
        (VisitQualType_guarded hP td htd x fun o ho => h o (by simp [objectsOfTypes, ho]))
        (VisitQualTypes_guarded hP td htd xs fun o ho => h o (by simp [objectsOfTypes, ho]))
end

theorem WalkUpFrom_guarded {keys : List (Ptr × ASTEntryTag)} {types : List Ptr}
    {P : TranslateASTVisitor → Prop} (hP : GuardedInvariant keys types P) (td : Ptr → Walk)
    (htd : ∀ D, Guarded P (td D)) (p : Ptr) (loc : SourceLocation) (kind : NodeKind)
    (walked : List Node) (hin : Node.inside keys types (.mk p loc kind walked)) :
    Guarded P fun v => (WalkUpFrom td p loc kind v).map Prod.snd := by
  intro v v1 hv h
  replace h : (WalkUpFrom td p loc kind v).map Prod.snd = some v1 := h
  rw [WalkUpFrom_snd] at h
  cases hk : kind.handler with
  | none =>
    simp only [hk, Option.some.injEq] at h
    exact h ▸ hv
  | some c =>
    simp only [hk] at h
    have h1 : (p, c.tag) ∈ keys := hin.1 _ (by simp [Node.key, Node.kind, Node.addr, hk])
    have h2 : ∀ o ∈ c.visited.objects, o.1 ∈ types := fun o ho =>
      hin.2 o (by simpa [Node.typeObjects, Node.kind, hk] using ho)
    exact VisitQualType_guarded hP td htd c.visited h2 _ v1
      (hP.encode_entry_raw v p c.tag loc c.ty c.childIds c.extra h1 hv) h

mutual
theorem traverse_guarded {keys : List (Ptr × ASTEntryTag)} {types : List Ptr}
    {P : TranslateASTVisitor → Prop} (hP : GuardedInvariant keys types P) (td : Ptr → Walk)
    (htd : ∀ D, Guarded P (td D)) :
    ∀ n : Node, (∀ m ∈ Node.subtree n, m.inside keys types) →
      Guarded P fun v => (traverse td n v).map Prod.snd
  | .mk p loc kind walked, hin => by
      have h : (fun v => (traverse td (.mk p loc kind walked) v).map Prod.snd) =
          fun v => ((WalkUpFrom td p loc kind v).map Prod.snd).bind fun v1 =>
            (traverseAll td walked v1).map Prod.snd := funext fun v => traverse_snd ..
      rw [h]
      exact Guarded_bind P _ _
        (WalkUpFrom_guarded hP td htd p loc kind walked
          (hin _ (by simp [Node.subtree])))
        (traverseAll_guarded hP td htd walked fun m hm =>
          hin m (by simp [Node.subtree, hm]))
theorem traverseAll_guarded {keys : List (Ptr × ASTEntryTag)} {types : List Ptr}
    {P : TranslateASTVisitor → Prop} (hP : GuardedInvariant keys types P) (td : Ptr → Walk)
    (htd : ∀ D, Guarded P (td D)) :
    ∀ ns : List Node, (∀ m ∈ Node.subtrees ns, m.inside keys types) →
      Guarded P fun v => (traverseAll td ns v).map Prod.snd
  | [], _ => Guarded_some P
  | n :: ns, hin => by
      have h : (fun v => (traverseAll td (n :: ns) v).map Prod.snd) =
          fun v => ((traverse td n v).map Prod.snd).bind fun v1 =>
            (traverseAll td ns v1).map Prod.snd := funext fun v => traverseAll_snd ..
      rw [h]
      exact Guarded_bind P _ _
        (traverse_guarded hP td htd n fun m hm => hin m (by simp [Node.subtrees, hm]))
        (traverseAll_guarded hP td htd ns fun m hm => hin m (by simp [Node.subtrees, hm]))
end

theorem subtree_mem_subtrees (n : Node) :
    ∀ ns : List Node, n ∈ ns → ∀ m ∈ Node.subtree n, m ∈ Node.subtrees ns
  | [], h, _, _ => by simp at h
  | x :: xs, h, m, hm => by
      simp only [Node.subtrees, List.mem_append]
      rcases List.mem_cons.1 h with h | h
      · exact Or.inl (h ▸ hm)
      · exact Or.inr (subtree_mem_subtrees n xs h m hm)

theorem getDecl_subtree_nodes (Context : ASTContext) (D : Ptr) (n : Node)
    (h : Context.getDecl D = some n) : ∀ m ∈ Node.subtree n, m ∈ Context.nodes := by
  intro m hm
  unfold ASTContext.getDecl at h
  exact List.mem_append.2 (Or.inr
    (subtree_mem_subtrees n _ (List.mem_of_find?_eq_some h) m hm))

theorem nodes_inside (Context : ASTContext) (m : Node) (hm : m ∈ Context.nodes) :
    m.inside Context.nodeKeys Context.typeAddrs := by
  refine ⟨fun k hk => List.mem_filterMap.2 ⟨m, hm, hk⟩, fun o ho => ?_⟩
  exact List.mem_map.2 ⟨o, List.mem_flatMap.2 ⟨m, hm, ho⟩, rfl⟩

theorem TraverseDecl_guarded (Context : ASTContext) {P : TranslateASTVisitor → Prop}
    (hP : GuardedInvariant Context.nodeKeys Context.typeAddrs P) :
    ∀ (fuel : Nat) (n : Node), (∀ m ∈ Node.subtree n, m ∈ Context.nodes) →
      Guarded P fun v => (TraverseDecl Context fuel n v).map Prod.snd
  | 0, _, _ => by
      intro v v1 _ h
      simp [TraverseDecl] at h
  | fuel + 1, n, hn => by
      rw [TraverseDecl_succ]
      refine traverse_guarded hP _ (fun D => ?_) n fun m hm => nodes_inside Context m (hn m hm)
      unfold nestedWalk
      cases hg : Context.getDecl D with
      | none => exact Guarded_some P
      | some m => exact TraverseDecl_guarded Context hP fuel m (getDecl_subtree_nodes Context D m hg)

theorem origin_congr (keys : List (Ptr × ASTEntryTag)) (types : List Ptr)
    (v w : TranslateASTVisitor) (h1 : w.exportedTags = v.exportedTags)
    (h2 : w.typeEncoder.exports = v.typeEncoder.exports) (e : Entry)
    (h : e.origin keys types v) : e.origin keys types w := by
  cases e with
  | node a t _ _ _ _ _ _ => exact ⟨h1 ▸ h.1, h.2⟩
  | type id _ _ =>
    obtain ⟨T, hT, h3⟩ := h
    exact ⟨T, h2 ▸ hT, h3⟩

theorem distinctIds_guardedInvariant (keys : List (Ptr × ASTEntryTag)) (types : List Ptr)
    (hTag : ∀ k1 ∈ keys, ∀ k2 ∈ keys, k1.1 = k2.1 → k1.2 = k2.2)
    (hEven : ∀ T ∈ types, T % 2 = 0)
    (hNode : ∀ k ∈ keys, k.1 % 2 = 0 ∧ k.1 ∉ types) :
    GuardedInvariant keys types (DistinctIds keys types) where
  encodeType := by
    intro v T tag extra hT hv
    exact encoder_ids_nodup_step keys types hTag hEven hNode
      (.encodeType v.typeEncoder.isConst T tag extra) (fun k hk => by simp [Call.nodeKey] at hk)
      (fun T' hT' => by
        simp only [Call.typePtr, Option.some.injEq] at hT'
        exact hT' ▸ hT) v hv.1 hv.2
  encode_entry_raw := by
    intro v ast tag loc ty childIds extra hk hv
    exact encoder_ids_nodup_step keys types hTag hEven hNode
      (.encode_entry_raw ast tag loc ty childIds extra)
      (fun k hk' => by
        simp only [Call.nodeKey, Option.some.injEq] at hk'
        exact hk' ▸ hk)
      (fun T' hT' => by simp [Call.typePtr] at hT') v hv.1 hv.2
  setConst := fun v c hv =>
    ⟨fun e he => origin_congr keys types v _ rfl rfl e (hv.1 e he), hv.2⟩
  setUnderVisit := fun v u hv =>
    ⟨fun e he => origin_congr keys types v _ rfl rfl e (hv.1 e he), hv.2⟩

/-! ## Uniqueness of entity ids in a document -/

/-- Claim C2: in the document of every translation unit no two entries of the entries
array carry the same `entity_id`, given what holds of the objects the front end hands
over: an address belongs to nodes of one class only, the addresses of nodes and of type
objects are even, and no node has the address of a type object. -/
theorem entity_ids_distinct (iter : IterationOrder) (Context : ASTContext)
    (hTag : ∀ k1 ∈ Context.nodeKeys, ∀ k2 ∈ Context.nodeKeys, k1.1 = k2.1 → k1.2 = k2.2)
    (hEven : ∀ T ∈ Context.typeAddrs, T % 2 = 0)
    (hNode : ∀ k ∈ Context.nodeKeys, k.1 % 2 = 0 ∧ k.1 ∉ Context.typeAddrs) :
    ∃ doc, exportedDocument iter Context = some doc ∧
      (doc.entries.map Entry.entity_id).Nodup := by
  obtain ⟨v, hv, hdoc⟩ := exportedDocument_returns iter Context
  refine ⟨_, hdoc, ?_⟩
  have h := TraverseDecl_guarded Context
    (distinctIds_guardedInvariant _ _ hTag hEven hNode) Context.fuel
    Context.getTranslationUnitDecl (fun m hm => List.mem_append.2 (Or.inl hm))
    TranslateASTVisitor.init v
    ⟨fun e he => by simp [TranslateASTVisitor.init] at he, by simp [TranslateASTVisitor.init]⟩
    (congrArg (Option.map Prod.snd) hv)
  exact h.2

/-- Witness for `entity_ids_distinct`: the unit
`struct R g(long, char); struct R { int x : sizeof g; };`, in whose run nodes and types
are reached more than once; its fourteen entries have fourteen ids. -/
theorem entity_ids_distinct_witness :
    (exportedDocument id Example.fnUnit).map (fun d => d.entries.map Entry.entity_id) =
      some [0x2040, 0x2080, 0x10e0, 0x10d0, 0x10c0, 0x2100, 0x2140, 0x2180, 0x1000, 0x2200,
        0x10a0, 0x1060, 0x20a0, 0x20c0] ∧
    ∃ doc, exportedDocument id Example.fnUnit = some doc ∧
      (doc.entries.map Entry.entity_id).Nodup :=
  ⟨by decide!, entity_ids_distinct id Example.fnUnit (by decide!) (by decide!) (by decide!)⟩

/-! ## Visits of what is already covered write nothing -/

theorem RunInvariant_same (Context : ASTContext) (s s1 : TranslateASTVisitor)
    (h : RunInvariant Context s) (hs : SameOutput s s1) : RunInvariant Context s1 := by
  intro o ho D hD hE
  rw [hs.2.2.2.1] at hE
  rw [hs.2.2.2.2, hs.2.2.2.1, hs.2.2.1]
  exact h o ho D hD hE

theorem Silent_weaken (Context : ASTContext)
    {c c' : List Ptr → List (Ptr × ASTEntryTag) → Prop} {f : Walk} (h : Silent Context c f)
    (hc : ∀ E X, c' E X → c E X) : Silent Context c' f :=
  fun s s1 hs hcs hf => h s s1 hs (hc _ _ hcs) hf

theorem Silent_some (Context : ASTContext) : Silent Context (fun _ _ => True) some :=
  fun s _ _ _ h => Option.some.inj h ▸ SameOutput.rfl s

theorem Silent_bind (Context : ASTContext)
    {c1 c2 : List Ptr → List (Ptr × ASTEntryTag) → Prop} (f g : Walk)
    (hf : Silent Context c1 f) (hg : Silent Context c2 g) :
    Silent Context (fun E X => c1 E X ∧ c2 E X) fun v => (f v).bind g := by
  intro s s1 hs hc h
  obtain ⟨s2, h2, h3⟩ := Option.bind_eq_some.1 h
  have e2 := hf s s2 hs hc.1 h2
  have e1 := hg s2 s1 (RunInvariant_same Context s s2 hs e2)
    (by rw [e2.2.2.2.1, e2.2.2.1]; exact hc.2) h3
  exact e2.trans e1

theorem Silent_encodeType_then (Context : ASTContext)
    {c : List Ptr → List (Ptr × ASTEntryTag) → Prop} (T : Ptr) (tag : TypeTag)
    (extra : List CborValue) (g : Walk) (hg : Silent Context c g) :
    Silent Context (fun E X => T ∈ E ∧ c E X) fun v => g (encodeType v T tag extra) := by
  intro s s1 hs hc h
  have h1 : g s = some s1 := by
    have := encodeType_seen s T tag extra hc.1
    simpa only [this] using h
  exact hg s s1 hs hc.2 h1

theorem Silent_entry_then (Context : ASTContext)
    {c : List Ptr → List (Ptr × ASTEntryTag) → Prop} (ast : Ptr) (tag : ASTEntryTag)
    (loc : SourceLocation) (ty : Ptr) (childIds : List Ptr) (extra : List CborValue)
    (g : Walk) (hg : Silent Context c g) :
    Silent Context (fun E X => (ast, tag) ∈ X ∧ c E X)
      fun v => g (encode_entry_raw v ast tag loc ty childIds extra) := by
  intro s s1 hs hc h
  have h1 : g s = some s1 := by
    have := encode_entry_raw_seen s ast tag loc ty childIds extra hc.1
    simpa only [this] using h
  exact hg s s1 hs hc.2 h1

theorem Silent_setConst_then (Context : ASTContext)
    {c : List Ptr → List (Ptr × ASTEntryTag) → Prop} (b : Bool) (g : Walk)
    (hg : Silent Context c g) :
    Silent Context c
      fun v => g { v with typeEncoder := { v.typeEncoder with isConst := b } } := by
  intro s s1 hs hc h
  exact hg { s with typeEncoder := { s.typeEncoder with isConst := b } } s1
    (fun o ho D hD hE => hs o ho D hD hE) hc h

theorem VisitRecordType_silent (Context : ASTContext) (td : Ptr → Walk)
    (htd : ∀ D, Silent Context (fun E X => bodyCovered Context E X D) (td D)) (T D : Ptr)
    (hobj : (T, some D) ∈ Context.typeObjects) :
    Silent Context (fun E _ => T ∈ E) fun v => VisitRecordType td v T D := by
  intro s s1 hs hc h
  have he : encodeType s T .TagRecordType [.uint D] = s := encodeType_seen _ _ _ _ hc
  by_cases hD : D ∈ s.typeEncoder.recordDeclsUnderVisit
  · simp only [VisitRecordType, he, hD, if_true, Option.some.injEq] at h
    exact h ▸ SameOutput.rfl s
  · simp only [VisitRecordType, he, hD, if_false] at h
    obtain ⟨s3, h3, h4⟩ := Option.bind_eq_some.1 h
    simp only [Option.some.injEq] at h4
    have hb : bodyCovered Context s.typeEncoder.exports s.exportedTags D :=
      (hs (T, some D) hobj D rfl hc).resolve_left hD
    have e3 := htd D
      { s with typeEncoder := { s.typeEncoder with
          recordDeclsUnderVisit := D :: s.typeEncoder.recordDeclsUnderVisit } } s3
      (fun o ho D' hD' hE => (hs o ho D' hD' hE).imp (List.mem_cons_of_mem _) id) hb h3
    subst h4
    exact ⟨e3.1, e3.2.1, e3.2.2.1, e3.2.2.2.1, by
      show s3.typeEncoder.recordDeclsUnderVisit.erase D = _
      rw [e3.2.2.2.2]
      exact List.erase_cons_head ..⟩

mutual
theorem Visit_silent (Context : ASTContext) (td : Ptr → Walk)
    (htd : ∀ D, Silent Context (fun E X => bodyCovered Context E X D) (td D)) :
    ∀ ty : Ty, (∀ o ∈ ty.objects, o ∈ Context.typeObjects) →
      Silent Context (fun E _ => ∀ o ∈ ty.objects, o.1 ∈ E) (Visit td ty)
  | .BuiltinType T kind, _ =>
      Silent_weaken Context (Silent_encodeType_then Context T _ _ some (Silent_some Context))
        fun _ _ h => ⟨h (T, none) (by simp [Ty.objects]), trivial⟩
  | .EnumType T decl, _ =>
      Silent_weaken Context (Silent_encodeType_then Context T _ _ some (Silent_some Context))
        fun _ _ h => ⟨h (T, none) (by simp [Ty.objects]), trivial⟩
  | .ConstantArrayType T t size, hobj =>
      Silent_weaken Context (Silent_encodeType_then Context T _ _ (VisitQualType td t)
        (VisitQualType_silent Context td htd t fun o ho => hobj o (by simp [Ty.objects, ho])))
        fun _ _ h => ⟨h (T, none) (by simp [Ty.objects]), fun o ho => h o (by simp [Ty.objects, ho])⟩
  | .VariableArrayType T t, hobj =>
      Silent_weaken Context (Silent_encodeType_then Context T _ _ (VisitQualType td t)
        (VisitQualType_silent Context td htd t fun o ho => hobj o (by simp [Ty.objects, ho])))
        fun _ _ h => ⟨h (T, none) (by simp [Ty.objects]), fun o ho => h o (by simp [Ty.objects, ho])⟩
  | .IncompleteArrayType T t, hobj =>
      Silent_weaken Context (Silent_encodeType_then Context T _ _ (VisitQualType td t)
        (VisitQualType_silent Context td htd t fun o ho => hobj o (by simp [Ty.objects, ho])))
        fun _ _ h => ⟨h (T, none) (by simp [Ty.objects]), fun o ho => h o (by simp [Ty.objects, ho])⟩
  | .RecordType T D, hobj =>
      Silent_weaken Context
        (VisitRecordType_silent Context td htd T D (hobj (T, some D) (by simp [Ty.objects])))
        fun _ _ h => h (T, some D) (by simp [Ty.objects])
  | .FunctionProtoType T ret params, hobj =>
      Silent_weaken Context
        (Silent_bind Context _ _
          (Silent_encodeType_then Context T _ _ (VisitQualType td ret)
            (VisitQualType_silent Context td htd ret fun o ho =>
              hobj o (by simp [Ty.objects, ho])))
          (VisitQualTypes_silent Context td htd params fun o ho =>
            hobj o (by simp [Ty.objects, ho])))
        fun _ _ h => ⟨⟨h (T, none) (by simp [Ty.objects]),
          fun o ho => h o (by simp [Ty.objects, ho])⟩, fun o ho => h o (by simp [Ty.objects, ho])⟩
  | .FunctionNoProtoType T ret, hobj =>
      Silent_weaken Context (Silent_encodeType_then Context T _ _ (VisitQualType td ret)
        (VisitQualType_silent Context td htd ret fun o ho => hobj o (by simp [Ty.objects, ho])))
        fun _ _ h => ⟨h (T, none) (by simp [Ty.objects]), fun o ho => h o (by simp [Ty.objects, ho])⟩
  | .PointerType T pointee, hobj =>
      Silent_weaken Context (Silent_encodeType_then Context T _ _ (VisitQualType td pointee)
        (VisitQualType_silent Context td htd pointee fun o ho =>
          hobj o (by simp [Ty.objects, ho])))
        fun _ _ h => ⟨h (T, none) (by simp [Ty.objects]), fun o ho => h o (by simp [Ty.objects, ho])⟩
  | .TypedefType T D, _ =>
      Silent_weaken Context (Silent_encodeType_then Context T _ _ some (Silent_some Context))
        fun _ _ h => ⟨h (T, none) (by simp [Ty.objects]), trivial⟩
  | .TypeOfType T t, hobj =>
      Silent_weaken Context (Silent_encodeType_then Context T _ _ (VisitQualType td t)
        (VisitQualType_silent Context td htd t fun o ho => hobj o (by simp [Ty.objects, ho])))
        fun _ _ h => ⟨h (T, none) (by simp [Ty.objects]), fun o ho => h o (by simp [Ty.objects, ho])⟩
  | .ElaboratedType T t, hobj =>
      Silent_weaken Context (Silent_encodeType_then Context T _ _ (VisitQualType td t)
        (VisitQualType_silent Context td htd t fun o ho => hobj o (by simp [Ty.objects, ho])))
        fun _ _ h => ⟨h (T, none) (by simp [Ty.objects]), fun o ho => h o (by simp [Ty.objects, ho])⟩
  | .DecayedType T t, hobj =>
      Silent_weaken Context (Silent_encodeType_then Context T _ _ (VisitQualType td t)
        (VisitQualType_silent Context td htd t fun o ho => hobj o (by simp [Ty.objects, ho])))
        fun _ _ h => ⟨h (T, none) (by simp [Ty.objects]), fun o ho => h o (by simp [Ty.objects, ho])⟩
  | .Unhandled _, _ => Silent_weaken Context (Silent_some Context) fun _ _ _ => trivial
theorem VisitQualType_silent (Context : ASTContext) (td : Ptr → Walk)
    (htd : ∀ D, Silent Context (fun E X => bodyCovered Context E X D) (td D)) :
    ∀ QT : QualType, (∀ o ∈ QT.objects, o ∈ Context.typeObjects) →
      Silent Context (fun E _ => ∀ o ∈ QT.objects, o.1 ∈ E) (VisitQualType td QT)
  | .null, _ => Silent_weaken Context (Silent_some Context) fun _ _ _ => trivial
  | .mk ty hasConst, hobj =>
      Silent_setConst_then Context hasConst (Visit td ty) (Visit_silent Context td htd ty hobj)
theorem VisitQualTypes_silent (Context : ASTContext) (td : Ptr → Walk)
    (htd : ∀ D, Silent Context (fun E X => bodyCovered Context E X D) (td D)) :
    ∀ QTs : List QualType, (∀ o ∈ objectsOfTypes QTs, o ∈ Context.typeObjects) →
      Silent Context (fun E _ => ∀ o ∈ objectsOfTypes QTs, o.1 ∈ E) (VisitQualTypes td QTs)
  | [], _ => Silent_weaken Context (Silent_some Context) fun _ _ _ => trivial
  | x :: xs, hobj =>
      Silent_weaken Context
        (Silent_bind Context _ _
          (VisitQualType_silent Context td htd x fun o ho =>
            hobj o (by simp [objectsOfTypes, ho]))
          (VisitQualTypes_silent Context td htd xs fun o ho =>
            hobj o (by simp [objectsOfTypes, ho])))
        fun _ _ h => ⟨fun o ho => h o (by simp [objectsOfTypes, ho]),
          fun o ho => h o (by simp [objectsOfTypes, ho])⟩
end

theorem inside_mk (keys : List (Ptr × ASTEntryTag)) (types : List Ptr) (p : Ptr)
    (loc : SourceLocation) (kind : NodeKind) (walked : List Node) (c : HandlerCall)
    (hk : kind.handler = some c) (h : Node.inside keys types (.mk p loc kind walked)) :
    (p, c.tag) ∈ keys ∧ ∀ o ∈ c.visited.objects, o.1 ∈ types :=
  ⟨h.1 _ (by simp [Node.key, Node.kind, Node.addr, hk]),
    fun o ho => h.2 o (by simpa [Node.typeObjects, Node.kind, hk] using ho)⟩

theorem WalkUpFrom_silent (Context : ASTContext) (td : Ptr → Walk)
    (htd : ∀ D, Silent Context (fun E X => bodyCovered Context E X D) (td D)) (p : Ptr)
    (loc : SourceLocation) (kind : NodeKind) (walked : List Node)
    (hobj : ∀ o ∈ (Node.mk p loc kind walked).typeObjects, o ∈ Context.typeObjects) :
    Silent Context (fun E X => Node.inside X E (.mk p loc kind walked))
      fun v => (WalkUpFrom td p loc kind v).map Prod.snd := by
  intro s s1 hs hc h
  replace h : (WalkUpFrom td p loc kind s).map Prod.snd = some s1 := h
  rw [WalkUpFrom_snd] at h
  cases hk : kind.handler with
  | none =>
    simp only [hk, Option.some.injEq] at h
    exact h ▸ SameOutput.rfl s
  | some c =>
    simp only [hk] at h
    obtain ⟨h1, h2⟩ := inside_mk _ _ p loc kind walked c hk hc
    rw [encode_entry_raw_seen _ _ _ _ _ _ _ h1] at h
    exact VisitQualType_silent Context td htd c.visited
      (fun o ho => hobj o (by simpa [Node.typeObjects, Node.kind, hk] using ho)) s s1 hs h2 h

mutual
theorem traverse_silent (Context : ASTContext) (td : Ptr → Walk)
    (htd : ∀ D, Silent Context (fun E X => bodyCovered Context E X D) (td D)) :
    ∀ n : Node, (∀ m ∈ Node.subtree n, m ∈ Context.nodes) →
      Silent Context (fun E X => n.covered E X) fun v => (traverse td n v).map Prod.snd
  | .mk p loc kind walked, hn => by
      have h : (fun v => (traverse td (.mk p loc kind walked) v).map Prod.snd) =
          fun v => ((WalkUpFrom td p loc kind v).map Prod.snd).bind fun v1 =>
            (traverseAll td walked v1).map Prod.snd := funext fun v => traverse_snd ..
      rw [h]
      refine Silent_weaken Context
        (Silent_bind Context _ _
          (WalkUpFrom_silent Context td htd p loc kind walked fun o ho =>
            List.mem_flatMap.2 ⟨_, hn _ (by simp [Node.subtree]), ho⟩)
          (traverseAll_silent Context td htd walked fun m hm =>
            hn m (by simp [Node.subtree, hm])))
        fun E X hc => ⟨hc _ (by simp [Node.subtree]), fun m hm => hc m (by simp [Node.subtree, hm])⟩
theorem traverseAll_silent (Context : ASTContext) (td : Ptr → Walk)
    (htd : ∀ D, Silent Context (fun E X => bodyCovered Context E X D) (td D)) :
    ∀ ns : List Node, (∀ m ∈ Node.subtrees ns, m ∈ Context.nodes) →
      Silent Context (fun E X => ∀ m ∈ Node.subtrees ns, m.inside X E)
        fun v => (traverseAll td ns v).map Prod.snd
  | [], _ => Silent_weaken Context (Silent_some Context) fun _ _ _ => trivial
  | n :: ns, hn => by
      have h : (fun v => (traverseAll td (n :: ns) v).map Prod.snd) =
          fun v => ((traverse td n v).map Prod.snd).bind fun v1 =>
            (traverseAll td ns v1).map Prod.snd := funext fun v => traverseAll_snd ..
      rw [h]
      refine Silent_weaken Context
        (Silent_bind Context _ _
          (traverse_silent Context td htd n fun m hm => hn m (by simp [Node.subtrees, hm]))
          (traverseAll_silent Context td htd ns fun m hm => hn m (by simp [Node.subtrees, hm])))
        fun E X hc => ⟨fun m hm => hc m (by simp [Node.subtrees, hm]),
          fun m hm => hc m (by simp [Node.subtrees, hm])⟩
end

theorem TraverseDecl_silent (Context : ASTContext) :
    ∀ (fuel : Nat) (n : Node), (∀ m ∈ Node.subtree n, m ∈ Context.nodes) →
      Silent Context (fun E X => n.covered E X)
        fun v => (TraverseDecl Context fuel n v).map Prod.snd
  | 0, _, _ => by
      intro s s1 _ _ h
      simp [TraverseDecl] at h
  | fuel + 1, n, hn => by
      rw [TraverseDecl_succ]
      refine traverse_silent Context _ (fun D => ?_) n hn
      intro s s1 hs hc h
      unfold nestedWalk at h
      cases hg : Context.getDecl D with
      | none =>
        simp only [hg, Option.some.injEq] at h
        exact h ▸ SameOutput.rfl s
      | some m =>
        simp only [hg] at h
        exact TraverseDecl_silent Context fuel m (getDecl_subtree_nodes Context D m hg) s s1 hs
          (hc m hg) h

theorem nestedWalk_silent (Context : ASTContext) (fuel : Nat) (D : Ptr) :
    Silent Context (fun E X => bodyCovered Context E X D) (nestedWalk Context fuel D) := by
  intro s s1 hs hc h
  unfold nestedWalk at h
  cases hg : Context.getDecl D with
  | none =>
    simp only [hg, Option.some.injEq] at h
    exact h ▸ SameOutput.rfl s
  | some m =>
    simp only [hg] at h
    exact TraverseDecl_silent Context fuel m (getDecl_subtree_nodes Context D m hg) s s1 hs
      (hc m hg) h

/-! ## The invariant of a run -/

theorem encodeType_exports_cases (v : TranslateASTVisitor) (T : Ptr) (tag : TypeTag)
    (extra : List CborValue) (k : Ptr)
    (h : k ∈ (encodeType v T tag extra).typeEncoder.exports) :
    k = T ∨ k ∈ v.typeEncoder.exports := by
  by_cases hT : T ∈ v.typeEncoder.exports
  · rw [encodeType_seen _ _ _ _ hT] at h
    exact Or.inr h
  · rw [encodeType_fresh _ _ _ _ hT] at h
    exact List.mem_cons.1 h

theorem inside_mono (m : Node) : Monotone2 fun E X => m.inside X E :=
  fun _ _ _ _ hE hX h => ⟨fun k hk => hX k (h.1 k hk), fun o ho => hE _ (h.2 o ho)⟩

theorem covered_mono (n : Node) : Monotone2 fun E X => n.covered E X :=
  fun _ _ _ _ hE hX h m hm => inside_mono m _ _ _ _ hE hX (h m hm)

theorem bodyCovered_mono (Context : ASTContext) (D : Ptr) :
    Monotone2 fun E X => bodyCovered Context E X D :=
  fun _ _ _ _ hE hX h n hn => covered_mono n _ _ _ _ hE hX (h n hn)

theorem RunInvariant_step (Context : ASTContext) (v w : TranslateASTVisitor)
    (hv : RunInvariant Context v)
    (hE : ∀ o ∈ Context.typeObjects, ∀ D, o.2 = some D → o.1 ∈ w.typeEncoder.exports →
      o.1 ∈ v.typeEncoder.exports ∨ D ∈ w.typeEncoder.recordDeclsUnderVisit)
    (hE' : ∀ k ∈ v.typeEncoder.exports, k ∈ w.typeEncoder.exports)
    (hX : ∀ k ∈ v.exportedTags, k ∈ w.exportedTags)
    (hu : ∀ x ∈ v.typeEncoder.recordDeclsUnderVisit, x ∈ w.typeEncoder.recordDeclsUnderVisit) :
    RunInvariant Context w := by
  intro o ho D hD hw
  rcases hE o ho D hD hw with h | h
  · exact (hv o ho D hD h).imp (hu D) (bodyCovered_mono Context D _ _ _ _ hE' hX)
  · exact Or.inl h

theorem RunInvariant_init (Context : ASTContext) :
    RunInvariant Context TranslateASTVisitor.init := by
  intro o _ D _ h
  simp [TranslateASTVisitor.init] at h

theorem RunInvariant_encode_entry_raw (Context : ASTContext) (v : TranslateASTVisitor)
    (ast : Ptr) (tag : ASTEntryTag) (loc : SourceLocation) (ty : Ptr) (childIds : List Ptr)
    (extra : List CborValue) (hv : RunInvariant Context v) :
    RunInvariant Context (encode_entry_raw v ast tag loc ty childIds extra) := by
  refine RunInvariant_step Context v _ hv (fun o ho D hD hE => Or.inl ?_)
    (fun k hk => by rw [encode_entry_raw_typeEncoder]; exact hk)
    (fun k hk => encode_entry_raw_exportedTags_mono _ _ _ _ _ _ _ k hk)
    (fun x hx => by rw [encode_entry_raw_typeEncoder]; exact hx)
  rw [encode_entry_raw_typeEncoder] at hE
  exact hE

theorem RunInvariant_encodeType (Context : ASTContext)
    (hwf : ∀ o1 ∈ Context.typeObjects, ∀ o2 ∈ Context.typeObjects, o1.1 = o2.1 → o1.2 = o2.2)
    (v : TranslateASTVisitor) (T : Ptr) (tag : TypeTag) (extra : List CborValue)
    (hobj : (T, none) ∈ Context.typeObjects) (hv : RunInvariant Context v) :
    RunInvariant Context (encodeType v T tag extra) := by
  refine RunInvariant_step Context v _ hv (fun o ho D hD hE => ?_)
    (fun k hk => encodeType_exports_mono _ _ _ _ k hk)
    (fun k hk => by rw [encodeType_exportedTags]; exact hk)
    (fun x hx => by rw [encodeType_recordDeclsUnderVisit]; exact hx)
  rcases encodeType_exports_cases _ _ _ _ _ hE with h1 | h1
  · have := hwf o ho (T, none) hobj h1
    rw [hD] at this
    cases this
  · exact Or.inl h1

theorem RunInvariant_enter_record (Context : ASTContext)
    (hwf : ∀ o1 ∈ Context.typeObjects, ∀ o2 ∈ Context.typeObjects, o1.1 = o2.1 → o1.2 = o2.2)
    (v : TranslateASTVisitor) (T D : Ptr) (hobj : (T, some D) ∈ Context.typeObjects)
    (hv : RunInvariant Context v) :
    RunInvariant Context
      { encodeType v T .TagRecordType [.uint D] with
        typeEncoder := { (encodeType v T .TagRecordType [.uint D]).typeEncoder with
          recordDeclsUnderVisit := D :: v.typeEncoder.recordDeclsUnderVisit } } := by
  refine RunInvariant_step Context v _ hv (fun o ho D' hD' hE => ?_)
    (fun k hk => encodeType_exports_mono _ _ _ _ k hk)
    (fun k hk => by
      show k ∈ (encodeType v T .TagRecordType [.uint D]).exportedTags
      rw [encodeType_exportedTags]; exact hk)
    (fun x hx => List.mem_cons_of_mem _ hx)
  rcases encodeType_exports_cases _ _ _ _ _ hE with h1 | h1
  · have := hwf o ho (T, some D) hobj h1
    rw [hD'] at this
    rw [Option.some.inj this]
    exact Or.inr (List.mem_cons_self _ _)
  · exact Or.inl h1

theorem Settles_some (Context : ASTContext) : Settles Context (fun _ _ => True) some :=
  fun _ _ hv h => Option.some.inj h ▸ ⟨hv, trivial⟩

theorem Settles_weaken (Context : ASTContext)
    {c c' : List Ptr → List (Ptr × ASTEntryTag) → Prop} {f : Walk} (h : Settles Context c f)
    (hc : ∀ E X, c E X → c' E X) : Settles Context c' f :=
  fun v v1 hv hf => ⟨(h v v1 hv hf).1, hc _ _ (h v v1 hv hf).2⟩

theorem Settles_bind (Context : ASTContext)
    {c1 c2 : List Ptr → List (Ptr × ASTEntryTag) → Prop} (f g : Walk)
    (hf : Settles Context c1 f) (hg : Settles Context c2 g) (hm : Monotone2 c1)
    (hr : Replays g) :
    Settles Context (fun E X => c1 E X ∧ c2 E X) fun v => (f v).bind g := by
  intro v v1 hv h
  obtain ⟨v2, h2, h3⟩ := Option.bind_eq_some.1 h
  obtain ⟨i2, k2⟩ := hf v v2 hv h2
  obtain ⟨i1, k1⟩ := hg v2 v1 i2 h3
  obtain ⟨_, me, mt, _⟩ := hr v2 v1 h3
  exact ⟨i1, hm _ _ _ _ me mt k2, k1⟩

theorem Settles_encodeType_then (Context : ASTContext)
    (hwf : ∀ o1 ∈ Context.typeObjects, ∀ o2 ∈ Context.typeObjects, o1.1 = o2.1 → o1.2 = o2.2)
    {c : List Ptr → List (Ptr × ASTEntryTag) → Prop} (T : Ptr) (tag : TypeTag)
    (extra : List CborValue) (hobj : (T, none) ∈ Context.typeObjects) (g : Walk)
    (hg : Settles Context c g) (hr : Replays g) :
    Settles Context (fun E X => T ∈ E ∧ c E X) fun v => g (encodeType v T tag extra) := by
  intro v v1 hv h
  have hi := RunInvariant_encodeType Context hwf v T tag extra hobj hv
  obtain ⟨i1, k1⟩ := hg (encodeType v T tag extra) v1 hi h
  exact ⟨i1, (hr _ v1 h).2.1 T (encodeType_marks ..), k1⟩

theorem Settles_entry_then (Context : ASTContext)
    {c : List Ptr → List (Ptr × ASTEntryTag) → Prop} (ast : Ptr) (tag : ASTEntryTag)
    (loc : SourceLocation) (ty : Ptr) (childIds : List Ptr) (extra : List CborValue)
    (g : Walk) (hg : Settles Context c g) (hr : Replays g) :
    Settles Context (fun E X => (ast, tag) ∈ X ∧ c E X)
      fun v => g (encode_entry_raw v ast tag loc ty childIds extra) := by
  intro v v1 hv h
  have hi := RunInvariant_encode_entry_raw Context v ast tag loc ty childIds extra hv
  obtain ⟨i1, k1⟩ := hg (encode_entry_raw v ast tag loc ty childIds extra) v1 hi h
  exact ⟨i1, (hr _ v1 h).2.2.1 _ (encode_entry_raw_marks ..), k1⟩

theorem Settles_setConst_then (Context : ASTContext)
    {c : List Ptr → List (Ptr × ASTEntryTag) → Prop} (b : Bool) (g : Walk)
    (hg : Settles Context c g) :
    Settles Context c
      fun v => g { v with typeEncoder := { v.typeEncoder with isConst := b } } :=
  fun v v1 hv h =>
    hg { v with typeEncoder := { v.typeEncoder with isConst := b } } v1
      (fun o ho D hD hE => hv o ho D hD hE) h

theorem VisitRecordType_settles (Context : ASTContext)
    (hwf : ∀ o1 ∈ Context.typeObjects, ∀ o2 ∈ Context.typeObjects, o1.1 = o2.1 → o1.2 = o2.2)
    (td : Ptr → Walk)
    (htd : ∀ D, Settles Context (fun E X => bodyCovered Context E X D) (td D))
    (hrd : ∀ D, Replays (td D)) (T D : Ptr) (hobj : (T, some D) ∈ Context.typeObjects) :
    Settles Context (fun E _ => T ∈ E) fun v => VisitRecordType td v T D := by
  intro v v1 hv h
  have hrec : ∀ o ∈ Context.typeObjects, ∀ D', o.2 = some D' → o.1 = T → D' = D := by
    intro o ho D' hD' h1
    have := hwf o ho (T, some D) hobj h1
    rw [hD'] at this
    exact Option.some.inj this
  by_cases hD : D ∈ v.typeEncoder.recordDeclsUnderVisit
  · simp only [VisitRecordType, encodeType_recordDeclsUnderVisit, hD, if_true,
      Option.some.injEq] at h
    subst h
    refine ⟨RunInvariant_step Context v _ hv (fun o ho D' hD' hE => ?_)
      (fun k hk => encodeType_exports_mono _ _ _ _ k hk)
      (fun k hk => by rw [encodeType_exportedTags]; exact hk)
      (fun x hx => by rw [encodeType_recordDeclsUnderVisit]; exact hx), encodeType_marks ..⟩
    rcases encodeType_exports_cases _ _ _ _ _ hE with h1 | h1
    · rw [hrec o ho D' hD' h1, encodeType_recordDeclsUnderVisit]
      exact Or.inr hD
    · exact Or.inl h1
  · simp only [VisitRecordType, encodeType_recordDeclsUnderVisit, hD, if_false] at h
    obtain ⟨v3, h3, h4⟩ := Option.bind_eq_some.1 h
    simp only [Option.some.injEq] at h4
    have hi2 := RunInvariant_enter_record Context hwf v T D hobj hv
    obtain ⟨i3, k3⟩ := htd D _ v3 hi2 h3
    obtain ⟨u3, me, _, _⟩ := hrd D _ v3 h3
    subst h4
    refine ⟨?_, me T (encodeType_marks ..)⟩
    intro o ho D' hD' hE
    rcases i3 o ho D' hD' hE with h1 | h1
    · rw [u3] at h1
      rcases List.mem_cons.1 h1 with h2 | h2
      · exact Or.inr (h2 ▸ k3)
      · refine Or.inl ?_
        show D' ∈ v3.typeEncoder.recordDeclsUnderVisit.erase D
        rw [u3]
        simpa only [List.erase_cons_head] using h2
    · exact Or.inr h1

mutual
theorem Visit_settles (Context : ASTContext)
    (hwf : ∀ o1 ∈ Context.typeObjects, ∀ o2 ∈ Context.typeObjects, o1.1 = o2.1 → o1.2 = o2.2)
    (td : Ptr → Walk)
    (htd : ∀ D, Settles Context (fun E X => bodyCovered Context E X D) (td D))
    (hrd : ∀ D, Replays (td D)) :
    ∀ ty : Ty, (∀ o ∈ ty.objects, o ∈ Context.typeObjects) →
      Settles Context (fun E _ => ∀ o ∈ ty.objects, o.1 ∈ E) (Visit td ty)
  | .BuiltinType T kind, hobj =>
      Settles_weaken Context
        (Settles_encodeType_then Context hwf T _ _ (hobj (T, none) (by simp [Ty.objects])) some
          (Settles_some Context) Replays_some)
        fun _ _ h o ho => by
          simp only [Ty.objects, List.mem_singleton] at ho
          exact ho ▸ h.1
  | .EnumType T decl, hobj =>
      Settles_weaken Context
        (Settles_encodeType_then Context hwf T _ _ (hobj (T, none) (by simp [Ty.objects])) some
          (Settles_some Context) Replays_some)
        fun _ _ h o ho => by
          simp only [Ty.objects, List.mem_singleton] at ho
          exact ho ▸ h.1
  | .ConstantArrayType T t size, hobj =>
      Settles_weaken Context
        (Settles_encodeType_then Context hwf T _ _ (hobj (T, none) (by simp [Ty.objects]))
          (VisitQualType td t)
          (VisitQualType_settles Context hwf td htd hrd t fun o ho =>
            hobj o (by simp [Ty.objects, ho]))
          (VisitQualType_replays td hrd t))
        fun _ _ h o ho => by
          simp only [Ty.objects, List.mem_cons] at ho
          rcases ho with ho | ho
          · exact ho ▸ h.1
          · exact h.2 o ho
  | .VariableArrayType T t, hobj =>
      Settles_weaken Context
        (Settles_encodeType_then Context hwf T _ _ (hobj (T, none) (by simp [Ty.objects]))
          (VisitQualType td t)
          (VisitQualType_settles Context hwf td htd hrd t fun o ho =>
            hobj o (by simp [Ty.objects, ho]))
          (VisitQualType_replays td hrd t))
        fun _ _ h o ho => by
          simp only [Ty.objects, List.mem_cons] at ho
          rcases ho with ho | ho
          · exact ho ▸ h.1
          · exact h.2 o ho
  | .IncompleteArrayType T t, hobj =>
      Settles_weaken Context
        (Settles_encodeType_then Context hwf T _ _ (hobj (T, none) (by simp [Ty.objects]))
          (VisitQualType td t)
          (VisitQualType_settles Context hwf td htd hrd t fun o ho =>
            hobj o (by simp [Ty.objects, ho]))
          (VisitQualType_replays td hrd t))
        fun _ _ h o ho => by
          simp only [Ty.objects, List.mem_cons] at ho
          rcases ho with ho | ho
          · exact ho ▸ h.1
          · exact h.2 o ho
  | .RecordType T D, hobj =>
      Settles_weaken Context
        (VisitRecordType_settles Context hwf td htd hrd T D
          (hobj (T, some D) (by simp [Ty.objects])))
        fun _ _ h o ho => by
          simp only [Ty.objects, List.mem_singleton] at ho
          exact ho ▸ h
  | .FunctionProtoType T ret params, hobj =>
      Settles_weaken Context
        (Settles_bind Context _ _
          (Settles_encodeType_then Context hwf T _ _ (hobj (T, none) (by simp [Ty.objects]))
            (VisitQualType td ret)
            (VisitQualType_settles Context hwf td htd hrd ret fun o ho =>
              hobj o (by simp [Ty.objects, ho]))
            (VisitQualType_replays td hrd ret))
          (VisitQualTypes_settles Context hwf td htd hrd params fun o ho =>
            hobj o (by simp [Ty.objects, ho]))
          (fun _ _ _ _ hE _ h => ⟨hE _ h.1, fun o ho => hE _ (h.2 o ho)⟩)
          (VisitQualTypes_replays td hrd params))
        fun _ _ h o ho => by
          simp only [Ty.objects, List.mem_cons, List.mem_append] at ho
          rcases ho with ho | ho | ho
          · exact ho ▸ h.1.1
          · exact h.1.2 o ho
          · exact h.2 o ho
  | .FunctionNoProtoType T ret, hobj =>
      Settles_weaken Context
        (Settles_encodeType_then Context hwf T _ _ (hobj (T, none) (by simp [Ty.objects]))
          (VisitQualType td ret)
          (VisitQualType_settles Context hwf td htd hrd ret fun o ho =>
            hobj o (by simp [Ty.objects, ho]))
          (VisitQualType_replays td hrd ret))
        fun _ _ h o ho => by
          simp only [Ty.objects, List.mem_cons] at ho
          rcases ho with ho | ho
          · exact ho ▸ h.1
          · exact h.2 o ho
  | .PointerType T pointee, hobj =>
      Settles_weaken Context
        (Settles_encodeType_then Context hwf T _ _ (hobj (T, none) (by simp [Ty.objects]))
          (VisitQualType td pointee)
          (VisitQualType_settles Context hwf td htd hrd pointee fun o ho =>
            hobj o (by simp [Ty.objects, ho]))
          (VisitQualType_replays td hrd pointee))
        fun _ _ h o ho => by
          simp only [Ty.objects, List.mem_cons] at ho
          rcases ho with ho | ho
          · exact ho ▸ h.1
          · exact h.2 o ho
  | .TypedefType T D, hobj =>
      Settles_weaken Context
        (Settles_encodeType_then Context hwf T _ _ (hobj (T, none) (by simp [Ty.objects])) some
          (Settles_some Context) Replays_some)
        fun _ _ h o ho => by
          simp only [Ty.objects, List.mem_singleton] at ho
          exact ho ▸ h.1
  | .TypeOfType T t, hobj =>
      Settles_weaken Context
        (Settles_encodeType_then Context hwf T _ _ (hobj (T, none) (by simp [Ty.objects]))
          (VisitQualType td t)
          (VisitQualType_settles Context hwf td htd hrd t fun o ho =>
            hobj o (by simp [Ty.objects, ho]))
          (VisitQualType_replays td hrd t))
        fun _ _ h o ho => by
          simp only [Ty.objects, List.mem_cons] at ho
          rcases ho with ho | ho
          · exact ho ▸ h.1
          · exact h.2 o ho
  | .ElaboratedType T t, hobj =>
      Settles_weaken Context
        (Settles_encodeType_then Context hwf T _ _ (hobj (T, none) (by simp [Ty.objects]))
          (VisitQualType td t)
          (VisitQualType_settles Context hwf td htd hrd t fun o ho =>
            hobj o (by simp [Ty.objects, ho]))
          (VisitQualType_replays td hrd t))
        fun _ _ h o ho => by
          simp only [Ty.objects, List.mem_cons] at ho
          rcases ho with ho | ho
          · exact ho ▸ h.1
          · exact h.2 o ho
  | .DecayedType T t, hobj =>
      Settles_weaken Context
        (Settles_encodeType_then Context hwf T _ _ (hobj (T, none) (by simp [Ty.objects]))
          (VisitQualType td t)
          (VisitQualType_settles Context hwf td htd hrd t fun o ho =>
            hobj o (by simp [Ty.objects, ho]))
          (VisitQualType_replays td hrd t))
        fun _ _ h o ho => by
          simp only [Ty.objects, List.mem_cons] at ho
          rcases ho with ho | ho
          · exact ho ▸ h.1
          · exact h.2 o ho
  | .Unhandled _, _ =>
      Settles_weaken Context (Settles_some Context) fun _ _ _ o ho => by
        simp [Ty.objects] at ho
theorem VisitQualType_settles (Context : ASTContext)
    (hwf : ∀ o1 ∈ Context.typeObjects, ∀ o2 ∈ Context.typeObjects, o1.1 = o2.1 → o1.2 = o2.2)
    (td : Ptr → Walk)
    (htd : ∀ D, Settles Context (fun E X => bodyCovered Context E X D) (td D))
    (hrd : ∀ D, Replays (td D)) :
    ∀ QT : QualType, (∀ o ∈ QT.objects, o ∈ Context.typeObjects) →
      Settles Context (fun E _ => ∀ o ∈ QT.objects, o.1 ∈ E) (VisitQualType td QT)
  | .null, _ =>
      Settles_weaken Context (Settles_some Context) fun _ _ _ o ho => by
        simp [QualType.objects] at ho
  | .mk ty hasConst, hobj =>
      Settles_setConst_then Context hasConst (Visit td ty)
        (Visit_settles Context hwf td htd hrd ty hobj)
theorem VisitQualTypes_settles (Context : ASTContext)
    (hwf : ∀ o1 ∈ Context.typeObjects, ∀ o2 ∈ Context.typeObjects, o1.1 = o2.1 → o1.2 = o2.2)
    (td : Ptr → Walk)
    (htd : ∀ D, Settles Context (fun E X => bodyCovered Context E X D) (td D))
    (hrd : ∀ D, Replays (td D)) :
    ∀ QTs : List QualType, (∀ o ∈ objectsOfTypes QTs, o ∈ Context.typeObjects) →
      Settles Context (fun E _ => ∀ o ∈ objectsOfTypes QTs, o.1 ∈ E) (VisitQualTypes td QTs)
  | [], _ =>
      Settles_weaken Context (Settles_some Context) fun _ _ _ o ho => by
        simp [objectsOfTypes] at ho
  | x :: xs, hobj =>
      Settles_weaken Context
        (Settles_bind Context _ _
          (VisitQualType_settles Context hwf td htd hrd x fun o ho =>
            hobj o (by simp [objectsOfTypes, ho]))
          (VisitQualTypes_settles Context hwf td htd hrd xs fun o ho =>
            hobj o (by simp [objectsOfTypes, ho]))
          (fun _ _ _ _ hE _ h o ho => hE _ (h o ho))
          (VisitQualTypes_replays td hrd xs))
        fun _ _ h o ho => by
          simp only [objectsOfTypes, List.mem_append] at ho
          rcases ho with ho | ho
          · exact h.1 o ho
          · exact h.2 o ho
end

theorem WalkUpFrom_settles (Context : ASTContext)
    (hwf : ∀ o1 ∈ Context.typeObjects, ∀ o2 ∈ Context.typeObjects, o1.1 = o2.1 → o1.2 = o2.2)
    (td : Ptr → Walk)
    (htd : ∀ D, Settles Context (fun E X => bodyCovered Context E X D) (td D))
    (hrd : ∀ D, Replays (td D)) (p : Ptr) (loc : SourceLocation) (kind : NodeKind)
    (walked : List Node)
    (hobj : ∀ o ∈ (Node.mk p loc kind walked).typeObjects, o ∈ Context.typeObjects) :
    Settles Context (fun E X => Node.inside X E (.mk p loc kind walked))
      fun v => (WalkUpFrom td p loc kind v).map Prod.snd := by
  intro v v1 hv h
  replace h : (WalkUpFrom td p loc kind v).map Prod.snd = some v1 := h
  rw [WalkUpFrom_snd] at h
  cases hk : kind.handler with
  | none =>
    simp only [hk, Option.some.injEq] at h
    subst h
    exact ⟨hv, fun k hk' => by simp [Node.key, Node.kind, hk] at hk',
      fun o ho => by simp [Node.typeObjects, Node.kind, hk] at ho⟩
  | some c =>
    simp only [hk] at h
    obtain ⟨i1, k1, k2⟩ := Settles_entry_then Context p c.tag loc c.ty c.childIds c.extra
      (VisitQualType td c.visited)
      (VisitQualType_settles Context hwf td htd hrd c.visited fun o ho =>
        hobj o (by simpa [Node.typeObjects, Node.kind, hk] using ho))
      (VisitQualType_replays td hrd c.visited) v v1 hv h
    refine ⟨i1, fun k hk' => ?_, fun o ho => ?_⟩
    · simp only [Node.key, Node.kind, Node.addr, hk, Option.map_some', Option.some.injEq] at hk'
      exact hk' ▸ k1
    · exact k2 o (by simpa [Node.typeObjects, Node.kind, hk] using ho)

mutual
theorem traverse_settles (Context : ASTContext)
    (hwf : ∀ o1 ∈ Context.typeObjects, ∀ o2 ∈ Context.typeObjects, o1.1 = o2.1 → o1.2 = o2.2)
    (td : Ptr → Walk)
    (htd : ∀ D, Settles Context (fun E X => bodyCovered Context E X D) (td D))
    (hrd : ∀ D, Replays (td D)) :
    ∀ n : Node, (∀ m ∈ Node.subtree n, m ∈ Context.nodes) →
      Settles Context (fun E X => n.covered E X) fun v => (traverse td n v).map Prod.snd
  | .mk p loc kind walked, hn => by
      have h : (fun v => (traverse td (.mk p loc kind walked) v).map Prod.snd) =
          fun v => ((WalkUpFrom td p loc kind v).map Prod.snd).bind fun v1 =>
            (traverseAll td walked v1).map Prod.snd := funext fun v => traverse_snd ..
      rw [h]
      refine Settles_weaken Context
        (Settles_bind Context _ _
          (WalkUpFrom_settles Context hwf td htd hrd p loc kind walked fun o ho =>
            List.mem_flatMap.2 ⟨_, hn _ (by simp [Node.subtree]), ho⟩)
          (traverseAll_settles Context hwf td htd hrd walked fun m hm =>
            hn m (by simp [Node.subtree, hm]))
          (inside_mono _) (traverseAll_replays td hrd walked))
        fun E X hc m hm => ?_
      simp only [Node.subtree, List.mem_cons] at hm
      rcases hm with hm | hm
      · exact hm ▸ hc.1
      · exact hc.2 m hm
theorem traverseAll_settles (Context : ASTContext)
    (hwf : ∀ o1 ∈ Context.typeObjects, ∀ o2 ∈ Context.typeObjects, o1.1 = o2.1 → o1.2 = o2.2)
    (td : Ptr → Walk)
    (htd : ∀ D, Settles Context (fun E X => bodyCovered Context E X D) (td D))
    (hrd : ∀ D, Replays (td D)) :
    ∀ ns : List Node, (∀ m ∈ Node.subtrees ns, m ∈ Context.nodes) →
      Settles Context (fun E X => ∀ m ∈ Node.subtrees ns, m.inside X E)
        fun v => (traverseAll td ns v).map Prod.snd
  | [], _ =>
      Settles_weaken Context (Settles_some Context) fun _ _ _ m hm => by
        simp [Node.subtrees] at hm
  | n :: ns, hn => by
      have h : (fun v => (traverseAll td (n :: ns) v).map Prod.snd) =
          fun v => ((traverse td n v).map Prod.snd).bind fun v1 =>
            (traverseAll td ns v1).map Prod.snd := funext fun v => traverseAll_snd ..
      rw [h]
      refine Settles_weaken Context
        (Settles_bind Context _ _
          (traverse_settles Context hwf td htd hrd n fun m hm =>
            hn m (by simp [Node.subtrees, hm]))
          (traverseAll_settles Context hwf td htd hrd ns fun m hm =>
            hn m (by simp [Node.subtrees, hm]))
          (covered_mono n) (traverseAll_replays td hrd ns))
        fun E X hc m hm => ?_
      simp only [Node.subtrees, List.mem_append] at hm
      rcases hm with hm | hm
      · exact hc.1 m hm
      · exact hc.2 m hm
end

theorem TraverseDecl_settles (Context : ASTContext)
    (hwf : ∀ o1 ∈ Context.typeObjects, ∀ o2 ∈ Context.typeObjects, o1.1 = o2.1 → o1.2 = o2.2) :
    ∀ (fuel : Nat) (n : Node), (∀ m ∈ Node.subtree n, m ∈ Context.nodes) →
      Settles Context (fun E X => n.covered E X)
        fun v => (TraverseDecl Context fuel n v).map Prod.snd
  | 0, _, _ => by
      intro v v1 _ h
      simp [TraverseDecl] at h
  | fuel + 1, n, hn => by
      rw [TraverseDecl_succ]
      refine traverse_settles Context hwf _ (fun D => ?_) (nestedWalk_replays Context fuel) n hn
      intro v v1 hv h
      unfold nestedWalk at h
      cases hg : Context.getDecl D with
      | none =>
        simp only [hg, Option.some.injEq] at h
        subst h
        exact ⟨hv, fun m hm => by simp [hg] at hm⟩
      | some m =>
        simp only [hg] at h
        obtain ⟨i1, k1⟩ := TraverseDecl_settles Context hwf fuel m
          (getDecl_subtree_nodes Context D m hg) v v1 hv h
        exact ⟨i1, fun m' hm' => by
          rw [hg] at hm'
          exact Option.some.inj hm' ▸ k1⟩

theorem nestedWalk_settles (Context : ASTContext)
    (hwf : ∀ o1 ∈ Context.typeObjects, ∀ o2 ∈ Context.typeObjects, o1.1 = o2.1 → o1.2 = o2.2)
    (fuel : Nat) (D : Ptr) :
    Settles Context (fun E X => bodyCovered Context E X D) (nestedWalk Context fuel D) := by
  intro v v1 hv h
  unfold nestedWalk at h
  cases hg : Context.getDecl D with
  | none =>
    simp only [hg, Option.some.injEq] at h
    subst h
    exact ⟨hv, fun m hm => by simp [hg] at hm⟩
  | some m =>
    simp only [hg] at h
    obtain ⟨i1, k1⟩ := TraverseDecl_settles Context hwf fuel m
      (getDecl_subtree_nodes Context D m hg) v v1 hv h
    exact ⟨i1, fun m' hm' => by
      rw [hg] at hm'
      exact Option.some.inj hm' ▸ k1⟩

theorem nestedWalk_returns (Context : ASTContext) (fuel : Nat) (u : List Ptr) (hn : u.Nodup)
    (hs : ∀ D ∈ u, D ∈ Context.recordDecls.map Node.addr)
    (hb : Context.recordDecls.length ≤ fuel + u.length) :
    CallbackReturns u (nestedWalk Context fuel) := by
  intro D hD v hv
  unfold nestedWalk
  cases hg : Context.getDecl D with
  | none => exact ⟨v, rfl, hv⟩
  | some m =>
    obtain ⟨v1, h1, hu1⟩ := TraverseDecl_returns Context fuel (D :: u)
      (List.nodup_cons.2 ⟨hD, hn⟩)
      (fun x hx => by
        rcases List.mem_cons.1 hx with hx | hx
        · exact hx ▸ getDecl_some_mem Context D m hg
        · exact hs x hx)
      (by simp only [List.length_cons]; omega) m v hv
    exact ⟨v1, by simp [h1], hu1⟩

/-! ## Encoding a second time, after the first has returned -/

/-- Claim C27, amended: a second `encode_entry_raw` for the same node and tag, and a
second `encodeType` for the same type object, change nothing.  During a run the visitor
satisfies `RunInvariant` whenever a `Visit…` method, a walk or `VisitQualType` is entered
or left: the fresh visitor does; `encode_entry_raw`, `encodeType` for a type that is not a
record type, the assignment to `isConst`, and `encodeType` for a record type followed by
putting its declaration under visit keep it; so do the walk of any tree, every `Visit…`
method and `VisitQualType` as a whole.  A `VisitQualType` on a type
of the translation unit (also the one at the end of the `encode_entry` of an expression)
that starts after an earlier one on the same type has returned writes no entry and
leaves the file table as it is, together with every walk of a record body it makes,
whatever is under visit at either call; and it returns when the fuel covers the record
declarations not under visit.  In particular, after the run of the translation unit a
visit of the type of any walked node writes nothing.  The hypothesis is that an address belongs to one type
object: two type objects of the translation unit with the same address are both record
types of one declaration, or both not record types. -/
theorem reexport_is_noop (Context : ASTContext)
    (hwf : ∀ o1 ∈ Context.typeObjects, ∀ o2 ∈ Context.typeObjects, o1.1 = o2.1 → o1.2 = o2.2) :
    (∀ (v : TranslateASTVisitor) (ast : Ptr) (tag : ASTEntryTag) (loc loc2 : SourceLocation)
        (ty ty2 : Ptr) (childIds childIds2 : List Ptr) (extra extra2 : List CborValue),
        encode_entry_raw (encode_entry_raw v ast tag loc ty childIds extra) ast tag loc2 ty2
            childIds2 extra2 =
          encode_entry_raw v ast tag loc ty childIds extra) ∧
      (∀ (v : TranslateASTVisitor) (T : Ptr) (tag tag2 : TypeTag) (extra extra2 : List CborValue),
        encodeType (encodeType v T tag extra) T tag2 extra2 = encodeType v T tag extra) ∧
      RunInvariant Context TranslateASTVisitor.init ∧
      (∀ (v : TranslateASTVisitor) (ast : Ptr) (tag : ASTEntryTag) (loc : SourceLocation)
        (ty : Ptr) (childIds : List Ptr) (extra : List CborValue), RunInvariant Context v →
        RunInvariant Context (encode_entry_raw v ast tag loc ty childIds extra)) ∧
      (∀ (v : TranslateASTVisitor) (T : Ptr) (tag : TypeTag) (extra : List CborValue),
        (T, none) ∈ Context.typeObjects → RunInvariant Context v →
        RunInvariant Context (encodeType v T tag extra)) ∧
      (∀ (v : TranslateASTVisitor) (c : Bool), RunInvariant Context v →
        RunInvariant Context { v with typeEncoder := { v.typeEncoder with isConst := c } }) ∧
      (∀ (v : TranslateASTVisitor) (T D : Ptr), (T, some D) ∈ Context.typeObjects →
        RunInvariant Context v →
        RunInvariant Context
          { encodeType v T .TagRecordType [.uint D] with
            typeEncoder := { (encodeType v T .TagRecordType [.uint D]).typeEncoder with
              recordDeclsUnderVisit := D :: v.typeEncoder.recordDeclsUnderVisit } }) ∧
      (∀ (fuel : Nat) (n : Node), (∀ m ∈ Node.subtree n, m ∈ Context.nodes) →
        ∀ (v : TranslateASTVisitor) (r : Visited), RunInvariant Context v →
          TraverseDecl Context fuel n v = some r → RunInvariant Context r.2) ∧
      (∀ (fuel : Nat) (p : Ptr) (loc : SourceLocation) (kind : NodeKind) (walked : List Node),
        Node.mk p loc kind walked ∈ Context.nodes →
        ∀ (v : TranslateASTVisitor) (r : Visited), RunInvariant Context v →
          WalkUpFrom (nestedWalk Context fuel) p loc kind v = some r →
          RunInvariant Context r.2) ∧
      (∀ (fuel : Nat) (QT : QualType), (∀ o ∈ QT.objects, o ∈ Context.typeObjects) →
        ∀ v v1 : TranslateASTVisitor, RunInvariant Context v →
          VisitQualType (nestedWalk Context fuel) QT v = some v1 → RunInvariant Context v1) ∧
      (∀ (fuel1 fuel2 : Nat) (QT : QualType), (∀ o ∈ QT.objects, o ∈ Context.typeObjects) →
        ∀ v v1 w : TranslateASTVisitor, RunInvariant Context v →
          VisitQualType (nestedWalk Context fuel1) QT v = some v1 →
          RunInvariant Context w →
          (∀ k ∈ v1.typeEncoder.exports, k ∈ w.typeEncoder.exports) →
          (∀ w1, VisitQualType (nestedWalk Context fuel2) QT w = some w1 →
            w1.encoder = w.encoder ∧ w1.filenames = w.filenames) ∧
          (w.typeEncoder.recordDeclsUnderVisit.Nodup →
            (∀ D ∈ w.typeEncoder.recordDeclsUnderVisit,
              D ∈ Context.recordDecls.map Node.addr) →
            Context.recordDecls.length ≤ fuel2 + w.typeEncoder.recordDeclsUnderVisit.length →
            ∃ w1, VisitQualType (nestedWalk Context fuel2) QT w = some w1)) ∧
      (∀ (fuel1 fuel2 : Nat) (ast : Ptr) (tag : ASTEntryTag) (loc : SourceLocation)
        (ty : QualType) (childIds : List Ptr) (extra : List CborValue),
        (∀ o ∈ ty.objects, o ∈ Context.typeObjects) →
        ∀ v v1 w : TranslateASTVisitor, RunInvariant Context v →
          encode_entry_Expr (nestedWalk Context fuel1) v ast tag loc ty childIds extra =
            some v1 →
          RunInvariant Context w →
          (∀ k ∈ v1.typeEncoder.exports, k ∈ w.typeEncoder.exports) →
          (∀ k ∈ v1.exportedTags, k ∈ w.exportedTags) →
          ∀ w1, encode_entry_Expr (nestedWalk Context fuel2) w ast tag loc ty childIds extra =
              some w1 →
            w1.encoder = w.encoder ∧ w1.filenames = w.filenames) ∧
      (∃ v, TraverseDecl Context Context.fuel Context.getTranslationUnitDecl
            TranslateASTVisitor.init = some (true, v) ∧
          RunInvariant Context v ∧
          ∀ m ∈ Node.subtree Context.getTranslationUnitDecl, ∀ c, m.kind.handler = some c →
            ∀ (fuel : Nat) (w1 : TranslateASTVisitor),
              VisitQualType (nestedWalk Context fuel) c.visited v = some w1 →
              w1.encoder = v.encoder ∧ w1.filenames = v.filenames) := by
  have hS := fun fuel => VisitQualType_settles Context hwf (nestedWalk Context fuel)
    (nestedWalk_settles Context hwf fuel) (nestedWalk_replays Context fuel)
  have hN := fun fuel => VisitQualType_silent Context (nestedWalk Context fuel)
    (nestedWalk_silent Context fuel)
  refine ⟨?_, ?_, RunInvariant_init Context,
    fun v ast tag loc ty childIds extra hv =>
      RunInvariant_encode_entry_raw Context v ast tag loc ty childIds extra hv,
    fun v T tag extra hobj hv => RunInvariant_encodeType Context hwf v T tag extra hobj hv,
    fun v c hv o ho D hD hE => hv o ho D hD hE,
    fun v T D hobj hv => RunInvariant_enter_record Context hwf v T D hobj hv,
    ?_, ?_, ?_, ?_, ?_, ?_⟩
  · intro v ast tag loc loc2 ty ty2 childIds childIds2 extra extra2
    exact encode_entry_raw_seen _ _ _ _ _ _ _ (encode_entry_raw_marks ..)
  · intro v T tag tag2 extra extra2
    exact encodeType_seen _ _ _ _ (encodeType_marks ..)
  · intro fuel n hn v r hv h
    exact (TraverseDecl_settles Context hwf fuel n hn v r.2 hv
      (congrArg (Option.map Prod.snd) h)).1
  · intro fuel p loc kind walked hm v r hv h
    exact (WalkUpFrom_settles Context hwf (nestedWalk Context fuel)
      (nestedWalk_settles Context hwf fuel) (nestedWalk_replays Context fuel) p loc kind walked
      (fun o ho => List.mem_flatMap.2 ⟨_, hm, ho⟩) v r.2 hv
      (congrArg (Option.map Prod.snd) h)).1
  · intro fuel QT hQT v v1 hv h
    exact (hS fuel QT hQT v v1 hv h).1
  · intro fuel1 fuel2 QT hQT v v1 w hv h hw he
    have hc := (hS fuel1 QT hQT v v1 hv h).2
    refine ⟨fun w1 h1 => ?_, fun hn hs hb => ?_⟩
    · have s := hN fuel2 QT hQT w w1 hw (fun o ho => he _ (hc o ho)) h1
      exact ⟨s.1, s.2.1⟩
    · obtain ⟨w1, h1, _⟩ := VisitQualType_returns _ (nestedWalk Context fuel2)
        (nestedWalk_returns Context fuel2 _ hn hs hb) QT w rfl
      exact ⟨w1, h1⟩
  · intro fuel1 fuel2 ast tag loc ty childIds extra hty v v1 w hv h hw he ht w1 h1
    obtain ⟨_, k1, k2⟩ := Settles_entry_then Context ast tag loc ty.getTypePtrOrNull childIds
      extra (VisitQualType (nestedWalk Context fuel1) ty) (hS fuel1 ty hty)
      (VisitQualType_replays _ (nestedWalk_replays Context fuel1) ty) v v1 hv h
    have s := Silent_entry_then Context ast tag loc ty.getTypePtrOrNull childIds extra
      (VisitQualType (nestedWalk Context fuel2) ty) (hN fuel2 ty hty) w w1 hw
      ⟨ht _ k1, fun o ho => he _ (k2 o ho)⟩ h1
    exact ⟨s.1, s.2.1⟩
  · obtain ⟨v, hv, _⟩ := exportedDocument_returns id Context
    have hroot : ∀ m ∈ Node.subtree Context.getTranslationUnitDecl, m ∈ Context.nodes :=
      fun m hm => List.mem_append.2 (Or.inl hm)
    obtain ⟨i1, k1⟩ := TraverseDecl_settles Context hwf Context.fuel
      Context.getTranslationUnitDecl hroot TranslateASTVisitor.init v
      (RunInvariant_init Context) (congrArg (Option.map Prod.snd) hv)
    refine ⟨v, hv, i1, fun m hm c hc fuel w1 h1 => ?_⟩
    have hin : ∀ o ∈ c.visited.objects, o ∈ m.typeObjects := fun o ho => by
      simpa [Node.typeObjects, hc] using ho
    have s := hN fuel c.visited
      (fun o ho => List.mem_flatMap.2 ⟨m, hroot m hm, hin o ho⟩) v w1 i1
      (fun o ho => (k1 m hm).2 o (hin o ho)) h1
    exact ⟨s.1, s.2.1⟩

/-- Evaluation for `reexport_is_noop`, on
`struct S s; struct S { int x : sizeof((struct S *)0); };`.  The first visit of
`struct S *` is made while `struct S` is under visit and writes the pointer's entry; a
visit made after the run, with nothing under visit, walks the body of `struct S` again
and writes nothing.  The theorem gives the same for the visit from a fresh visitor and
its repetition. -/
theorem reexport_is_noop_witness :
    (VisitQualType (nestedWalk Example.useFirstUnit 0) (.mk Example.tySPtr false)
        Example.duringUse).map (fun s => s.encoder) =
      some (Example.duringUse.encoder ++ [Entry.type 0x1050 .TagPointer [.uint 0x1040]]) ∧
    (exportedDocument id Example.useFirstUnit).map (fun d => d.entries.take 9) =
      some Example.duringUse.encoder ∧
    (TraverseDecl Example.useFirstUnit 2 Example.useFirstUnit.getTranslationUnitDecl
        TranslateASTVisitor.init).map (fun r => r.2.encoder.map Entry.entity_id) =
      some [0x2020, 0x2200, 0x1040, 0x1030, 0x2040, 0x2080, 0x20a0, 0x1000, 0x20e0, 0x1050,
        0x2100, 0x2140] ∧
    ((TraverseDecl Example.useFirstUnit 2 Example.useFirstUnit.getTranslationUnitDecl
        TranslateASTVisitor.init).bind fun r =>
      VisitQualType (nestedWalk Example.useFirstUnit 1) (.mk Example.tySPtr false) r.2).map
        (fun s => s.encoder.map Entry.entity_id) =
      some [0x2020, 0x2200, 0x1040, 0x1030, 0x2040, 0x2080, 0x20a0, 0x1000, 0x20e0, 0x1050,
        0x2100, 0x2140] ∧
    ∀ v1, VisitQualType (nestedWalk Example.useFirstUnit 1) (.mk Example.tySPtr false)
        TranslateASTVisitor.init = some v1 →
      ∀ w1, VisitQualType (nestedWalk Example.useFirstUnit 1) (.mk Example.tySPtr false) v1 =
          some w1 →
        w1.encoder = v1.encoder ∧ w1.filenames = v1.filenames := by
  refine ⟨by decide!, by decide!, by decide!, by decide!, fun v1 h w1 h1 => ?_⟩
  obtain ⟨_, _, hi, _, _, _, _, _, _, hk, hs, _, _⟩ :=
    reexport_is_noop Example.useFirstUnit (by decide!)
  exact (hs 1 1 (.mk Example.tySPtr false) (by decide!) TranslateASTVisitor.init v1 v1 hi h
    (hk 1 (.mk Example.tySPtr false) (by decide!) TranslateASTVisitor.init v1 hi h)
    (fun _ hk' => hk')).1 w1 h1

end AstExtractor
